import Mathlib

/-!
# MIME view of claws-mail (src/mimeview.c)

A shallow embedding of the MIME part tree view: the part graph is an arena of
`MimeInfo` records addressed by index (a C pointer is an `Option Nat`, `none`
being `NULL`), the `GtkCTree` is the sequence of rows in insertion order, and
calls into collaborators (text view, image view, extractor, dialogs) are
recorded as a trace of events.

Functions that follow pointers through the arena take a fuel argument and
return `none` when the fuel runs out or a pointer leaves the arena.
-/

namespace ClawsMail

/-! ## Data model -/

/-- Modelled from the spec: the `ContentType` enumeration of procmime.h (the
header is not in the source tree); the constructors are the values
mimeview.c switches on, `MIME_UNKNOWN` standing for every other value. -/
inductive ContentType where
  | MIME_TEXT
  | MIME_TEXT_HTML
  | MIME_MESSAGE_RFC822
  | MIME_APPLICATION
  | MIME_APPLICATION_OCTET_STREAM
  | MIME_MULTIPART
  | MIME_IMAGE
  | MIME_AUDIO
  | MIME_UNKNOWN
  deriving DecidableEq, Repr

/-- Modelled from the spec: the `MimeInfo` record of procmime.h (the header is
not in the source tree), with the fields mimeview.c reads or writes. Pointers
to other parts are arena indices. -/
structure MimeInfo where
  mime_type : ContentType
  content_type : Option String
  name : Option String
  filename : Option String
  fpos : Int
  size : Nat
  main : Option Nat
  sub : Option Nat
  next : Option Nat
  parent : Option Nat
  children : Option Nat
  plaintextfile : Option String
  sigstatus : Option String
  sigstatus_full : Option String
  deriving DecidableEq, Repr

/-- The arena holding every part of the message. -/
abbrev Heap := List MimeInfo

/-- Columns of a row: `COL_MIMETYPE`, `COL_SIZE`, `COL_NAME`. -/
structure Columns where
  mimetype : String
  size : String
  name : String
  deriving DecidableEq, Repr

/-- One node of the `GtkCTree`: its parent node (`none` for a top-level
row), its column texts and its row data (the part it stands for). A
`GtkCTreeNode *` is the index of the row in insertion order. -/
structure Row where
  parent : Option Nat
  str : Columns
  data : Nat
  deriving DecidableEq, Repr

/-- Modelled from the spec: the `AlertValue` enumeration of alertpanel.h
(the header is not in the source tree): the answer of a dialog,
`G_ALERTDEFAULT` being its first button. -/
inductive AlertValue where
  | G_ALERTDEFAULT
  | G_ALERTALTERNATE
  | G_ALERTOTHER
  deriving DecidableEq, Repr

/-- Compile-time configuration and collaborators whose results the view
only consumes: the build flags (`USE_GPGME`, image support), the constant
`BUFFSIZE`, the preferences `auto_check_signatures`, `mime_image_viewer`,
`mime_audio_player` and `uri_cmd`, the file system, the parser and extractor
of procmime, the signature functions of rfc2015 and the dialogs. A collaborator that changes the part graph returns the new
arena. -/
structure Env where
  use_gpgme : Bool
  have_image : Bool
  to_human_readable : Nat → String
  widget_has_grab : Bool
  pointer_is_grabbed : Bool
  fopen : String → Bool
  fseek : String → Int → Bool
  procmime_get_tmp_file_name : Nat → String
  procmime_get_part : String → Option String → Nat → Int
  buffsize : Nat
  file_content : String → List Char
  auto_check_signatures : Bool
  procmime_scan_multipart_message : Heap → Nat → String → Nat → Heap
  rfc2015_has_signature : Heap → Nat → Bool
  rfc2015_find_signature : Heap → Nat → Option Nat
  rfc2015_check_signature : Heap → Nat → String → Heap
  get_mime_tmp_dir : String
  filesel_select_file : String → Option String → Option String
  is_file_exist : String → Bool
  alertpanel : String → String → AlertValue
  mime_image_viewer : Option String
  mime_audio_player : Option String
  uri_cmd : Option String

/-! ## TreeFlattener: `mimeview_set_multipart_tree` -/

/-- Embeds `get_part_name` (mimeview.c 333-346). -/
def get_part_name (env : Env) (partinfo : MimeInfo) : String :=
  if env.use_gpgme && partinfo.sigstatus.isSome then
    partinfo.sigstatus.getD ""
  else if partinfo.name.isSome then
    partinfo.name.getD ""
  else if partinfo.filename.isSome then
    partinfo.filename.getD ""
  else
    ""

/-- The row `mimeview_append_part` builds for a part (mimeview.c 356-364):
the three column texts, the parent node, and the part as row data. -/
def part_row (env : Env) (p : Nat) (partinfo : MimeInfo) (parent : Option Nat) : Row :=
  { parent := parent,
    str := { mimetype := partinfo.content_type.getD ""
             size := env.to_human_readable partinfo.size
             name := get_part_name env partinfo },
    data := p }

/-- Embeds `mimeview_append_part` (mimeview.c 348-367): the new node is
inserted as the last child of `parent`, which puts its row after every row
inserted before; the node is returned with the extended tree. -/
def mimeview_append_part (env : Env) (ctree : List Row) (p : Nat)
    (partinfo : MimeInfo) (parent : Option Nat) : List Row × Option Nat :=
  (ctree ++ [part_row env p partinfo parent], some ctree.length)

/-- The condition under which a part gets a row of its own (mimeview.c
316): `!mimeinfo->main && mimeinfo->parent`. -/
def shown (mimeinfo : MimeInfo) : Bool :=
  mimeinfo.main.isNone && mimeinfo.parent.isSome

/-- The first statement of `mimeview_set_multipart_tree` (mimeview.c
316-317): `if (!mimeinfo->main && mimeinfo->parent) parent =
mimeview_append_part(mimeview, mimeinfo, parent);`. Returns the tree and
the value of the local `parent` afterwards. -/
def set_own_row (env : Env) (ctree : List Row) (p : Nat) (mimeinfo : MimeInfo)
    (parent : Option Nat) : List Row × Option Nat :=
  if shown mimeinfo then
    mimeview_append_part env ctree p mimeinfo parent
  else (ctree, parent)

mutual

/-- Embeds `mimeview_set_multipart_tree` (mimeview.c 310-331). -/
def mimeview_set_multipart_tree (env : Env) (h : Heap) :
    Nat → Option Nat → Option Nat → List Row → Option (List Row)
  | 0, _, _, _ => none
  | _ + 1, none, _, ctree => some ctree
  | fuel + 1, some p, parent, ctree =>
    match h[p]? with
    | none => none
    | some mimeinfo =>
      let st : List Row × Option Nat := set_own_row env ctree p mimeinfo parent
      let afterSub : Option (List Row) :=
        match mimeinfo.sub with
        | none => some st.1
        | some s =>
          match h[s]? with
          | none => none
          | some sub =>
            if sub.children.isSome then
              mimeview_set_multipart_tree env h fuel (some s) st.2 st.1
            else some st.1
      match afterSub with
      | none => none
      | some ctree2 => set_children env h fuel mimeinfo.children st.2 ctree2

/-- The `while (child)` loop of `mimeview_set_multipart_tree`
(mimeview.c 326-329). -/
def set_children (env : Env) (h : Heap) :
    Nat → Option Nat → Option Nat → List Row → Option (List Row)
  | 0, _, _, _ => none
  | _ + 1, none, _, ctree => some ctree
  | fuel + 1, some c, parent, ctree =>
    match mimeview_set_multipart_tree env h fuel (some c) parent ctree with
    | none => none
    | some ctree2 =>
      match h[c]? with
      | none => none
      | some child => set_children env h fuel child.next parent ctree2

end

/-- The row sequence built for a message: `mimeview_set_multipart_tree`
called on the root with a `NULL` parent node on a cleared tree, as
`mimeview_show_message` does (mimeview.c 292). -/
def flatten (env : Env) (h : Heap) (fuel : Nat) (root : Nat) : Option (List Row) :=
  mimeview_set_multipart_tree env h fuel (some root) none []

/-! ### Well-formed part graphs -/

/-- A link of part `p` is absent, or stays inside the arena and leads to a
part of smaller rank. -/
def linkOk (h : Heap) (rank : Nat → Nat) (p : Nat) (l : Option Nat) : Bool :=
  match l with
  | none => true
  | some q => decide (q < h.length) && decide (rank q < rank p)

/-- The `sub`, `children` and `next` links of part `p` are in order. -/
def nodeOk (h : Heap) (rank : Nat → Nat) (p : Nat) : Bool :=
  match h[p]? with
  | none => true
  | some mimeinfo =>
    linkOk h rank p mimeinfo.sub && linkOk h rank p mimeinfo.children &&
      linkOk h rank p mimeinfo.next

/-- The part graph is closed and acyclic along `sub`, `children` and `next`:
`rank` decreases along every such link. -/
def Acyclic (h : Heap) (rank : Nat → Nat) : Prop :=
  ∀ p, p < h.length → nodeOk h rank p = true

instance (h : Heap) (rank : Nat → Nat) : Decidable (Acyclic h rank) := by
  unfold Acyclic
  infer_instance

/-- The `parent` link of part `p` is in order. -/
def parentOk (h : Heap) (rank : Nat → Nat) (p : Nat) : Bool :=
  match h[p]? with
  | none => true
  | some mimeinfo => linkOk h rank p mimeinfo.parent

/-- The parent links are closed and acyclic: `rank` decreases along every
`parent` link. -/
def ParentAcyclic (h : Heap) (rank : Nat → Nat) : Prop :=
  ∀ p, p < h.length → parentOk h rank p = true

instance (h : Heap) (rank : Nat → Nat) : Decidable (ParentAcyclic h rank) := by
  unfold ParentAcyclic
  infer_instance

/-! ### Big-step presentation of the traversal

`Run env h call parent ctree out` holds when the call terminates from tree
`ctree` with local `parent` and leaves the tree `out`. It is equivalent to
the fuelled functions (`run_of_fuel`, `fuel_of_run`) and gives the
induction principle used below. -/

/-- The three places of the traversal: a call of
`mimeview_set_multipart_tree`, the visit of `mimeinfo->sub` (line 319-320)
and the loop over the children from a given child (line 326-329). -/
inductive Call where
  | tree (p : Option Nat)
  | sub (s : Option Nat)
  | children (c : Option Nat)
  deriving DecidableEq, Repr

/-- The fuelled functions, by place. -/
def exec (env : Env) (h : Heap) (fuel : Nat) :
    Call → Option Nat → List Row → Option (List Row)
  | .tree p, parent, ctree => mimeview_set_multipart_tree env h fuel p parent ctree
  | .sub none, _, ctree => some ctree
  | .sub (some s), parent, ctree =>
    match h[s]? with
    | none => none
    | some sub =>
      if sub.children.isSome then
        mimeview_set_multipart_tree env h fuel (some s) parent ctree
      else some ctree
  | .children c, parent, ctree => set_children env h fuel c parent ctree

/-- The big-step relation of the traversal: one rule for each way through
`mimeview_set_multipart_tree`, the visit of `sub` and the children loop. -/
inductive Run (env : Env) (h : Heap) :
    Call → Option Nat → List Row → List Row → Prop
  | tree_null (parent : Option Nat) (ctree : List Row) :
      Run env h (.tree none) parent ctree ctree
  | tree_node (p : Nat) (mimeinfo : MimeInfo) (parent : Option Nat)
      (ctree mid out : List Row) :
      h[p]? = some mimeinfo →
      Run env h (.sub mimeinfo.sub) (set_own_row env ctree p mimeinfo parent).2
        (set_own_row env ctree p mimeinfo parent).1 mid →
      Run env h (.children mimeinfo.children)
        (set_own_row env ctree p mimeinfo parent).2 mid out →
      Run env h (.tree (some p)) parent ctree out
  | sub_none (parent : Option Nat) (ctree : List Row) :
      Run env h (.sub none) parent ctree ctree
  | sub_leaf (s : Nat) (sub : MimeInfo) (parent : Option Nat) (ctree : List Row) :
      h[s]? = some sub → sub.children = none →
      Run env h (.sub (some s)) parent ctree ctree
  | sub_visit (s : Nat) (sub : MimeInfo) (parent : Option Nat)
      (ctree out : List Row) :
      h[s]? = some sub → sub.children.isSome = true →
      Run env h (.tree (some s)) parent ctree out →
      Run env h (.sub (some s)) parent ctree out
  | children_null (parent : Option Nat) (ctree : List Row) :
      Run env h (.children none) parent ctree ctree
  | children_cons (c : Nat) (child : MimeInfo) (parent : Option Nat)
      (ctree mid out : List Row) :
      Run env h (.tree (some c)) parent ctree mid →
      h[c]? = some child →
      Run env h (.children child.next) parent mid out →
      Run env h (.children (some c)) parent ctree out

/-- A row that the traversal can have built: its part is in the arena,
has `main` unset and `parent` set. -/
def RowShown (h : Heap) (r : Row) : Prop :=
  ∃ mimeinfo, h[r.data]? = some mimeinfo ∧ shown mimeinfo = true

/-! ## Reference notions for the flattener

Reachability in the part graph, the pre-order listing and the path of
enclosing parts, against which the traversal is compared. -/

/-- The `next` chain: `Sibling h c q` holds when `q` is `c` or a later
sibling of `c`. -/
inductive Sibling (h : Heap) : Option Nat → Nat → Prop
  | head (c : Nat) : Sibling h (some c) c
  | next (c : Nat) (child : MimeInfo) (q : Nat) :
      h[c]? = some child → Sibling h child.next q → Sibling h (some c) q

/-- The part `q` is reachable from `p` through `children` and `sub` links
(the children of a part being its `children` link and the `next` chain from
there). -/
inductive Reachable (h : Heap) : Nat → Nat → Prop
  | self (p : Nat) : Reachable h p p
  | sub (p : Nat) (mimeinfo : MimeInfo) (s q : Nat) :
      h[p]? = some mimeinfo → mimeinfo.sub = some s → Reachable h s q →
      Reachable h p q
  | child (p : Nat) (mimeinfo : MimeInfo) (c q : Nat) :
      h[p]? = some mimeinfo → Sibling h mimeinfo.children c → Reachable h c q →
      Reachable h p q

/-- The part `q` is reached by the traversal started at `p`: like
`Reachable`, but a `sub` link is followed only when its target has
children (mimeview.c 319). -/
inductive Visited (h : Heap) : Nat → Nat → Prop
  | self (p : Nat) : Visited h p p
  | sub (p : Nat) (mimeinfo : MimeInfo) (s : Nat) (sub : MimeInfo) (q : Nat) :
      h[p]? = some mimeinfo → mimeinfo.sub = some s → h[s]? = some sub →
      sub.children.isSome = true → Visited h s q → Visited h p q
  | child (p : Nat) (mimeinfo : MimeInfo) (c q : Nat) :
      h[p]? = some mimeinfo → Sibling h mimeinfo.children c → Visited h c q →
      Visited h p q

/-- The row condition of mimeview.c 316 at an arena index. -/
def shownAt (h : Heap) (p : Nat) : Bool :=
  match h[p]? with
  | none => false
  | some mimeinfo => shown mimeinfo

mutual

/-- Follows the spec's words (§4.1, steps 1 to 3): the parts of the subtree
of a part in depth-first pre-order: the part itself, then the subtree of
its `sub` when `sub` has children, then the subtrees of its children in
stored order. No row, display parent or filter is involved. -/
def preorder_tree (h : Heap) : Nat → Option Nat → Option (List Nat)
  | 0, _ => none
  | _ + 1, none => some []
  | fuel + 1, some p =>
    match h[p]? with
    | none => none
    | some mimeinfo =>
      let ofSub : Option (List Nat) :=
        match mimeinfo.sub with
        | none => some []
        | some s =>
          match h[s]? with
          | none => none
          | some sub =>
            if sub.children.isSome then preorder_tree h fuel (some s) else some []
      match ofSub with
      | none => none
      | some ss =>
        match preorder_children h fuel mimeinfo.children with
        | none => none
        | some cs => some (p :: (ss ++ cs))

/-- The subtrees of a child and of its later siblings, one after the
other in stored order. -/
def preorder_children (h : Heap) : Nat → Option Nat → Option (List Nat)
  | 0, _ => none
  | _ + 1, none => some []
  | fuel + 1, some c =>
    match preorder_tree h fuel (some c) with
    | none => none
    | some first =>
      match h[c]? with
      | none => none
      | some child =>
        match preorder_children h fuel child.next with
        | none => none
        | some rest => some (first ++ rest)

end

/-- The parts of the message in depth-first pre-order. -/
def preorder (h : Heap) (fuel : Nat) (root : Nat) : Option (List Nat) :=
  preorder_tree h fuel (some root)

/-- The pre-order functions, by place of the traversal. -/
def preorder_exec (h : Heap) (fuel : Nat) : Call → Option (List Nat)
  | .tree p => preorder_tree h fuel p
  | .sub none => some []
  | .sub (some s) =>
    match h[s]? with
    | none => none
    | some sub =>
      if sub.children.isSome then preorder_tree h fuel (some s) else some []
  | .children c => preorder_children h fuel c

/-- An enclosing part on the path of the traversal (a container reached
through a children link or a `sub` link), with the node of the row it got,
if it got one. -/
structure Encl where
  part : Nat
  row : Option Nat
  deriving DecidableEq, Repr

/-- Follows the spec's words (§4.1, step 1): the row of the nearest
enclosing part that itself got a row; the path lists the enclosing parts
nearest first. -/
def nearest_row : List Encl → Option Nat
  | [] => none
  | e :: rest =>
    match e.row with
    | some node => some node
    | none => nearest_row rest

mutual

/-- Follows the spec's words (§4.1, steps 1 to 3): the traversal that
carries the path of enclosing parts instead of a display parent, and hangs
each new row under `nearest_row` of the path. A part that gets a row enters
the path of its descendants with that row's node, a part that gets none
enters it without one. -/
def nearest_tree (env : Env) (h : Heap) :
    Nat → Option Nat → List Encl → List Row → Option (List Row)
  | 0, _, _, _ => none
  | _ + 1, none, _, ctree => some ctree
  | fuel + 1, some p, path, ctree =>
    match h[p]? with
    | none => none
    | some mimeinfo =>
      let ctree1 : List Row :=
        if shown mimeinfo then ctree ++ [part_row env p mimeinfo (nearest_row path)]
        else ctree
      let path1 : List Encl :=
        { part := p, row := if shown mimeinfo then some ctree.length else none } :: path
      let afterSub : Option (List Row) :=
        match mimeinfo.sub with
        | none => some ctree1
        | some s =>
          match h[s]? with
          | none => none
          | some sub =>
            if sub.children.isSome then nearest_tree env h fuel (some s) path1 ctree1
            else some ctree1
      match afterSub with
      | none => none
      | some ctree2 => nearest_children env h fuel mimeinfo.children path1 ctree2

/-- The children of one part share the path of that part. -/
def nearest_children (env : Env) (h : Heap) :
    Nat → Option Nat → List Encl → List Row → Option (List Row)
  | 0, _, _, _ => none
  | _ + 1, none, _, ctree => some ctree
  | fuel + 1, some c, path, ctree =>
    match nearest_tree env h fuel (some c) path ctree with
    | none => none
    | some ctree2 =>
      match h[c]? with
      | none => none
      | some child => nearest_children env h fuel child.next path ctree2

end

/-- The rows of a message with every display parent computed from the
path of enclosing parts; the root has no enclosing part. -/
def flatten_nearest (env : Env) (h : Heap) (fuel : Nat) (root : Nat) :
    Option (List Row) :=
  nearest_tree env h fuel (some root) [] []

/-- The path-carrying functions, by place of the traversal. -/
def nearest_exec (env : Env) (h : Heap) (fuel : Nat) :
    Call → List Encl → List Row → Option (List Row)
  | .tree p, path, ctree => nearest_tree env h fuel p path ctree
  | .sub none, _, ctree => some ctree
  | .sub (some s), path, ctree =>
    match h[s]? with
    | none => none
    | some sub =>
      if sub.children.isSome then nearest_tree env h fuel (some s) path ctree
      else some ctree
  | .children c, path, ctree => nearest_children env h fuel c path ctree

/-- A row as the claim writes it: the pair `(p, dp)` of its part and its
display parent. -/
def Row.pair (r : Row) : Nat × Option Nat := (r.data, r.parent)

mutual

/-- Follows the spec's words (§4.1, steps 1 to 3), on pairs `(p, dp)` alone:
the traversal carries the path of enclosing parts, nearest first; a part
with `main` unset and `parent` set gets the pair of itself and the row of
the nearest enclosing part that got a row (`nearest_row` of the path), and
enters the path of its descendants with the index of that new row; a part
that gets no row enters the path without one. No row of the view is
built. -/
def pairs_tree (h : Heap) :
    Nat → Option Nat → List Encl → List (Nat × Option Nat) →
      Option (List (Nat × Option Nat))
  | 0, _, _, _ => none
  | _ + 1, none, _, acc => some acc
  | fuel + 1, some p, path, acc =>
    match h[p]? with
    | none => none
    | some mimeinfo =>
      let acc1 : List (Nat × Option Nat) :=
        if shown mimeinfo then acc ++ [(p, nearest_row path)] else acc
      let path1 : List Encl :=
        { part := p, row := if shown mimeinfo then some acc.length else none } :: path
      let afterSub : Option (List (Nat × Option Nat)) :=
        match mimeinfo.sub with
        | none => some acc1
        | some s =>
          match h[s]? with
          | none => none
          | some sub =>
            if sub.children.isSome then pairs_tree h fuel (some s) path1 acc1
            else some acc1
      match afterSub with
      | none => none
      | some acc2 => pairs_children h fuel mimeinfo.children path1 acc2

/-- The children of one part share the path of that part. -/
def pairs_children (h : Heap) :
    Nat → Option Nat → List Encl → List (Nat × Option Nat) →
      Option (List (Nat × Option Nat))
  | 0, _, _, _ => none
  | _ + 1, none, _, acc => some acc
  | fuel + 1, some c, path, acc =>
    match pairs_tree h fuel (some c) path acc with
    | none => none
    | some acc2 =>
      match h[c]? with
      | none => none
      | some child => pairs_children h fuel child.next path acc2

end

/-- The pairs `(p, dp)` of a message, every display parent being the row of
the nearest enclosing part that got a row; the root has no enclosing
part. -/
def nearest_pairs (h : Heap) (fuel : Nat) (root : Nat) :
    Option (List (Nat × Option Nat)) :=
  pairs_tree h fuel (some root) [] []

/-- The pair functions, by place of the traversal. -/
def pairs_exec (h : Heap) (fuel : Nat) :
    Call → List Encl → List (Nat × Option Nat) → Option (List (Nat × Option Nat))
  | .tree p, path, acc => pairs_tree h fuel p path acc
  | .sub none, _, acc => some acc
  | .sub (some s), path, acc =>
    match h[s]? with
    | none => none
    | some sub =>
      if sub.children.isSome then pairs_tree h fuel (some s) path acc
      else some acc
  | .children c, path, acc => pairs_children h fuel c path acc

/-- The parts a place of the traversal visits: the parts `Visited` from the
part of a call, from a `sub` that has children, or from one of the siblings
of the loop. -/
def Covers (h : Heap) : Call → Nat → Prop
  | .tree none, _ => False
  | .tree (some p), q => Visited h p q
  | .sub none, _ => False
  | .sub (some s), q =>
    ∃ sub, h[s]? = some sub ∧ sub.children.isSome = true ∧ Visited h s q
  | .children c0, q => ∃ c, Sibling h c0 c ∧ Visited h c q

/-! ### Tree-shaped part graphs -/

/-- A depth-first labelling of the parts: the time a part is entered, the
time its subtree (its `sub`, then its children) is left, and for a child
the time the rest of its sibling chain is left. -/
structure Labels where
  enter : Nat → Nat
  exit : Nat → Nat
  chain : Nat → Nat

/-- The labels of part `p` and of its `sub`, `children` and `next` links
are in order: the subtree of `sub` and the chain of children lie inside
the interval of `p`, one after the other, and the next sibling starts after
the subtree of `p` and ends within the chain of `p`. -/
def treeOk (h : Heap) (l : Labels) (p : Nat) : Bool :=
  match h[p]? with
  | none => true
  | some mimeinfo =>
    decide (l.enter p ≤ l.exit p) && decide (l.exit p ≤ l.chain p) &&
    (match mimeinfo.sub with
      | none => true
      | some s => decide (l.enter p < l.enter s) && decide (l.exit s ≤ l.exit p)) &&
    (match mimeinfo.children with
      | none => true
      | some c =>
        decide (l.enter p < l.enter c) && decide (l.chain c ≤ l.exit p) &&
        (match mimeinfo.sub with
          | none => true
          | some s => decide (l.exit s < l.enter c))) &&
    (match mimeinfo.next with
      | none => true
      | some n => decide (l.exit p < l.enter n) && decide (l.chain n ≤ l.chain p))

/-- The part graph is tree-shaped: it has a depth-first labelling, in
which the subtrees hanging from a part are nested in the interval of the
part and do not overlap. The entry and exit times of a depth-first walk of
a tree are such a labelling. -/
def TreeShaped (h : Heap) (l : Labels) : Prop :=
  ∀ p, p < h.length → treeOk h l p = true

instance (h : Heap) (l : Labels) : Decidable (TreeShaped h l) := by
  unfold TreeShaped
  infer_instance

/-- The entry time `x` lies in the interval of the parts a call of the
traversal walks: the subtree of a part, or the rest of a sibling chain. -/
def InSpan (l : Labels) : Call → Nat → Prop
  | .tree (some p), x => l.enter p ≤ x ∧ x ≤ l.exit p
  | .sub (some s), x => l.enter s ≤ x ∧ x ≤ l.exit s
  | .children (some c), x => l.enter c ≤ x ∧ x ≤ l.chain c
  | _, _ => False

/-- The part `n` is one the traversal from `root` reaches and that
satisfies the row condition: `main` unset and `parent` set. -/
def RowNode (h : Heap) (root n : Nat) : Prop :=
  Visited h root n ∧ ∃ mimeinfo, h[n]? = some mimeinfo ∧ mimeinfo.main = none ∧
    mimeinfo.parent.isSome = true

/-! ## View state, ViewModeMachine and SelectionController -/

/-- Modelled from the spec: the `MimeViewType` enumeration of mimeview.h
(the header is not in the source tree), with the three states of §4.3;
`MIMEVIEW_NONE` is the initial state and stands for every value other than
`MIMEVIEW_IMAGE` and `MIMEVIEW_TEXT`. -/
inductive MimeViewType where
  | MIMEVIEW_NONE
  | MIMEVIEW_IMAGE
  | MIMEVIEW_TEXT
  deriving DecidableEq, Repr

/-- The two widgets that are swapped inside `mimeview->vbox`. -/
inductive Widget where
  | textview
  | imageview
  deriving DecidableEq, Repr

/-- Calls that leave the view: collaborators, dialogs, error reports and
file operations, with their arguments. -/
inductive Event where
  | gtk_ctree_node_moveto (node : Option Nat)
  | gtk_grab_remove
  | gdk_pointer_ungrab
  | fopen (file : String)
  | fclose (file : String)
  | file_op_error (file : Option String) (op : String)
  | textview_show_part (partinfo : Nat) (file : String) (offset : Int)
  | textview_show_signature_part (partinfo : Nat)
  | textview_show_mime_part (partinfo : Nat)
  | procmime_get_part (outfile : String) (infile : Option String) (partinfo : Nat)
  | alertpanel_error (message : String)
  | imageview_show_image (partinfo : Nat) (file : String)
  | unlink (file : String)
  | gtk_container_remove (widget : Widget)
  | gtk_container_add (widget : Widget)
  | procmime_mimeinfo_free_all (mimeinfo : Option Nat)
  | textview_clear
  | perror (message : String)
  | procmime_scan_multipart_message (mimeinfo : Nat) (file : String) (offset : Nat)
  | rfc2015_check_signature (mimeinfo : Nat) (file : String)
  | gtk_ctree_node_set_text (node : Nat) (text : String)
  | gtk_widget_grab_focus
  | gtk_selection_data_set (data : String)
  | filesel_select_file (title : String) (file : Option String)
  | alertpanel (title : String) (message : String)
  | gtk_drag_begin
  | g_warning (message : String)
  | execute_command_line (cmdline : String)
  deriving DecidableEq, Repr

/-- Modelled from the spec: the fields of the `MimeView` record of
mimeview.h (the header is not in the source tree) that mimeview.c reads or
writes, with the rows of `ctree` and the widgets packed in `vbox`. -/
structure MimeView where
  mimeinfo : Option Nat
  file : Option String
  opened : Option Nat
  type : MimeViewType
  ctree : List Row
  vbox : List Widget
  deriving DecidableEq, Repr

/-- The arena of parts, the view and the calls made so far. -/
structure State where
  heap : Heap
  view : MimeView
  trace : List Event
  deriving DecidableEq, Repr

/-- Records one call. -/
def State.emit (s : State) (e : Event) : State :=
  { s with trace := s.trace ++ [e] }

/-- The container operation `gtk_container_remove` of GTK: a widget that is
not in the container is left alone. -/
def gtk_container_remove (s : State) (w : Widget) : State :=
  { s with view := { s.view with vbox := s.view.vbox.erase w },
           trace := s.trace ++ [.gtk_container_remove w] }

/-- The container operation `gtk_container_add` of GTK: a widget that
already has a parent is not added again. -/
def gtk_container_add (s : State) (w : Widget) : State :=
  { s with view := { s.view with vbox := if w ∈ s.view.vbox then s.view.vbox
                                         else s.view.vbox ++ [w] },
           trace := s.trace ++ [.gtk_container_add w] }

/-- Embeds `mimeview_change_view_type` (mimeview.c 425-450). -/
def mimeview_change_view_type (s : State) (type : MimeViewType) : State :=
  if s.view.type = type then s
  else
    match type with
    | .MIMEVIEW_IMAGE =>
      let s1 := gtk_container_add (gtk_container_remove s .textview) .imageview
      { s1 with view := { s1.view with type := type } }
    | .MIMEVIEW_TEXT =>
      let s1 := gtk_container_add (gtk_container_remove s .imageview) .textview
      { s1 with view := { s1.view with type := type } }
    | _ => s

/-- The loop of `mimeview_show_message_part` (mimeview.c 380-381): the
first part on the parent chain, the part itself included, that has a
`plaintextfile`; `some none` when the chain ends without one. -/
def plaintext_owner (h : Heap) : Nat → Option Nat → Option (Option Nat)
  | _, none => some none
  | 0, some _ => none
  | fuel + 1, some pi =>
    match h[pi]? with
    | none => none
    | some mimeinfo =>
      if mimeinfo.plaintextfile.isSome then some (some pi)
      else plaintext_owner h fuel mimeinfo.parent

/-- The value of `fname` in `mimeview_show_message_part` (mimeview.c
379-385). -/
def display_file (env : Env) (s : State) (fuel : Nat) (p : Nat) :
    Option (Option String) :=
  if env.use_gpgme then
    match plaintext_owner s.heap fuel (some p) with
    | none => none
    | some none => some s.view.file
    | some (some pi) =>
      match s.heap[pi]? with
      | none => none
      | some mimeinfo => some mimeinfo.plaintextfile
  else some s.view.file

/-- Embeds `mimeview_show_message_part` (mimeview.c 369-403). -/
def mimeview_show_message_part (env : Env) (fuel : Nat) (s : State)
    (partinfo : Option Nat) : Option State :=
  match partinfo with
  | none => some s
  | some p =>
    match display_file env s fuel p with
    | none => none
    | some none => some s
    | some (some fname) =>
      let s1 := s.emit (.fopen fname)
      match env.fopen fname with
      | false => some (s1.emit (.file_op_error (some fname) "fopen"))
      | true =>
        match s.heap[p]? with
        | none => none
        | some mimeinfo =>
          match env.fseek fname mimeinfo.fpos with
          | false =>
            some ((s1.emit (.file_op_error s.view.file "fseek")).emit (.fclose fname))
          | true =>
            let s2 := mimeview_change_view_type s1 .MIMEVIEW_TEXT
            let s3 := s2.emit (.textview_show_part p fname mimeinfo.fpos)
            some (s3.emit (.fclose fname))

/-- Embeds `mimeview_show_image_part` (mimeview.c 405-423). -/
def mimeview_show_image_part (env : Env) (s : State) (partinfo : Option Nat) : State :=
  match partinfo with
  | none => s
  | some p =>
    let filename := env.procmime_get_tmp_file_name p
    let s1 := s.emit (.procmime_get_part filename s.view.file p)
    if env.procmime_get_part filename s.view.file p < 0 then
      s1.emit (.alertpanel_error "Can't get the part of multipart message.")
    else
      let s2 := mimeview_change_view_type s1 .MIMEVIEW_IMAGE
      (s2.emit (.imageview_show_image p filename)).emit (.unlink filename)

/-- The comparison loop of `g_strcasecmp` of GLib on the characters of two
strings. -/
def g_strcasecmp_chars : List Char → List Char → Int
  | [], [] => 0
  | [], c2 :: _ => 0 - (c2.toNat : Int)
  | c1 :: _, [] => (c1.toNat : Int)
  | c1 :: r1, c2 :: r2 =>
    if c1.toLower = c2.toLower then g_strcasecmp_chars r1 r2
    else (c1.toLower.toNat : Int) - (c2.toLower.toNat : Int)

/-- The library function `g_strcasecmp` of GLib: 0 when the first string is
`NULL` (its `g_return_val_if_fail`), else the difference at the first
position where the strings differ ignoring case. -/
def g_strcasecmp (s1 : Option String) (s2 : String) : Int :=
  match s1 with
  | none => 0
  | some a => g_strcasecmp_chars a.toList s2.toList

/-- The library function `gtk_ctree_node_get_row_data` of GTK on the rows
of the tree: `NULL` for a `NULL` node. -/
def gtk_ctree_node_get_row_data (ctree : List Row) (node : Option Nat) : Option Nat :=
  match node with
  | none => none
  | some n => (ctree[n]?).map Row.data

/-- The `/* ungrab the mouse event */` block of `mimeview_selected`
(mimeview.c 480-485). -/
def ungrab (env : Env) (s : State) : State :=
  if env.widget_has_grab then
    let s1 := s.emit .gtk_grab_remove
    if env.pointer_is_grabbed then s1.emit .gdk_pointer_ungrab else s1
  else s

/-- The `default:` branch of the switch of `mimeview_selected`
(mimeview.c 499-509). -/
def show_other_part (env : Env) (s : State) (p : Nat) (partinfo : MimeInfo) : State :=
  let s1 := mimeview_change_view_type s .MIMEVIEW_TEXT
  if env.use_gpgme && decide (g_strcasecmp partinfo.content_type
      "application/pgp-signature" = 0) then
    s1.emit (.textview_show_signature_part p)
  else
    s1.emit (.textview_show_mime_part p)

/-- The two statements of `mimeview_selected` that record the selection
(mimeview.c 474-475): `mimeview->opened = node;` and the scroll to the
node. -/
def set_opened (s : State) (node : Option Nat) : State :=
  ({ s with view := { s.view with opened := node } }).emit (.gtk_ctree_node_moveto node)

/-- Embeds `mimeview_selected` (mimeview.c 468-511), the handler of
`tree_select_row`. -/
def mimeview_selected (env : Env) (fuel : Nat) (node : Option Nat) (s : State) :
    Option State :=
  if s.view.opened = node then some s
  else
    let s1 : State := set_opened s node
    match gtk_ctree_node_get_row_data s1.view.ctree node with
    | none => some s1
    | some p =>
      let s2 := ungrab env s1
      match s2.heap[p]? with
      | none => none
      | some partinfo =>
        match partinfo.mime_type with
        | .MIME_TEXT => mimeview_show_message_part env fuel s2 (some p)
        | .MIME_TEXT_HTML => mimeview_show_message_part env fuel s2 (some p)
        | .MIME_MESSAGE_RFC822 => mimeview_show_message_part env fuel s2 (some p)
        | .MIME_MULTIPART => mimeview_show_message_part env fuel s2 (some p)
        | .MIME_IMAGE =>
          if env.have_image then some (mimeview_show_image_part env s2 (some p))
          else some (show_other_part env s2 p partinfo)
        | _ => some (show_other_part env s2 p partinfo)

/-- The spec's `select(part)`: the selection handler run on a row. -/
def select (env : Env) (fuel : Nat) (n : Nat) (s : State) : Option State :=
  mimeview_selected env fuel (some n) s

/-- The four classifications shown through `mimeview_show_message_part`
(mimeview.c 488-491). -/
def text_class (t : ContentType) : Bool :=
  t = .MIME_TEXT || t = .MIME_TEXT_HTML || t = .MIME_MESSAGE_RFC822 || t = .MIME_MULTIPART

/-- The event is a call of the extractor `procmime_get_part`. -/
def Event.isExtract : Event → Bool
  | .procmime_get_part _ _ _ => true
  | _ => false

/-- The calls made by the ungrab block. -/
def ungrab_events (env : Env) : List Event :=
  if env.widget_has_grab then
    .gtk_grab_remove :: (if env.pointer_is_grabbed then [.gdk_pointer_ungrab] else [])
  else []

/-- The container calls made by a mode switch from `current` to `type`. -/
def switch_events (current type : MimeViewType) : List Event :=
  if current = type then []
  else
    match type with
    | .MIMEVIEW_IMAGE => [.gtk_container_remove .textview, .gtk_container_add .imageview]
    | .MIMEVIEW_TEXT => [.gtk_container_remove .imageview, .gtk_container_add .textview]
    | _ => []

/-- The file resolved for display is present, opens, and the seek to the
offset succeeds: the three early returns of `mimeview_show_message_part`
(mimeview.c 386-397) are not taken. -/
def displayable (env : Env) (fname : Option String) (fpos : Int) : Bool :=
  match fname with
  | none => false
  | some f => env.fopen f && env.fseek f fpos

/-- The widgets bound to a mode (§4.3): none for None, the text widget for
Text, the image widget for Image. -/
def bound_widgets : MimeViewType → List Widget
  | .MIMEVIEW_NONE => []
  | .MIMEVIEW_IMAGE => [.imageview]
  | .MIMEVIEW_TEXT => [.textview]

/-- The event is the report of an error: an alert panel, `FILE_OP_ERROR`
or `perror`. -/
def Event.isError : Event → Bool
  | .alertpanel_error _ => true
  | .file_op_error _ _ => true
  | .perror _ => true
  | _ => false

/-- The renderer called by the default branch of `mimeview_selected` on a
part (mimeview.c 501-508). -/
def other_renderer (env : Env) (p : Nat) (partinfo : MimeInfo) : Event :=
  if env.use_gpgme && decide (g_strcasecmp partinfo.content_type
      "application/pgp-signature" = 0) then .textview_show_signature_part p
  else .textview_show_mime_part p

/-! ## SignatureInspector, message display and the source stream -/

/-- The `do ... while` loop of `mimeview_is_signed` (mimeview.c 225-228):
`rfc2015_has_signature` is asked for the part and then for each part up the
parent links. -/
def signed_walk (env : Env) (h : Heap) : Nat → Nat → Option Bool
  | 0, _ => none
  | fuel + 1, partinfo =>
    if env.rfc2015_has_signature h partinfo then some true
    else
      match h[partinfo]? with
      | none => none
      | some mimeinfo =>
        match mimeinfo.parent with
        | none => some false
        | some parent => signed_walk env h fuel parent

/-- Embeds `mimeview_is_signed` (mimeview.c 205-233). -/
def mimeview_is_signed (env : Env) (fuel : Nat) (s : State) : Option Bool :=
  match s.view.opened with
  | none => some false
  | some _ =>
    match s.view.file with
    | none => some false
    | some _ =>
      match gtk_ctree_node_get_row_data s.view.ctree s.view.opened with
      | none => some false
      | some partinfo => signed_walk env s.heap fuel partinfo

/-- The text `set_unchecked_signature` stores as signature status. -/
def unchecked_status : String := "Select \"Check signature\" to check"

/-- Embeds `set_unchecked_signature` (mimeview.c 235-248) on the arena. -/
def set_unchecked_signature (env : Env) (h : Heap) (mimeinfo : Nat) : Option Heap :=
  match env.rfc2015_find_signature h mimeinfo with
  | none => some h
  | some sig =>
    match h[sig]? with
    | none => none
    | some sig_partinfo =>
      some (h.set sig
        { sig_partinfo with sigstatus := some unchecked_status, sigstatus_full := none })

/-- The characters one call of `fgets` with room for `n` characters
stores: at most `n`, up to and including the first newline. -/
def fgets_take : Nat → List Char → List Char
  | 0, _ => []
  | _ + 1, [] => []
  | n + 1, c :: rest => if c = '\n' then [c] else c :: fgets_take n rest

/-- The library function `fgets` on the unread characters of a stream:
`none` (`NULL`) at end of file, else the characters stored in a buffer of
`size` bytes, the last byte being kept for the terminator. -/
def fgets (size : Nat) (unread : List Char) : Option (List Char) :=
  match unread with
  | [] => none
  | _ :: _ => some (fgets_take (size - 1) unread)

/-- The loop `while (fgets(buf, sizeof(buf), fp) != NULL) if (buf[0] == '\r'
|| buf[0] == '\n') break;` (mimeview.c 276-277 and 904-905): the number of
characters it reads. -/
def skip_header_lines (size : Nat) : Nat → List Char → Option Nat
  | 0, _ => none
  | fuel + 1, unread =>
    match fgets size unread with
    | none => some 0
    | some buf =>
      if buf.head? = some '\r' ∨ buf.head? = some '\n' then some buf.length
      else
        match skip_header_lines size fuel (unread.drop buf.length) with
        | none => none
        | some n => some (buf.length + n)

/-- The `/* skip headers */` block of `mimeview_show_message` and
`mimeview_check_signature` (mimeview.c 272-278 and 900-906) on a stream
just opened on `file`: the calls made (the report of a failed seek is
`seek_error`) and the offset of the stream afterwards. -/
def skip_headers (env : Env) (file : String) (mimeinfo : MimeInfo) (seek_error : Event) :
    Option (List Event × Nat) :=
  if mimeinfo.mime_type = .MIME_MULTIPART then
    let seek : List Event × Nat :=
      if env.fseek file mimeinfo.fpos then ([], mimeinfo.fpos.toNat) else ([seek_error], 0)
    let unread := (env.file_content file).drop seek.2
    match skip_header_lines env.buffsize (unread.length + 1) unread with
    | none => none
    | some n => some (seek.1, seek.2 + n)
  else some ([], 0)

/-- The loop `while (mimeinfo->parent) mimeinfo = mimeinfo->parent;` of
`mimeview_check_signature` (mimeview.c 892-893). -/
def top_ancestor (h : Heap) : Nat → Nat → Option Nat
  | 0, _ => none
  | fuel + 1, p =>
    match h[p]? with
    | none => none
    | some mimeinfo =>
      match mimeinfo.parent with
      | none => some p
      | some parent => top_ancestor h fuel parent

/-- The walk of `gtk_ctree_pre_recursive` with `update_node_name`
(mimeview.c 841-859) over the rows from node `node` on: the rows with
their name column set again, and the calls of `gtk_ctree_node_set_text`. -/
def update_names_from (env : Env) (h : Heap) : Nat → List Row → Option (List Row × List Event)
  | _, [] => some ([], [])
  | node, r :: rest =>
    match h[r.data]? with
    | none => none
    | some partinfo =>
      match update_names_from env h (node + 1) rest with
      | none => none
      | some (rows, calls) =>
        some ({ r with str := { r.str with name := get_part_name env partinfo } } :: rows,
          .gtk_ctree_node_set_text node (get_part_name env partinfo) :: calls)

/-- Embeds `mimeview_update_names` (mimeview.c 854-859). -/
def mimeview_update_names (env : Env) (s : State) : Option State :=
  match update_names_from env s.heap 0 s.view.ctree with
  | none => none
  | some (rows, calls) =>
    some { s with view := { s.view with ctree := rows }, trace := s.trace ++ calls }

/-- Embeds `mimeview_update_signature_info` (mimeview.c 861-877). -/
def mimeview_update_signature_info (s : State) : Option State :=
  match s.view.opened with
  | none => some s
  | some _ =>
    match gtk_ctree_node_get_row_data s.view.ctree s.view.opened with
    | none => some s
    | some p =>
      match s.heap[p]? with
      | none => none
      | some partinfo =>
        if g_strcasecmp partinfo.content_type "application/pgp-signature" = 0 then
          some ((mimeview_change_view_type s .MIMEVIEW_TEXT).emit
            (.textview_show_signature_part p))
        else some s

/-- Embeds `mimeview_check_signature` (mimeview.c 879-914). The message
logged by a failing `g_return_if_fail` is not recorded. -/
def mimeview_check_signature (env : Env) (fuel : Nat) (s : State) : Option State :=
  match mimeview_is_signed env fuel s with
  | none => none
  | some false => some s
  | some true =>
    match gtk_ctree_node_get_row_data s.view.ctree s.view.opened with
    | none => some s
    | some opened =>
      match s.view.file with
      | none => some s
      | some file =>
        match top_ancestor s.heap fuel opened with
        | none => none
        | some mimeinfo =>
          let s1 := s.emit (.fopen file)
          match env.fopen file with
          | false => some (s1.emit (.file_op_error (some file) "fopen"))
          | true =>
            match s.heap[mimeinfo]? with
            | none => none
            | some root =>
              match skip_headers env file root (.file_op_error (some file) "fseek") with
              | none => none
              | some (calls, offset) =>
                let s2 : State :=
                  { s1 with
                    heap := env.procmime_scan_multipart_message s1.heap mimeinfo file offset,
                    trace := s1.trace ++ calls ++
                      [.procmime_scan_multipart_message mimeinfo file offset] }
                let s3 : State :=
                  { s2 with
                    heap := env.rfc2015_check_signature s2.heap mimeinfo file,
                    trace := s2.trace ++ [.rfc2015_check_signature mimeinfo file] }
                let s4 := s3.emit (.fclose file)
                match mimeview_update_names env s4 with
                | none => none
                | some s5 => mimeview_update_signature_info s5

/-- Embeds `mimeview_clear` (mimeview.c 452-466). The freed parts stay in
the arena, out of reach of the view. -/
def mimeview_clear (s : State) : State :=
  let s1 := s.emit (.procmime_mimeinfo_free_all s.view.mimeinfo)
  let s2 := s1.emit .textview_clear
  { s2 with view := { s2.view with mimeinfo := none, ctree := [], opened := none,
                                   file := none } }

/-- The signature step of `mimeview_show_message` (mimeview.c 281-286),
compiled in with `USE_GPGME`. -/
def show_message_signature (env : Env) (s : State) (mimeinfo : Nat) (file : String) :
    Option State :=
  if env.use_gpgme then
    if env.auto_check_signatures then
      some { s with
        heap := env.rfc2015_check_signature s.heap mimeinfo file,
        trace := s.trace ++ [.rfc2015_check_signature mimeinfo file] }
    else
      match set_unchecked_signature env s.heap mimeinfo with
      | none => none
      | some h => some { s with heap := h }
  else some s

/-- The end of `mimeview_show_message` (mimeview.c 289-300): the tree is
filled with the selection handler blocked, then the first row, if there is
one, is selected, which runs the handler, and gets the focus. -/
def show_message_tree (env : Env) (fuel : Nat) (s : State) (mimeinfo : Nat) : Option State :=
  match mimeview_set_multipart_tree env s.heap fuel (some mimeinfo) none s.view.ctree with
  | none => none
  | some ctree =>
    let s1 : State := { s with view := { s.view with ctree := ctree } }
    match ctree with
    | [] => some s1
    | _ :: _ =>
      match mimeview_selected env fuel (some 0) s1 with
      | none => none
      | some s2 => some (s2.emit .gtk_widget_grab_focus)

/-- Embeds `mimeview_show_message` (mimeview.c 251-301). -/
def mimeview_show_message (env : Env) (fuel : Nat) (s : State) (mimeinfo : Option Nat)
    (file : Option String) : Option State :=
  let s1 := mimeview_clear s
  match file with
  | none => some s1
  | some file =>
    match mimeinfo with
    | none => some s1
    | some mimeinfo =>
      let s2 : State := { s1 with view := { s1.view with mimeinfo := some mimeinfo } }
      let s3 := s2.emit (.fopen file)
      match env.fopen file with
      | false => some (s3.emit (.file_op_error (some file) "fopen"))
      | true =>
        let s4 : State := { s3 with view := { s3.view with file := some file } }
        match s4.heap[mimeinfo]? with
        | none => none
        | some root =>
          match skip_headers env file root (.perror "fseek") with
          | none => none
          | some (calls, offset) =>
            let s5 : State :=
              { s4 with
                heap := env.procmime_scan_multipart_message s4.heap mimeinfo file offset,
                trace := s4.trace ++ calls ++
                  [.procmime_scan_multipart_message mimeinfo file offset] }
            match show_message_signature env s5 mimeinfo file with
            | none => none
            | some s6 => show_message_tree env fuel (s6.emit (.fclose file)) mimeinfo

/-- The parent chain: `OnParentChain h p q` holds when `q` is `p` or is
reached from `p` by following `parent` links. -/
inductive OnParentChain (h : Heap) : Nat → Nat → Prop
  | self (p : Nat) : OnParentChain h p p
  | step (p : Nat) (mimeinfo : MimeInfo) (parent q : Nat) :
      h[p]? = some mimeinfo → mimeinfo.parent = some parent →
      OnParentChain h parent q → OnParentChain h p q

/-- The event is a call of the verification `rfc2015_check_signature`. -/
def Event.isCheck : Event → Bool
  | .rfc2015_check_signature _ _ => true
  | _ => false

/-- The calls the selection handler `mimeview_selected` can make. -/
def Event.fromSelection : Event → Bool
  | .gtk_ctree_node_moveto _ => true
  | .gtk_grab_remove => true
  | .gdk_pointer_ungrab => true
  | .fopen _ => true
  | .fclose _ => true
  | .file_op_error _ _ => true
  | .textview_show_part _ _ _ => true
  | .textview_show_signature_part _ => true
  | .textview_show_mime_part _ => true
  | .procmime_get_part _ _ _ => true
  | .alertpanel_error _ => true
  | .imageview_show_image _ _ => true
  | .unlink _ => true
  | .gtk_container_remove _ => true
  | .gtk_container_add _ => true
  | _ => false

/-! ## Callers of the extractor: drag export and save -/

/-- The directory separator `G_DIR_SEPARATOR` of GLib on Unix. -/
def G_DIR_SEPARATOR : Char := '/'

/-- The directory separator as a string, `G_DIR_SEPARATOR_S`. -/
def G_DIR_SEPARATOR_S : String := "/"

/-- What follows the last occurrence of `sep` in a name, the whole name when
`sep` does not occur: `strrchr` and the step past the separator. -/
def after_last (sep : Char) : List Char → List Char
  | [] => []
  | c :: rest =>
    if sep ∈ rest then after_last sep rest
    else if c = sep then rest
    else c :: rest

/-- The library function `g_basename` of GLib. -/
def g_basename (file_name : String) : String :=
  String.mk (after_last G_DIR_SEPARATOR file_name.toList)

/-- The expression `partinfo->filename ? partinfo->filename : partinfo->name`
(mimeview.c 673 and 717). -/
def filename_or_name (partinfo : MimeInfo) : Option String :=
  match partinfo.filename with
  | some filename => some filename
  | none => partinfo.name

/-- Embeds `mimeview_drag_data_get` (mimeview.c 655-690). -/
def mimeview_drag_data_get (env : Env) (s : State) : Option State :=
  match s.view.opened with
  | none => some s
  | some _ =>
    match s.view.file with
    | none => some s
    | some _ =>
      match gtk_ctree_node_get_row_data s.view.ctree s.view.opened with
      | none => some s
      | some p =>
        match s.heap[p]? with
        | none => none
        | some partinfo =>
          match filename_or_name partinfo with
          | none => some s
          | some name =>
            if g_basename name = "" then some s
            else
              let filename := env.get_mime_tmp_dir ++ G_DIR_SEPARATOR_S ++ g_basename name
              let s1 := s.emit (.procmime_get_part filename s.view.file p)
              let s2 :=
                if env.procmime_get_part filename s.view.file p < 0 then
                  s1.emit (.alertpanel_error "Can't save the part of multipart message.")
                else s1
              some (s2.emit (.gtk_selection_data_set ("file:/" ++ filename)))

/-- Embeds `mimeview_save_as` (mimeview.c 703-731). -/
def mimeview_save_as (env : Env) (s : State) : Option State :=
  match s.view.opened with
  | none => some s
  | some _ =>
    match s.view.file with
    | none => some s
    | some _ =>
      match gtk_ctree_node_get_row_data s.view.ctree s.view.opened with
      | none => some s
      | some p =>
        match s.heap[p]? with
        | none => none
        | some partinfo =>
          let s1 := s.emit (.filesel_select_file "Save as" (filename_or_name partinfo))
          match env.filesel_select_file "Save as" (filename_or_name partinfo) with
          | none => some s1
          | some filename =>
            let s2 :=
              if env.is_file_exist filename then
                s1.emit (.alertpanel "Overwrite" "Overwrite existing file?")
              else s1
            if env.is_file_exist filename = true ∧
                env.alertpanel "Overwrite" "Overwrite existing file?" ≠ .G_ALERTDEFAULT then
              some s2
            else
              let s3 := s2.emit (.procmime_get_part filename s.view.file p)
              if env.procmime_get_part filename s.view.file p < 0 then
                some (s3.emit
                  (.alertpanel_error "Can't save the part of multipart message."))
              else some s3

/-- The name `seg` is the final path segment of the name `name`: what
follows the last separator, or the whole name when there is none. -/
def FinalSegment (sep : Char) (name seg : List Char) : Prop :=
  sep ∉ seg ∧ ((∃ front, name = front ++ sep :: seg) ∨ (sep ∉ name ∧ seg = name))

/-- Embeds `mimeview_start_drag` (mimeview.c 513-530). The part of the open
row is read without a test for `NULL`: the result is `none` when the open
row has no part. -/
def mimeview_start_drag (s : State) : Option State :=
  match gtk_ctree_node_get_row_data s.view.ctree s.view.opened with
  | none => none
  | some p =>
    match s.heap[p]? with
    | none => none
    | some partinfo =>
      if partinfo.filename = none ∧ partinfo.name = none then some s
      else some (s.emit .gtk_drag_begin)

/-! ## External viewers: `mimeview_launch` and `mimeview_view_file` -/

/-- The library function `strchr` on the characters of a string: the rest
of the string from the first occurrence of `c` on, `none` (`NULL`) when `c`
does not occur. -/
def strchr (c : Char) : List Char → Option (List Char)
  | [] => none
  | x :: rest => if x = c then some (x :: rest) else strchr c rest

/-- The test `(p = strchr(cmd, '%')) && *(p + 1) == 's' && !strchr(p + 2,
'%')` of `mimeview_view_file` (mimeview.c 826-827). -/
def valid_cmdline (cmd : List Char) : Bool :=
  match strchr '%' cmd with
  | none => false
  | some p => (p.drop 1).head? == some 's' && (strchr '%' (p.drop 2)).isNone

/-- The output of `printf` for a format whose first conversion is `%s`:
the argument stands in the place of the conversion. -/
def printf_s (format arg : List Char) : List Char :=
  match strchr '%' format with
  | none => format
  | some p => format.take (format.length - p.length) ++ arg ++ p.drop 2

/-- The library function `g_snprintf` of GLib with one string argument, on
a format whose only conversion is one `%s`: at most `n - 1` characters are
stored. -/
def g_snprintf (n : Nat) (format arg : String) : String :=
  String.mk ((printf_s format.toList arg.toList).take (n - 1))

/-- The constant `default_image_cmdline` of `mimeview_view_file`. -/
def default_image_cmdline : String := "display '%s'"

/-- The constant `default_audio_cmdline` of `mimeview_view_file`. -/
def default_audio_cmdline : String := "play '%s'"

/-- The constant `default_html_cmdline` of `mimeview_view_file`. -/
def default_html_cmdline : String := "netscape -remote 'openURL(%s,raise)'"

/-- The contents of `m_buf` after `g_snprintf(m_buf, sizeof(m_buf),
mime_cmdline, partinfo->content_type, "%s")` with `mime_cmdline` =
"metamail -d -b -x -c %s '%s'" (mimeview.c 820-821); the C library prints
"(null)" for a `NULL` string. -/
def metamail_cmdline (content_type : Option String) : String :=
  String.mk (("metamail -d -b -x -c " ++ content_type.getD "(null)" ++ " '%s'").toList.take
    1023)

/-- The choice of `cmd` and `def_cmd` at the head of `mimeview_view_file`
(mimeview.c 805-824): `none` when the function returns there. -/
def view_file_commands (env : Env) (partinfo : MimeInfo) (cmdline : Option String) :
    Option (Option String × Option String) :=
  match cmdline with
  | some cmd => some (some cmd, none)
  | none =>
    if partinfo.mime_type = .MIME_APPLICATION_OCTET_STREAM then none
    else if partinfo.mime_type = .MIME_IMAGE then
      some (env.mime_image_viewer, some default_image_cmdline)
    else if partinfo.mime_type = ContentType.MIME_AUDIO then
      some (env.mime_audio_player, some default_audio_cmdline)
    else if partinfo.mime_type = .MIME_TEXT_HTML then
      some (env.uri_cmd, some default_html_cmdline)
    else some (some (metamail_cmdline partinfo.content_type), none)

/-- Embeds `mimeview_view_file` (mimeview.c 790-838). -/
def mimeview_view_file (env : Env) (s : State) (filename : String) (partinfo : MimeInfo)
    (cmdline : Option String) : State :=
  match view_file_commands env partinfo cmdline with
  | none => s
  | some (cmd, def_cmd) =>
    match cmd with
    | some c =>
      if valid_cmdline c.toList then
        s.emit (.execute_command_line (g_snprintf 1024 c filename))
      else
        let s1 := s.emit (.g_warning ("MIME viewer command line is invalid: `" ++ c ++ "'"))
        match def_cmd with
        | some d => s1.emit (.execute_command_line (g_snprintf 1024 d filename))
        | none => s1
    | none =>
      match def_cmd with
      | some d => s.emit (.execute_command_line (g_snprintf 1024 d filename))
      | none => s

/-- Embeds `mimeview_launch` (mimeview.c 733-754). -/
def mimeview_launch (env : Env) (s : State) : Option State :=
  match s.view.opened with
  | none => some s
  | some _ =>
    match s.view.file with
    | none => some s
    | some _ =>
      match gtk_ctree_node_get_row_data s.view.ctree s.view.opened with
      | none => some s
      | some p =>
        match s.heap[p]? with
        | none => none
        | some partinfo =>
          let filename := env.procmime_get_tmp_file_name p
          let s1 := s.emit (.procmime_get_part filename s.view.file p)
          if env.procmime_get_part filename s.view.file p < 0 then
            some (s1.emit (.alertpanel_error "Can't save the part of multipart message."))
          else some (mimeview_view_file env s1 filename partinfo none)

/-- The event is a call of `execute_command_line`. -/
def Event.isExec : Event → Bool
  | .execute_command_line _ => true
  | _ => false

/-- A template that can stand as a command line: it contains a '%', the
character right after its first '%' is 's', and no '%' occurs after
that. -/
def ValidTemplate (t : List Char) : Prop :=
  ∃ front back, t = front ++ '%' :: 's' :: back ∧ '%' ∉ front ∧ '%' ∉ back

/-- The template of the viewer command as the claim words it: the explicit
command if one is given, else by type the configured image viewer, audio
player or URI command, or the metamail template with the content type put
in; none for an OctetStream part. -/
def view_template (env : Env) (partinfo : MimeInfo) (cmdline : Option String) :
    Option String :=
  match cmdline with
  | some cmd => some cmd
  | none =>
    match partinfo.mime_type with
    | .MIME_IMAGE => env.mime_image_viewer
    | ContentType.MIME_AUDIO => env.mime_audio_player
    | .MIME_TEXT_HTML => env.uri_cmd
    | .MIME_APPLICATION_OCTET_STREAM => none
    | _ => some (metamail_cmdline partinfo.content_type)

/-- The built-in default of the viewer command: one for Image, Audio and
Html when no explicit command is given, none otherwise. -/
def view_default (partinfo : MimeInfo) (cmdline : Option String) : Option String :=
  match cmdline with
  | some _ => none
  | none =>
    match partinfo.mime_type with
    | .MIME_IMAGE => some "display '%s'"
    | ContentType.MIME_AUDIO => some "play '%s'"
    | .MIME_TEXT_HTML => some "netscape -remote 'openURL(%s,raise)'"
    | _ => none

/-! ### Where a path leads

Paths are read as the file system reads them, symbolic links apart: the
names between separators are followed from the root, an empty name and "."
staying in place and ".." going to the parent directory. -/

/-- The names between the separators of a path. -/
def path_components (sep : Char) : List Char → List (List Char)
  | [] => [[]]
  | c :: rest =>
    if c = sep then [] :: path_components sep rest
    else
      match path_components sep rest with
      | [] => [[c]]
      | seg :: segs => (c :: seg) :: segs

/-- One step of following a path from the directory `stack`: an empty name
and "." stay, ".." goes to the parent, any other name goes to the entry of
that name. -/
def resolve_step (stack : List (List Char)) (seg : List Char) : List (List Char) :=
  if seg = [] ∨ seg = ['.'] then stack
  else if seg = ['.', '.'] then stack.dropLast
  else stack ++ [seg]

/-- The directory entries a path leads through, from the root. -/
def resolve (path : String) : List (List Char) :=
  (path_components G_DIR_SEPARATOR path.toList).foldl resolve_step []

/-- The path `path` names an entry directly inside the directory `dir`: it
leads to where `dir` leads and then one entry further. -/
def DirectEntry (dir path : String) : Prop :=
  (resolve path).length = (resolve dir).length + 1 ∧ (resolve path).dropLast = resolve dir

instance (dir path : String) : Decidable (DirectEntry dir path) := by
  unfold DirectEntry
  infer_instance


/-! ## The parent chain, by distance

The claim about the file to display speaks of the nearest node on the
parent chain of a part; `nth_parent` gives the node at each distance. -/

/-- The node reached from `p` by `k` parent links: `p` itself for 0, and
nothing when the chain ends before. -/
def nth_parent (h : Heap) : Nat → Nat → Option Nat
  | 0, p => some p
  | k + 1, p =>
    match h[p]? with
    | none => none
    | some mimeinfo =>
      match mimeinfo.parent with
      | none => none
      | some parent => nth_parent h k parent

/-- The file `fname` is the decoded plaintext artifact of the nearest node
on the parent chain of `p`, `p` included, that has one. -/
def NearestPlaintext (h : Heap) (p : Nat) (fname : String) : Prop :=
  ∃ k q mimeinfo, nth_parent h k p = some q ∧ h[q]? = some mimeinfo ∧
    mimeinfo.plaintextfile = some fname ∧
    ∀ j q2 mimeinfo2, j < k → nth_parent h j p = some q2 → h[q2]? = some mimeinfo2 →
      mimeinfo2.plaintextfile = none

/-- No node on the parent chain of `p`, `p` included, has a decoded
plaintext artifact. -/
def NoPlaintext (h : Heap) (p : Nat) : Prop :=
  ∀ k q mimeinfo, nth_parent h k p = some q → h[q]? = some mimeinfo →
    mimeinfo.plaintextfile = none


/-! ## Lines of a stream

The claim about header skipping speaks of lines and of the first blank
line; `split_lines` cuts the unread characters of a stream into lines, each
with its newline. -/

/-- The first line of the unread characters: up to and including the first
newline, or all of them when there is no newline. -/
def first_line : List Char → List Char
  | [] => []
  | c :: rest => if c = '\n' then [c] else c :: first_line rest

/-- The lines of the unread characters, each with its terminating newline
(the last one without, when the stream does not end in a newline). -/
def split_lines : List Char → List (List Char)
  | [] => []
  | c :: rest =>
    if c = '\n' then [c] :: split_lines rest
    else
      match split_lines rest with
      | [] => [[c]]
      | l :: ls => (c :: l) :: ls

/-- A blank line: empty apart from its CR/LF terminator. -/
def blank_line (l : List Char) : Bool :=
  l == ['\n'] || l == ['\r', '\n']

/-- The test of the header loop on a line: its first character is CR or
LF (mimeview.c 277 and 905). -/
def starts_blank (l : List Char) : Bool :=
  l.head? == some '\r' || l.head? == some '\n'

/-- The number of characters up to and including the first line that
satisfies `stop`, or of all the lines when none does. -/
def after_first (stop : List Char → Bool) : List (List Char) → Nat
  | [] => 0
  | l :: ls => if stop l then l.length else l.length + after_first stop ls

/-- The position of a stream of content `content` immediately after the
first blank line at or after `offset`, or at end of file when there is
none. -/
def after_blank_line (content : List Char) (offset : Nat) : Nat :=
  offset + after_first blank_line (split_lines (content.drop offset))

/-- No call of `fgets` made inside the line `l` stores CR or LF first: the
calls start at the positions of `l` that are multiples of `size - 1`, the
number of characters one call stores. -/
def chunk_safe (size : Nat) (l : List Char) : Bool :=
  (List.range l.length).all fun k =>
    l[k * (size - 1)]? != some '\r' && l[k * (size - 1)]? != some '\n'

/-- The header loop reads the lines up to the first blank line as lines: no
call of `fgets` inside a line before the first blank line stores CR or LF
first, and the first blank line, if there is one, fits the buffer. -/
def header_safe (size : Nat) : List (List Char) → Bool
  | [] => true
  | l :: ls =>
    if blank_line l then decide (l.length < size)
    else chunk_safe size l && header_safe size ls

/-- The lines up to and including the first blank line, all of them when
there is none. -/
def upto_blank : List (List Char) → List (List Char)
  | [] => []
  | l :: ls => if blank_line l then [l] else l :: upto_blank ls

/-! ## Sample message and views -/

/-- A part with every optional field absent. -/
def blankPart (t : ContentType) : MimeInfo :=
  { mime_type := t, content_type := none, name := none, filename := none,
    fpos := 0, size := 0, main := none, sub := none, next := none,
    parent := none, children := none, plaintextfile := none,
    sigstatus := none, sigstatus_full := none }

/-- An environment with signature and image support, in which every file
operation and every extraction succeeds, files are empty, no part carries a
signature, the parser and the verification leave the part graph as it is,
and every dialog is cancelled. -/
def okEnv : Env :=
  { use_gpgme := true, have_image := true,
    to_human_readable := fun _ => "1B",
    widget_has_grab := false, pointer_is_grabbed := false,
    fopen := fun _ => true, fseek := fun _ _ => true,
    procmime_get_tmp_file_name := fun _ => "/tmp/part",
    procmime_get_part := fun _ _ _ => 0,
    buffsize := 8192,
    file_content := fun _ => [],
    auto_check_signatures := false,
    procmime_scan_multipart_message := fun h _ _ _ => h,
    rfc2015_has_signature := fun _ _ => false,
    rfc2015_find_signature := fun _ _ => none,
    rfc2015_check_signature := fun h _ _ => h,
    get_mime_tmp_dir := "/tmp/mime",
    filesel_select_file := fun _ _ => none,
    is_file_exist := fun _ => false,
    alertpanel := fun _ _ => .G_ALERTALTERNATE,
    mime_image_viewer := some "display '%s'",
    mime_audio_player := some "play '%s'",
    uri_cmd := some "netscape -remote 'openURL(%s,raise)'" }

/-- A multipart message: root 0 with children 1 (text), 2 (an embedded
message whose `sub` 3 is a multipart with the single child 4, an image) and
5 (an attachment). -/
def sampleHeap : Heap :=
  [ { blankPart .MIME_MULTIPART with
        content_type := some "multipart/mixed", children := some 1 },
    { blankPart .MIME_TEXT with
        content_type := some "text/plain", parent := some 0, next := some 2 },
    { blankPart .MIME_MESSAGE_RFC822 with
        content_type := some "message/rfc822", parent := some 0, sub := some 3,
        next := some 5 },
    { blankPart .MIME_MULTIPART with
        content_type := some "multipart/mixed", main := some 2, parent := some 0,
        children := some 4 },
    { blankPart .MIME_IMAGE with content_type := some "image/png", parent := some 3 },
    { blankPart .MIME_APPLICATION_OCTET_STREAM with
        content_type := some "application/octet-stream", parent := some 0,
        name := some "a.bin" } ]

/-- The rows `flatten` builds for `sampleHeap`: the root 0 and the
embedded message's `sub` 3 get no row, and part 4 hangs under the row of
part 2. -/
def sampleRows : List Row :=
  [ { parent := none, str := { mimetype := "text/plain", size := "1B", name := "" },
      data := 1 },
    { parent := none, str := { mimetype := "message/rfc822", size := "1B", name := "" },
      data := 2 },
    { parent := some 1, str := { mimetype := "image/png", size := "1B", name := "" },
      data := 4 },
    { parent := none,
      str := { mimetype := "application/octet-stream", size := "1B", name := "a.bin" },
      data := 5 } ]

/-- A message that is a single text part: the root has no parent, no
children and no `sub`. -/
def singlePartHeap : Heap := [blankPart .MIME_TEXT]

/-- The view right after `sampleHeap` was shown: the four rows of
`sampleRows`, nothing selected, mode None, no widget packed. -/
def sampleState : State :=
  { heap := sampleHeap,
    view := { mimeinfo := some 0, file := some "/msg", opened := none,
              type := .MIMEVIEW_NONE, ctree := sampleRows, vbox := [] },
    trace := [] }

/-- An environment in which no file can be opened. -/
def unreadableEnv : Env := { okEnv with fopen := fun _ => false }

/-- An environment in which extraction fails. -/
def noExtractEnv : Env := { okEnv with procmime_get_part := fun _ _ _ => -1 }

/-- The view of `sampleState` while the image (row 2, part 4) is open. -/
def imageOpenState : State :=
  { heap := sampleHeap,
    view := { mimeinfo := some 0, file := some "/msg", opened := some 2,
              type := .MIMEVIEW_IMAGE, ctree := sampleRows, vbox := [.imageview] },
    trace := [] }

/-- The view of `sampleState` after row 3 (part 5, the attachment) was
selected. -/
def attachmentOpenState : State :=
  { heap := sampleHeap,
    view := { mimeinfo := some 0, file := some "/msg", opened := some 3,
              type := .MIMEVIEW_TEXT, ctree := sampleRows, vbox := [.textview] },
    trace := [.gtk_ctree_node_moveto (some 3), .gtk_container_remove .imageview,
      .gtk_container_add .textview, .textview_show_mime_part 5] }

/-- The view of `sampleState` after row 0 (part 1, the text) was selected
and shown. -/
def textOpenState : State :=
  { heap := sampleHeap,
    view := { mimeinfo := some 0, file := some "/msg", opened := some 0,
              type := .MIMEVIEW_TEXT, ctree := sampleRows, vbox := [.textview] },
    trace := [.gtk_ctree_node_moveto (some 0), .fopen "/msg",
      .gtk_container_remove .imageview, .gtk_container_add .textview,
      .textview_show_part 1 "/msg" 0, .fclose "/msg"] }

/-- An environment in which the root of the sample message is a signed
multipart: `rfc2015_has_signature` holds for part 0 and the signature part
is part 5. -/
def signedEnv : Env :=
  { okEnv with
    rfc2015_has_signature := fun _ p => decide (p = 0),
    rfc2015_find_signature := fun _ _ => some 5 }

/-- The environment `signedEnv` with an unreadable source file. -/
def signedUnreadableEnv : Env := { signedEnv with fopen := fun _ => false }

/-- The sample view with the attachment open, the attachment carrying the
file name "../../etc/a.bin". -/
def dragState : State :=
  { attachmentOpenState with
    heap := sampleHeap.set 5
      { blankPart .MIME_APPLICATION_OCTET_STREAM with
          content_type := some "application/octet-stream", parent := some 0,
          name := some "a.bin", filename := some "../../etc/a.bin" } }

/-- An environment in which the file selection returns "/home/a.bin", a
file that exists, and the overwrite prompt is answered with its second
button. -/
def saveCancelEnv : Env :=
  { okEnv with
    filesel_select_file := fun _ _ => some "/home/a.bin",
    is_file_exist := fun _ => true,
    alertpanel := fun _ _ => .G_ALERTALTERNATE }

/-- The environment `saveCancelEnv` with the overwrite prompt answered
with OK. -/
def saveOkEnv : Env := { saveCancelEnv with alertpanel := fun _ _ => .G_ALERTDEFAULT }

/-- The view `dragState` after the drag export of the open attachment. -/
def dragDoneState : State :=
  { dragState with
    trace := dragState.trace ++
      [.procmime_get_part "/tmp/mime/a.bin" (some "/msg") 5,
       .gtk_selection_data_set "file://tmp/mime/a.bin"] }

/-- The view `attachmentOpenState` after a save whose overwrite prompt was
not answered with OK. -/
def saveCancelledState : State :=
  { attachmentOpenState with
    trace := attachmentOpenState.trace ++
      [.filesel_select_file "Save as" (some "a.bin"),
       .alertpanel "Overwrite" "Overwrite existing file?"] }

/-- The view `attachmentOpenState` after a save whose overwrite prompt was
answered with OK. -/
def saveDoneState : State :=
  { attachmentOpenState with
    trace := attachmentOpenState.trace ++
      [.filesel_select_file "Save as" (some "a.bin"),
       .alertpanel "Overwrite" "Overwrite existing file?",
       .procmime_get_part "/home/a.bin" (some "/msg") 5] }

/-- The environment `okEnv` built without image support. -/
def noImageEnv : Env := { okEnv with have_image := false }

/-- A message whose one attachment has no content type. -/
def untypedHeap : Heap :=
  [ { blankPart .MIME_MULTIPART with
        content_type := some "multipart/mixed", children := some 1 },
    { blankPart .MIME_APPLICATION_OCTET_STREAM with
        content_type := none, parent := some 0, name := some "a.bin" } ]

/-- The view of `untypedHeap` with no row open. -/
def untypedState : State :=
  { heap := untypedHeap,
    view := { mimeinfo := some 0, file := some "/msg", opened := none,
              type := .MIMEVIEW_NONE,
              ctree := [ { parent := none,
                           str := { mimetype := "", size := "1B", name := "a.bin" },
                           data := 1 } ],
              vbox := [] },
    trace := [] }

/-- The sample message after decryption: the root carries a decoded
plaintext artifact. -/
def decryptedHeap : Heap :=
  [ { blankPart .MIME_MULTIPART with
        content_type := some "multipart/mixed", children := some 1,
        plaintextfile := some "/tmp/plain" },
    { blankPart .MIME_TEXT with
        content_type := some "text/plain", parent := some 0, fpos := 120 } ]

/-- The view of `decryptedHeap` with no row open. -/
def decryptedState : State :=
  { heap := decryptedHeap,
    view := { mimeinfo := some 0, file := some "/msg", opened := none,
              type := .MIMEVIEW_NONE,
              ctree := [ { parent := none,
                           str := { mimetype := "text/plain", size := "1B", name := "" },
                           data := 1 } ],
              vbox := [] },
    trace := [] }

/-- The environment `okEnv` with a message file of one header line, a blank
line and a body. -/
def headerEnv : Env :=
  { okEnv with file_content := fun _ => "Subject: x\r\n\r\nbody\n".toList }

/-- The environment `okEnv` with a message file whose first line begins
with CR and is not blank. -/
def crLineEnv : Env := { okEnv with file_content := fun _ => "\rX\n\n".toList }

/-- The environment `okEnv` with a message file whose first line has as
many characters before its newline as one `fgets` call stores. -/
def longLineEnv : Env :=
  { okEnv with
    file_content := fun _ => List.replicate (okEnv.buffsize - 1) 'a' ++ ['\n', 'd', '\n', '\n'] }

/-- The environment `okEnv` with a message file that begins with a blank
line and on which no seek succeeds. -/
def seekFailEnv : Env :=
  { okEnv with file_content := fun _ => "\nab\n\n".toList, fseek := fun _ _ => false }

/-- The environment `signedEnv` on which no seek succeeds and whose
verification records a result on the signature part 5. -/
def signedSeekFailEnv : Env :=
  { signedEnv with
    fseek := fun _ _ => false,
    rfc2015_check_signature := fun h _ _ =>
      match h[5]? with
      | none => h
      | some sig => h.set 5 { sig with sigstatus := some "Good signature" } }

/-- The view `attachmentOpenState` with an attachment that has neither a
file name nor a name. -/
def namelessState : State :=
  { attachmentOpenState with
    heap := sampleHeap.set 5
      { blankPart .MIME_APPLICATION_OCTET_STREAM with
          content_type := some "application/octet-stream", parent := some 0 } }

/-- The depth-first labelling of `sampleHeap`: the parts are entered in
the order 0 to 5. -/
def sampleLabels : Labels :=
  { enter := fun p => p,
    exit := fun p => match p with
      | 0 => 5
      | 1 => 1
      | 2 => 4
      | 3 => 4
      | 4 => 4
      | _ => 5,
    chain := fun p => match p with
      | 3 => 4
      | 4 => 4
      | _ => 5 }

/-- The view `attachmentOpenState` with an attachment whose file name ends
in the segment "..". -/
def dotsState : State :=
  { attachmentOpenState with
    heap := sampleHeap.set 5
      { blankPart .MIME_APPLICATION_OCTET_STREAM with
          content_type := some "application/octet-stream", parent := some 0,
          name := some "a.bin", filename := some "x/.." } }

/-- The environment `okEnv` with a buffer of 16 bytes and a message file of
one header line, a blank line and a body line of 40 characters. -/
def longBodyEnv : Env :=
  { okEnv with
    buffsize := 16,
    file_content := fun _ => "H: x\n\n".toList ++ List.replicate 40 'a' }

/-- The environment `okEnv` with a buffer of 16 bytes and a message file
whose header line has 20 characters, followed by a blank line and a
body. -/
def longHeaderEnv : Env :=
  { okEnv with
    buffsize := 16,
    file_content := fun _ => "Subject: abcdefghijk\r\n\r\nbody\n".toList }

/-! # Theorems

## Equivalence of the fuelled functions and the big-step relation -/

theorem tree_succ (env : Env) (h : Heap) (fuel p : Nat) (parent : Option Nat)
    (ctree : List Row) :
    mimeview_set_multipart_tree env h (fuel + 1) (some p) parent ctree =
      match h[p]? with
      | none => none
      | some mimeinfo =>
        match exec env h fuel (.sub mimeinfo.sub)
            (set_own_row env ctree p mimeinfo parent).2
            (set_own_row env ctree p mimeinfo parent).1 with
        | none => none
        | some ctree2 =>
          set_children env h fuel mimeinfo.children
            (set_own_row env ctree p mimeinfo parent).2 ctree2 := by
  rw [mimeview_set_multipart_tree]
  cases hp : h[p]? with
  | none => rfl
  | some mimeinfo =>
    cases hs : mimeinfo.sub with
    | none => simp [exec, hs]
    | some s => simp [exec, hs]

theorem children_succ (env : Env) (h : Heap) (fuel c : Nat) (parent : Option Nat)
    (ctree : List Row) :
    set_children env h (fuel + 1) (some c) parent ctree =
      match mimeview_set_multipart_tree env h fuel (some c) parent ctree with
      | none => none
      | some ctree2 =>
        match h[c]? with
        | none => none
        | some child => set_children env h fuel child.next parent ctree2 := by
  rw [set_children]

theorem run_of_fuel (env : Env) (h : Heap) (fuel : Nat) :
    ∀ (call : Call) (parent : Option Nat) (ctree out : List Row),
      exec env h fuel call parent ctree = some out → Run env h call parent ctree out := by
  induction fuel with
  | zero =>
    intro call parent ctree out hrun
    cases call with
    | tree p => simp [exec, mimeview_set_multipart_tree] at hrun
    | sub s =>
      cases s with
      | none =>
        simp [exec] at hrun
        subst hrun
        exact Run.sub_none parent ctree
      | some s =>
        simp only [exec] at hrun
        cases hs : h[s]? with
        | none => simp [hs] at hrun
        | some sub =>
          simp only [hs] at hrun
          by_cases hc : sub.children.isSome = true
          · simp [hc, mimeview_set_multipart_tree] at hrun
          · simp [hc] at hrun
            subst hrun
            exact Run.sub_leaf s sub parent ctree hs (by simpa using hc)
    | children c => simp [exec, set_children] at hrun
  | succ fuel ih =>
    have htree : ∀ (p : Option Nat) (parent : Option Nat) (ctree out : List Row),
        mimeview_set_multipart_tree env h (fuel + 1) p parent ctree = some out →
        Run env h (.tree p) parent ctree out := by
      intro p parent ctree out hrun
      cases p with
      | none =>
        simp [mimeview_set_multipart_tree] at hrun
        subst hrun
        exact Run.tree_null parent ctree
      | some p =>
        rw [tree_succ] at hrun
        cases hp : h[p]? with
        | none => simp [hp] at hrun
        | some mimeinfo =>
          simp only [hp] at hrun
          cases hsub : exec env h fuel (.sub mimeinfo.sub)
              (set_own_row env ctree p mimeinfo parent).2
              (set_own_row env ctree p mimeinfo parent).1 with
          | none => simp [hsub] at hrun
          | some mid =>
            simp only [hsub] at hrun
            exact Run.tree_node p mimeinfo parent ctree mid out hp
              (ih _ _ _ _ hsub) (ih (.children mimeinfo.children) _ _ _ hrun)
    intro call parent ctree out hrun
    cases call with
    | tree p => exact htree p parent ctree out hrun
    | sub s =>
      cases s with
      | none =>
        simp [exec] at hrun
        subst hrun
        exact Run.sub_none parent ctree
      | some s =>
        simp only [exec] at hrun
        cases hs : h[s]? with
        | none => simp [hs] at hrun
        | some sub =>
          simp only [hs] at hrun
          by_cases hc : sub.children.isSome = true
          · simp only [hc, if_true] at hrun
            exact Run.sub_visit s sub parent ctree out hs hc (htree _ _ _ _ hrun)
          · simp [hc] at hrun
            subst hrun
            exact Run.sub_leaf s sub parent ctree hs (by simpa using hc)
    | children c =>
      cases c with
      | none =>
        simp [exec, set_children] at hrun
        subst hrun
        exact Run.children_null parent ctree
      | some c =>
        simp only [exec] at hrun
        rw [children_succ] at hrun
        cases ht : mimeview_set_multipart_tree env h fuel (some c) parent ctree with
        | none => simp [ht] at hrun
        | some mid =>
          simp only [ht] at hrun
          cases hc : h[c]? with
          | none => simp [hc] at hrun
          | some child =>
            simp only [hc] at hrun
            exact Run.children_cons c child parent ctree mid out
              (ih (.tree (some c)) _ _ _ ht) hc (ih (.children child.next) _ _ _ hrun)

theorem exec_sub_succ (env : Env) (h : Heap) (fuel : Nat) (s : Option Nat)
    (parent : Option Nat) (ctree out : List Row)
    (htree : ∀ (p : Option Nat) (parent : Option Nat) (ctree out : List Row),
      mimeview_set_multipart_tree env h fuel p parent ctree = some out →
      mimeview_set_multipart_tree env h (fuel + 1) p parent ctree = some out)
    (hrun : exec env h fuel (.sub s) parent ctree = some out) :
    exec env h (fuel + 1) (.sub s) parent ctree = some out := by
  cases s with
  | none => simpa [exec] using hrun
  | some s =>
    simp only [exec] at hrun ⊢
    cases hs : h[s]? with
    | none => simp [hs] at hrun
    | some sub =>
      simp only [hs] at hrun ⊢
      by_cases hc : sub.children.isSome = true
      · simp only [hc, if_true] at hrun ⊢
        exact htree _ _ _ _ hrun
      · simpa [hc] using hrun

/-- More fuel never changes a result. -/
theorem exec_succ (env : Env) (h : Heap) (fuel : Nat) :
    ∀ (call : Call) (parent : Option Nat) (ctree out : List Row),
      exec env h fuel call parent ctree = some out →
      exec env h (fuel + 1) call parent ctree = some out := by
  induction fuel with
  | zero =>
    intro call parent ctree out hrun
    cases call with
    | tree p => simp [exec, mimeview_set_multipart_tree] at hrun
    | sub s =>
      refine exec_sub_succ env h 0 s parent ctree out ?_ hrun
      intro p parent ctree out hp
      simp [mimeview_set_multipart_tree] at hp
    | children c => simp [exec, set_children] at hrun
  | succ fuel ih =>
    have htree : ∀ (p : Option Nat) (parent : Option Nat) (ctree out : List Row),
        mimeview_set_multipart_tree env h (fuel + 1) p parent ctree = some out →
        mimeview_set_multipart_tree env h (fuel + 1 + 1) p parent ctree = some out := by
      intro p parent ctree out hrun
      cases p with
      | none => simpa [mimeview_set_multipart_tree] using hrun
      | some p =>
        rw [tree_succ] at hrun ⊢
        cases hp : h[p]? with
        | none => simp [hp] at hrun
        | some mimeinfo =>
          simp only [hp] at hrun ⊢
          cases hsub : exec env h fuel (.sub mimeinfo.sub)
              (set_own_row env ctree p mimeinfo parent).2
              (set_own_row env ctree p mimeinfo parent).1 with
          | none => simp [hsub] at hrun
          | some mid =>
            simp only [hsub] at hrun
            rw [ih _ _ _ _ hsub]
            exact ih (.children mimeinfo.children) _ _ _ hrun
    intro call parent ctree out hrun
    cases call with
    | tree p => exact htree p parent ctree out hrun
    | sub s => exact exec_sub_succ env h (fuel + 1) s parent ctree out htree hrun
    | children c =>
      cases c with
      | none => simpa [exec, set_children] using hrun
      | some c =>
        simp only [exec] at hrun ⊢
        rw [children_succ] at hrun ⊢
        cases ht : mimeview_set_multipart_tree env h fuel (some c) parent ctree with
        | none => simp [ht] at hrun
        | some mid =>
          simp only [ht] at hrun
          have e := ih (.tree (some c)) _ _ _ ht
          simp only [exec] at e
          rw [e]
          cases hc : h[c]? with
          | none => simp [hc] at hrun
          | some child =>
            simp only [hc] at hrun ⊢
            exact ih (.children child.next) _ _ _ hrun

theorem exec_mono (env : Env) (h : Heap) (fuel fuel2 : Nat) (hle : fuel ≤ fuel2)
    (call : Call) (parent : Option Nat) (ctree out : List Row)
    (hrun : exec env h fuel call parent ctree = some out) :
    exec env h fuel2 call parent ctree = some out := by
  induction hle with
  | refl => exact hrun
  | step _ ih => exact exec_succ env h _ call parent ctree out ih

/-- Every terminating run is computed by the fuelled functions, for every
fuel from some bound on. -/
theorem fuel_of_run (env : Env) (h : Heap) (call : Call) (parent : Option Nat)
    (ctree out : List Row) (hrun : Run env h call parent ctree out) :
    ∃ fuel, ∀ fuel2, fuel ≤ fuel2 → exec env h fuel2 call parent ctree = some out := by
  induction hrun with
  | tree_null parent ctree =>
    refine ⟨1, fun fuel2 hle => exec_mono env h 1 fuel2 hle _ _ _ _ ?_⟩
    simp [exec, mimeview_set_multipart_tree]
  | tree_node p mimeinfo parent ctree mid out hp _ _ ihsub ihch =>
    obtain ⟨f1, h1⟩ := ihsub
    obtain ⟨f2, h2⟩ := ihch
    refine ⟨max f1 f2 + 1, fun fuel2 hle =>
      exec_mono env h (max f1 f2 + 1) fuel2 hle _ _ _ _ ?_⟩
    simp only [exec]
    rw [tree_succ]
    simp only [hp]
    rw [h1 (max f1 f2) (le_max_left _ _)]
    exact h2 (max f1 f2) (le_max_right _ _)
  | sub_none parent ctree =>
    exact ⟨0, fun fuel2 _ => by simp [exec]⟩
  | sub_leaf s sub parent ctree hs hc =>
    exact ⟨0, fun fuel2 _ => by simp [exec, hs, hc]⟩
  | sub_visit s sub parent ctree out hs hc _ ih =>
    obtain ⟨f1, h1⟩ := ih
    refine ⟨f1, fun fuel2 hle => ?_⟩
    have := h1 fuel2 hle
    simp only [exec] at this
    simp [exec, hs, hc, this]
  | children_null parent ctree =>
    refine ⟨1, fun fuel2 hle => exec_mono env h 1 fuel2 hle _ _ _ _ ?_⟩
    simp [exec, set_children]
  | children_cons c child parent ctree mid out _ hc _ iht ihn =>
    obtain ⟨f1, h1⟩ := iht
    obtain ⟨f2, h2⟩ := ihn
    refine ⟨max f1 f2 + 1, fun fuel2 hle =>
      exec_mono env h (max f1 f2 + 1) fuel2 hle _ _ _ _ ?_⟩
    simp only [exec]
    rw [children_succ]
    have e1 := h1 (max f1 f2) (le_max_left _ _)
    simp only [exec] at e1
    rw [e1]
    simp only [hc]
    exact h2 (max f1 f2) (le_max_right _ _)

/-- A run has one result. -/
theorem run_unique (env : Env) (h : Heap) (call : Call) (parent : Option Nat)
    (ctree out out2 : List Row) (h1 : Run env h call parent ctree out)
    (h2 : Run env h call parent ctree out2) : out = out2 := by
  obtain ⟨f1, e1⟩ := fuel_of_run env h call parent ctree out h1
  obtain ⟨f2, e2⟩ := fuel_of_run env h call parent ctree out2 h2
  have a := e1 (max f1 f2) (le_max_left _ _)
  have b := e2 (max f1 f2) (le_max_right _ _)
  rw [a] at b
  exact Option.some.inj b

/-! ### Termination on well-formed graphs -/

theorem linkOk_some {h : Heap} {rank : Nat → Nat} {p q : Nat}
    (hl : linkOk h rank p (some q) = true) : q < h.length ∧ rank q < rank p := by
  simpa [linkOk] using hl

theorem acyclic_node {h : Heap} {rank : Nat → Nat} (hwf : Acyclic h rank)
    {p : Nat} {mimeinfo : MimeInfo} (hp : h[p]? = some mimeinfo) :
    linkOk h rank p mimeinfo.sub = true ∧ linkOk h rank p mimeinfo.children = true ∧
      linkOk h rank p mimeinfo.next = true := by
  have hlt : p < h.length := by
    rcases List.getElem?_eq_some.1 hp with ⟨hlt, _⟩
    exact hlt
  have := hwf p hlt
  simp only [nodeOk, hp, Bool.and_eq_true] at this
  exact ⟨this.1.1, this.1.2, this.2⟩

theorem run_total_aux (env : Env) (h : Heap) (rank : Nat → Nat)
    (hwf : Acyclic h rank) (n : Nat) :
    ∀ p, p < h.length → rank p < n →
      (∀ parent ctree, ∃ out, Run env h (.tree (some p)) parent ctree out) ∧
      (∀ parent ctree, ∃ out, Run env h (.children (some p)) parent ctree out) := by
  induction n with
  | zero => intro p _ hr; exact absurd hr (Nat.not_lt_zero _)
  | succ n ih =>
    intro p hp hr
    obtain ⟨mimeinfo, hget⟩ : ∃ mimeinfo, h[p]? = some mimeinfo :=
      ⟨h[p], List.getElem?_eq_getElem hp⟩
    obtain ⟨hsub, hch, hnext⟩ := acyclic_node hwf hget
    have htree : ∀ parent ctree, ∃ out, Run env h (.tree (some p)) parent ctree out := by
      intro parent ctree
      have hsubrun : ∃ mid, Run env h (.sub mimeinfo.sub)
          (set_own_row env ctree p mimeinfo parent).2
          (set_own_row env ctree p mimeinfo parent).1 mid := by
        cases hs : mimeinfo.sub with
        | none => exact ⟨_, Run.sub_none _ _⟩
        | some s =>
          rw [hs] at hsub
          obtain ⟨hslt, hsr⟩ := linkOk_some hsub
          obtain ⟨sub, hsget⟩ : ∃ sub, h[s]? = some sub :=
            ⟨h[s], List.getElem?_eq_getElem hslt⟩
          by_cases hc : sub.children.isSome = true
          · obtain ⟨out, hout⟩ := (ih s hslt (by omega)).1
              (set_own_row env ctree p mimeinfo parent).2
              (set_own_row env ctree p mimeinfo parent).1
            exact ⟨out, Run.sub_visit s sub _ _ out hsget hc hout⟩
          · exact ⟨_, Run.sub_leaf s sub _ _ hsget (by simpa using hc)⟩
      obtain ⟨mid, hmid⟩ := hsubrun
      have hchrun : ∃ out, Run env h (.children mimeinfo.children)
          (set_own_row env ctree p mimeinfo parent).2 mid out := by
        cases hc : mimeinfo.children with
        | none => exact ⟨_, Run.children_null _ _⟩
        | some c =>
          rw [hc] at hch
          obtain ⟨hclt, hcr⟩ := linkOk_some hch
          exact (ih c hclt (by omega)).2 _ _
      obtain ⟨out, hout⟩ := hchrun
      exact ⟨out, Run.tree_node p mimeinfo parent ctree mid out hget hmid hout⟩
    refine ⟨htree, ?_⟩
    intro parent ctree
    obtain ⟨mid, hmid⟩ := htree parent ctree
    have hnextrun : ∃ out, Run env h (.children mimeinfo.next) parent mid out := by
      cases hn : mimeinfo.next with
      | none => exact ⟨_, Run.children_null _ _⟩
      | some q =>
        rw [hn] at hnext
        obtain ⟨hqlt, hqr⟩ := linkOk_some hnext
        exact (ih q hqlt (by omega)).2 _ _
    obtain ⟨out, hout⟩ := hnextrun
    exact ⟨out, Run.children_cons p mimeinfo parent ctree mid out hmid hget hout⟩

/-- On a closed acyclic part graph the traversal of any part terminates. -/
theorem run_total (env : Env) (h : Heap) (rank : Nat → Nat) (hwf : Acyclic h rank)
    (p : Nat) (hp : p < h.length) (parent : Option Nat) (ctree : List Row) :
    ∃ out, Run env h (.tree (some p)) parent ctree out :=
  (run_total_aux env h rank hwf (rank p + 1) p hp (Nat.lt_succ_self _)).1 parent ctree

/-- On a closed acyclic part graph `flatten` returns its rows for every
fuel from some bound on. -/
theorem flatten_total (env : Env) (h : Heap) (rank : Nat → Nat) (hwf : Acyclic h rank)
    (root : Nat) (hroot : root < h.length) :
    ∃ out fuel, ∀ fuel2, fuel ≤ fuel2 → flatten env h fuel2 root = some out := by
  obtain ⟨out, hrun⟩ := run_total env h rank hwf root hroot none []
  obtain ⟨fuel, hf⟩ := fuel_of_run env h _ _ _ _ hrun
  exact ⟨out, fuel, fun fuel2 hle => hf fuel2 hle⟩

theorem run_of_flatten {env : Env} {h : Heap} {fuel root : Nat} {out : List Row}
    (hf : flatten env h fuel root = some out) :
    Run env h (.tree (some root)) none [] out :=
  run_of_fuel env h fuel (.tree (some root)) none [] out hf

/-! ### Invariants of the traversal -/

theorem set_own_row_fst (env : Env) (ctree : List Row) (p : Nat) (mimeinfo : MimeInfo)
    (parent : Option Nat) :
    (set_own_row env ctree p mimeinfo parent).1 =
      ctree ++ (set_own_row env [] p mimeinfo parent).1 := by
  unfold set_own_row mimeview_append_part
  split <;> simp

/-- The traversal only appends rows. -/
theorem run_prefix {env : Env} {h : Heap} {call : Call} {parent : Option Nat}
    {ctree out : List Row} (hrun : Run env h call parent ctree out) :
    ∃ seg, out = ctree ++ seg := by
  induction hrun with
  | tree_null parent ctree => exact ⟨[], by simp⟩
  | tree_node p mimeinfo parent ctree mid out _ _ _ ihsub ihch =>
    obtain ⟨s1, h1⟩ := ihsub
    obtain ⟨s2, h2⟩ := ihch
    rw [set_own_row_fst] at h1
    exact ⟨(set_own_row env [] p mimeinfo parent).1 ++ s1 ++ s2, by
      rw [h2, h1]; simp⟩
  | sub_none parent ctree => exact ⟨[], by simp⟩
  | sub_leaf s sub parent ctree _ _ => exact ⟨[], by simp⟩
  | sub_visit s sub parent ctree out _ _ _ ih => exact ih
  | children_null parent ctree => exact ⟨[], by simp⟩
  | children_cons c child parent ctree mid out _ _ _ iht ihn =>
    obtain ⟨s1, h1⟩ := iht
    obtain ⟨s2, h2⟩ := ihn
    exact ⟨s1 ++ s2, by rw [h2, h1]; simp⟩

theorem run_rows_shown {env : Env} {h : Heap} {call : Call} {parent : Option Nat}
    {ctree out : List Row} (hrun : Run env h call parent ctree out) :
    ∀ r ∈ out, r ∈ ctree ∨ RowShown h r := by
  induction hrun with
  | tree_null parent ctree => exact fun r hr => Or.inl hr
  | tree_node p mimeinfo parent ctree mid out hp _ _ ihsub ihch =>
    intro r hr
    rcases ihch r hr with hmid | hs
    · rcases ihsub r hmid with hown | hs
      · unfold set_own_row mimeview_append_part at hown
        by_cases hsh : shown mimeinfo = true
        · simp only [hsh, if_true, List.mem_append, List.mem_singleton] at hown
          rcases hown with hc | rfl
          · exact Or.inl hc
          · exact Or.inr ⟨mimeinfo, hp, hsh⟩
        · simp only [hsh] at hown
          exact Or.inl hown
      · exact Or.inr hs
    · exact Or.inr hs
  | sub_none parent ctree => exact fun r hr => Or.inl hr
  | sub_leaf s sub parent ctree _ _ => exact fun r hr => Or.inl hr
  | sub_visit s sub parent ctree out _ _ _ ih => exact ih
  | children_null parent ctree => exact fun r hr => Or.inl hr
  | children_cons c child parent ctree mid out _ _ _ iht ihn =>
    intro r hr
    rcases ihn r hr with hmid | hs
    · exact iht r hmid
    · exact Or.inr hs

theorem run_mem {env : Env} {h : Heap} {call : Call} {parent : Option Nat}
    {ctree out : List Row} (hrun : Run env h call parent ctree out) :
    ∀ r ∈ ctree, r ∈ out := by
  obtain ⟨seg, hseg⟩ := run_prefix hrun
  intro r hr
  rw [hseg]
  exact List.mem_append_left _ hr

theorem run_length_le {env : Env} {h : Heap} {call : Call} {parent : Option Nat}
    {ctree out : List Row} (hrun : Run env h call parent ctree out) :
    ctree.length ≤ out.length := by
  obtain ⟨seg, hseg⟩ := run_prefix hrun
  rw [hseg, List.length_append]
  exact Nat.le_add_right _ _

/-- Rows already in the tree keep their position. -/
theorem run_getElem? {env : Env} {h : Heap} {call : Call} {parent : Option Nat}
    {ctree out : List Row} (hrun : Run env h call parent ctree out) (i : Nat)
    (hi : i < ctree.length) : out[i]? = ctree[i]? := by
  obtain ⟨seg, hseg⟩ := run_prefix hrun
  rw [hseg]
  exact List.getElem?_append_left hi

theorem set_own_row_shown (env : Env) (ctree : List Row) (p : Nat) (mimeinfo : MimeInfo)
    (parent : Option Nat) (hsh : shown mimeinfo = true) :
    set_own_row env ctree p mimeinfo parent =
      mimeview_append_part env ctree p mimeinfo parent := by
  simp [set_own_row, hsh]

theorem set_own_row_hidden (env : Env) (ctree : List Row) (p : Nat) (mimeinfo : MimeInfo)
    (parent : Option Nat) (hsh : ¬ shown mimeinfo = true) :
    set_own_row env ctree p mimeinfo parent = (ctree, parent) := by
  simp [set_own_row, hsh]

/-- The first row a call appends, if any, hangs under the `parent` the
call was given. -/
theorem run_first_parent {env : Env} {h : Heap} {call : Call} {parent : Option Nat}
    {ctree out : List Row} (hrun : Run env h call parent ctree out) :
    ∀ r, out[ctree.length]? = some r → r.parent = parent := by
  induction hrun with
  | tree_null parent ctree => intro r hr; simp at hr
  | tree_node p mimeinfo parent ctree mid out hp hsub hch ihsub ihch =>
    intro r hr
    by_cases hsh : shown mimeinfo = true
    · rw [set_own_row_shown _ _ _ _ _ hsh] at hsub hch ihsub ihch
      have hlt : ctree.length < (mimeview_append_part env ctree p mimeinfo parent).1.length := by
        simp [mimeview_append_part]
      have h1 := run_getElem? hsub ctree.length hlt
      have h2 := run_getElem? hch ctree.length (lt_of_lt_of_le hlt (run_length_le hsub))
      rw [h2, h1] at hr
      simp [mimeview_append_part] at hr
      rw [← hr]
      rfl
    · rw [set_own_row_hidden _ _ _ _ _ hsh] at hsub hch ihsub ihch
      simp only at hsub hch ihsub ihch
      by_cases hlen : ctree.length < mid.length
      · have h2 := run_getElem? hch ctree.length hlen
        rw [h2] at hr
        exact ihsub r hr
      · have hle := run_length_le hsub
        simp only at hle
        have heq : mid.length = ctree.length := by omega
        rw [← heq] at hr
        exact ihch r hr
  | sub_none parent ctree => intro r hr; simp at hr
  | sub_leaf s sub parent ctree _ _ => intro r hr; simp at hr
  | sub_visit s sub parent ctree out _ _ _ ih => exact ih
  | children_null parent ctree => intro r hr; simp at hr
  | children_cons c child parent ctree mid out htree _ hnext iht ihn =>
    intro r hr
    by_cases hlen : ctree.length < mid.length
    · have h2 := run_getElem? hnext ctree.length hlen
      rw [h2] at hr
      exact iht r hr
    · have hle := run_length_le htree
      have heq : mid.length = ctree.length := by omega
      rw [← heq] at hr
      exact ihn r hr

/-- Every sibling on the `next` chain is visited by the children loop. -/
theorem run_sibling {env : Env} {h : Heap} {c0 : Option Nat} {c : Nat}
    (hsib : Sibling h c0 c) :
    ∀ {parent : Option Nat} {ctree out : List Row},
      Run env h (.children c0) parent ctree out →
      ∃ a b, Run env h (.tree (some c)) parent a b ∧ ∀ r ∈ b, r ∈ out := by
  induction hsib with
  | head c =>
    intro parent ctree out hrun
    cases hrun with
    | children_cons _ child _ _ mid _ htree hc hnext =>
      exact ⟨ctree, mid, htree, run_mem hnext⟩
  | next c child q hc _ ih =>
    intro parent ctree out hrun
    cases hrun with
    | children_cons _ child2 _ _ mid _ htree hc2 hnext =>
      have : child2 = child := Option.some.inj (hc2.symm.trans hc)
      subst this
      exact ih hnext

/-- Every part the traversal reaches that satisfies the row condition has
a row in the result. -/
theorem run_visited {env : Env} {h : Heap} {p q : Nat} (hvis : Visited h p q) :
    ∀ {parent : Option Nat} {ctree out : List Row} {target : MimeInfo},
      Run env h (.tree (some p)) parent ctree out →
      h[q]? = some target → shown target = true → ∃ r ∈ out, r.data = q := by
  induction hvis with
  | self p =>
    intro parent ctree out target hrun hq hsh
    cases hrun with
    | tree_node _ mimeinfo _ _ mid _ hp hsub hch =>
      have : mimeinfo = target := Option.some.inj (hp.symm.trans hq)
      subst this
      rw [set_own_row_shown _ _ _ _ _ hsh] at hsub hch
      refine ⟨part_row env p mimeinfo parent, ?_, rfl⟩
      apply run_mem hch
      apply run_mem hsub
      simp [mimeview_append_part]
  | sub p mimeinfo s sub q hp hs hsget hc _ ih =>
    intro parent ctree out target hrun hq hsh
    cases hrun with
    | tree_node _ mimeinfo2 _ _ mid _ hp2 hsub hch =>
      have : mimeinfo2 = mimeinfo := Option.some.inj (hp2.symm.trans hp)
      subst this
      rw [hs] at hsub
      cases hsub with
      | sub_leaf _ sub2 _ _ hsget2 hc2 =>
        have : sub2 = sub := Option.some.inj (hsget2.symm.trans hsget)
        subst this
        simp [hc2] at hc
      | sub_visit _ sub2 _ _ _ _ _ htree =>
        obtain ⟨r, hr, hd⟩ := ih htree hq hsh
        exact ⟨r, run_mem hch r hr, hd⟩
  | child p mimeinfo c q hp hsib _ ih =>
    intro parent ctree out target hrun hq hsh
    cases hrun with
    | tree_node _ mimeinfo2 _ _ mid _ hp2 hsub hch =>
      have : mimeinfo2 = mimeinfo := Option.some.inj (hp2.symm.trans hp)
      subst this
      obtain ⟨a, b, htree, hb⟩ := run_sibling hsib hch
      obtain ⟨r, hr, hd⟩ := ih htree hq hsh
      exact ⟨r, hb r hr, hd⟩

/-! ## Claims on the tree flattener -/

/-- C1: no row built by `flatten` stands for a part that has `main` set and
a non-null `parent`: every row stands for a part of the arena for which
that conjunction fails. -/
theorem flatten_no_main_row (env : Env) (h : Heap) (fuel root : Nat) (out : List Row)
    (hf : flatten env h fuel root = some out) :
    ∀ r ∈ out, ∃ mimeinfo, h[r.data]? = some mimeinfo ∧
      ¬ (mimeinfo.main.isSome = true ∧ mimeinfo.parent.isSome = true) := by
  intro r hr
  rcases run_rows_shown (run_of_flatten hf) r hr with hnil | ⟨mimeinfo, hget, hsh⟩
  · simp at hnil
  · refine ⟨mimeinfo, hget, ?_⟩
    intro hboth
    have hmain := hboth.1
    simp only [shown, Bool.and_eq_true] at hsh
    cases hm : mimeinfo.main with
    | none => simp [hm] at hmain
    | some m => simp [hm] at hsh

/-- C1 on the sample message: its four rows stand for parts 1, 2, 4 and 5, all
with `main` unset. -/
theorem flatten_no_main_row_witness :
    flatten okEnv sampleHeap 10 0 = some sampleRows ∧
    ∀ r ∈ sampleRows, ∃ mimeinfo, sampleHeap[r.data]? = some mimeinfo ∧
      ¬ (mimeinfo.main.isSome = true ∧ mimeinfo.parent.isSome = true) :=
  ⟨by decide, flatten_no_main_row okEnv sampleHeap 10 0 sampleRows (by decide)⟩

/-- C2, as stated, fails: in `sampleHeap` the root (part 0) is reachable
from the root, has `main` unset, and no row of `flatten` stands for it. -/
theorem flatten_drops_root_counterexample :
    flatten okEnv sampleHeap 10 0 = some sampleRows ∧
    Reachable sampleHeap 0 0 ∧
    (∃ mimeinfo, sampleHeap[0]? = some mimeinfo ∧ mimeinfo.main = none) ∧
    ¬ ∃ r ∈ sampleRows, r.data = 0 :=
  ⟨by decide, Reachable.self 0, ⟨_, rfl, rfl⟩, by decide⟩

/-- C2, amended: on a closed acyclic part graph `flatten` returns (for
every fuel from some bound on) a row sequence in which every part reached
by the traversal (from the root through children links, and through a
`sub` link when its target has children) that has `main` unset and `parent`
set has a row. -/
theorem flatten_keeps_shown (env : Env) (h : Heap) (rank : Nat → Nat)
    (hwf : Acyclic h rank) (root : Nat) (hroot : root < h.length) :
    ∃ out fuel, (∀ fuel2, fuel ≤ fuel2 → flatten env h fuel2 root = some out) ∧
      ∀ q mimeinfo, Visited h root q → h[q]? = some mimeinfo →
        mimeinfo.main = none → mimeinfo.parent.isSome = true →
        ∃ r ∈ out, r.data = q := by
  obtain ⟨out, fuel, hf⟩ := flatten_total env h rank hwf root hroot
  refine ⟨out, fuel, hf, ?_⟩
  intro q mimeinfo hvis hq hmain hpar
  have hrun := run_of_flatten (hf fuel (le_refl _))
  exact run_visited hvis hrun hq (by simp [shown, hmain, hpar])

/-- C2, amended, on the sample message, ranked by `6 - p`. -/
theorem flatten_keeps_shown_witness :
    Acyclic sampleHeap (fun p => 6 - p) ∧ 0 < sampleHeap.length ∧
    ∃ out fuel, (∀ fuel2, fuel ≤ fuel2 → flatten okEnv sampleHeap fuel2 0 = some out) ∧
      ∀ q mimeinfo, Visited sampleHeap 0 q → sampleHeap[q]? = some mimeinfo →
        mimeinfo.main = none → mimeinfo.parent.isSome = true →
        ∃ r ∈ out, r.data = q :=
  ⟨by decide, by decide,
    flatten_keeps_shown okEnv sampleHeap (fun p => 6 - p) (by decide) 0 (by decide)⟩

/-- C3, as stated, fails: for the multipart message `sampleHeap` the first
row of `flatten` stands for part 1, the first child, and no row stands for
the root 0; for a message that is a single text part `flatten` returns the
empty row sequence, for every fuel for which it returns. -/
theorem flatten_first_row_counterexample :
    flatten okEnv sampleHeap 10 0 = some sampleRows ∧
    sampleRows.head?.map Row.data = some 1 ∧
    (∃ mimeinfo, sampleHeap[0]? = some mimeinfo ∧ mimeinfo.parent = none) ∧
    flatten okEnv singlePartHeap 10 0 = some [] ∧
    (∀ fuel out, flatten okEnv singlePartHeap fuel 0 = some out → out = []) ∧
    (∃ mimeinfo, singlePartHeap[0]? = some mimeinfo ∧ mimeinfo.parent = none) := by
  refine ⟨by decide, by decide, ⟨_, rfl, rfl⟩, by decide, ?_, ⟨_, rfl, rfl⟩⟩
  intro fuel out hf
  have h10 : exec okEnv singlePartHeap 10 (.tree (some 0)) none [] = some [] := by decide
  exact (run_unique _ _ _ _ _ _ _ (run_of_fuel _ _ _ _ _ _ _ h10) (run_of_flatten hf)).symm

/-- C3, amended: the tree root (the part without parent) gets no row: no
row of `flatten` stands for the root, and the first row, when there is one,
has no display parent. -/
theorem flatten_root_gets_no_row (env : Env) (h : Heap) (fuel root : Nat)
    (out : List Row) (mimeinfo : MimeInfo)
    (hf : flatten env h fuel root = some out)
    (hroot : h[root]? = some mimeinfo) (hpar : mimeinfo.parent = none) :
    (∀ r ∈ out, r.data ≠ root) ∧ (∀ r, out.head? = some r → r.parent = none) := by
  have hrun := run_of_flatten hf
  constructor
  · intro r hr hd
    rcases run_rows_shown hrun r hr with hnil | ⟨mi, hget, hsh⟩
    · simp at hnil
    · rw [hd, hroot] at hget
      have : mimeinfo = mi := Option.some.inj hget
      subst this
      simp [shown, hpar] at hsh
  · intro r hr
    apply run_first_parent hrun r
    simpa [List.head?_eq_getElem?] using hr

/-- C3, amended, on the sample message: no row stands for the root 0 and the
first row is a top-level row. -/
theorem flatten_root_gets_no_row_witness :
    flatten okEnv sampleHeap 10 0 = some sampleRows ∧
    (sampleHeap[0]?).map MimeInfo.parent = some none ∧
    (∀ r ∈ sampleRows, r.data ≠ 0) ∧
    (∀ r, sampleRows.head? = some r → r.parent = none) :=
  ⟨by decide, by decide,
    flatten_root_gets_no_row okEnv sampleHeap 10 0 sampleRows
      { blankPart .MIME_MULTIPART with
          content_type := some "multipart/mixed", children := some 1 }
      (by decide) (by decide) rfl⟩

/-! ## The rows are the pre-order listing, filtered -/

theorem preorder_tree_succ (h : Heap) (fuel p : Nat) :
    preorder_tree h (fuel + 1) (some p) =
      match h[p]? with
      | none => none
      | some mimeinfo =>
        match preorder_exec h fuel (.sub mimeinfo.sub) with
        | none => none
        | some ss =>
          match preorder_children h fuel mimeinfo.children with
          | none => none
          | some cs => some (p :: (ss ++ cs)) := by
  rw [preorder_tree]
  cases hp : h[p]? with
  | none => rfl
  | some mimeinfo =>
    cases hs : mimeinfo.sub with
    | none => simp [preorder_exec, hs]
    | some s => simp [preorder_exec, hs]

theorem set_own_row_data (env : Env) (h : Heap) (ctree : List Row) (p : Nat)
    (mimeinfo : MimeInfo) (parent : Option Nat) (hp : h[p]? = some mimeinfo) :
    (set_own_row env ctree p mimeinfo parent).1.map Row.data =
      ctree.map Row.data ++ [p].filter (shownAt h) := by
  by_cases hsh : shown mimeinfo = true
  · simp [set_own_row, hsh, mimeview_append_part, part_row, shownAt, hp]
  · simp [set_own_row, hsh, shownAt, hp]

/-- The parts the rows stand for are the pre-order listing of the visited
parts with the parts that fail the row condition left out. -/
theorem exec_data_preorder (env : Env) (h : Heap) (fuel : Nat) :
    ∀ (call : Call) (parent : Option Nat) (ctree : List Row),
      (exec env h fuel call parent ctree).map (List.map Row.data) =
        (preorder_exec h fuel call).map
          (fun ps => ctree.map Row.data ++ ps.filter (shownAt h)) := by
  induction fuel with
  | zero =>
    intro call parent ctree
    cases call with
    | tree p => simp [exec, preorder_exec, mimeview_set_multipart_tree, preorder_tree]
    | sub s =>
      cases s with
      | none => simp [exec, preorder_exec]
      | some s =>
        simp only [exec, preorder_exec]
        cases hs : h[s]? with
        | none => simp
        | some sub =>
          by_cases hc : sub.children.isSome = true
          · simp [hc, mimeview_set_multipart_tree, preorder_tree]
          · simp [hc]
    | children c => simp [exec, preorder_exec, set_children, preorder_children]
  | succ fuel ih =>
    have htree : ∀ (p : Option Nat) (parent : Option Nat) (ctree : List Row),
        (mimeview_set_multipart_tree env h (fuel + 1) p parent ctree).map
            (List.map Row.data) =
          (preorder_tree h (fuel + 1) p).map
            (fun ps => ctree.map Row.data ++ ps.filter (shownAt h)) := by
      intro p parent ctree
      cases p with
      | none => simp [mimeview_set_multipart_tree, preorder_tree]
      | some p =>
        rw [tree_succ, preorder_tree_succ]
        cases hp : h[p]? with
        | none => simp
        | some mimeinfo =>
          simp only
          have ihsub := ih (.sub mimeinfo.sub)
            (set_own_row env ctree p mimeinfo parent).2
            (set_own_row env ctree p mimeinfo parent).1
          cases hsub : exec env h fuel (.sub mimeinfo.sub)
              (set_own_row env ctree p mimeinfo parent).2
              (set_own_row env ctree p mimeinfo parent).1 with
          | none =>
            cases hps : preorder_exec h fuel (.sub mimeinfo.sub) with
            | none => simp
            | some ss => simp [hsub, hps] at ihsub
          | some mid =>
            cases hps : preorder_exec h fuel (.sub mimeinfo.sub) with
            | none => simp [hsub, hps] at ihsub
            | some ss =>
              simp only [hsub, hps, Option.map_some', Option.some.injEq] at ihsub
              have ihch := ih (.children mimeinfo.children)
                (set_own_row env ctree p mimeinfo parent).2 mid
              simp only [exec, preorder_exec] at ihch
              cases hch : set_children env h fuel mimeinfo.children
                  (set_own_row env ctree p mimeinfo parent).2 mid with
              | none =>
                cases hpc : preorder_children h fuel mimeinfo.children with
                | none => simp [hch]
                | some cs => simp [hch, hpc] at ihch
              | some out =>
                cases hpc : preorder_children h fuel mimeinfo.children with
                | none => simp [hch, hpc] at ihch
                | some cs =>
                  simp only [hch, hpc, Option.map_some', Option.some.injEq] at ihch
                  simp only [hch, Option.map_some', Option.some.injEq]
                  rw [ihch, ihsub, set_own_row_data env h ctree p mimeinfo parent hp]
                  simp only [List.filter_append, List.filter_cons, List.filter_nil,
                    List.append_assoc]
                  split <;> simp
    intro call parent ctree
    cases call with
    | tree p => exact htree p parent ctree
    | sub s =>
      cases s with
      | none => simp [exec, preorder_exec]
      | some s =>
        simp only [exec, preorder_exec]
        cases hs : h[s]? with
        | none => simp
        | some sub =>
          by_cases hc : sub.children.isSome = true
          · simp only [hc, if_true]
            exact htree (some s) parent ctree
          · simp [hc]
    | children c =>
      cases c with
      | none => simp [exec, preorder_exec, set_children, preorder_children]
      | some c =>
        simp only [exec, preorder_exec]
        rw [children_succ, preorder_children]
        have iht := ih (.tree (some c)) parent ctree
        simp only [exec, preorder_exec] at iht
        cases ht : mimeview_set_multipart_tree env h fuel (some c) parent ctree with
        | none =>
          cases hpt : preorder_tree h fuel (some c) with
          | none => simp
          | some first => simp [ht, hpt] at iht
        | some mid =>
          cases hpt : preorder_tree h fuel (some c) with
          | none => simp [ht, hpt] at iht
          | some first =>
            simp only [ht, hpt, Option.map_some', Option.some.injEq] at iht
            cases hc : h[c]? with
            | none => simp
            | some child =>
              simp only
              have ihn := ih (.children child.next) parent mid
              simp only [exec, preorder_exec] at ihn
              cases hn : set_children env h fuel child.next parent mid with
              | none =>
                cases hpn : preorder_children h fuel child.next with
                | none => simp [hn]
                | some rest => simp [hn, hpn] at ihn
              | some out =>
                cases hpn : preorder_children h fuel child.next with
                | none => simp [hn, hpn] at ihn
                | some rest =>
                  simp only [hn, hpn, Option.map_some', Option.some.injEq] at ihn
                  simp only [Option.map_some', Option.some.injEq]
                  rw [ihn, iht]
                  simp [List.filter_append]

/-- The pre-order listing of `sampleHeap`, and the parts among them that
satisfy the row condition. -/
theorem preorder_sample :
    preorder sampleHeap 10 0 = some [0, 1, 2, 3, 4, 5] ∧
    [0, 1, 2, 3, 4, 5].filter (shownAt sampleHeap) = [1, 2, 4, 5] := by
  decide

/-! ## Display parents are the nearest enclosing rows -/

theorem nearest_tree_succ (env : Env) (h : Heap) (fuel p : Nat) (path : List Encl)
    (ctree : List Row) :
    nearest_tree env h (fuel + 1) (some p) path ctree =
      match h[p]? with
      | none => none
      | some mimeinfo =>
        match nearest_exec env h fuel (.sub mimeinfo.sub)
            ({ part := p, row := if shown mimeinfo then some ctree.length else none } :: path)
            (if shown mimeinfo then ctree ++ [part_row env p mimeinfo (nearest_row path)]
              else ctree) with
        | none => none
        | some ctree2 =>
          nearest_children env h fuel mimeinfo.children
            ({ part := p, row := if shown mimeinfo then some ctree.length else none } :: path)
            ctree2 := by
  rw [nearest_tree]
  cases hp : h[p]? with
  | none => rfl
  | some mimeinfo =>
    cases hs : mimeinfo.sub with
    | none => simp [nearest_exec, hs]
    | some s => simp [nearest_exec, hs]

theorem set_own_row_nearest (env : Env) (ctree : List Row) (p : Nat)
    (mimeinfo : MimeInfo) (path : List Encl) :
    set_own_row env ctree p mimeinfo (nearest_row path) =
      (if shown mimeinfo then ctree ++ [part_row env p mimeinfo (nearest_row path)]
        else ctree,
       nearest_row
        ({ part := p, row := if shown mimeinfo then some ctree.length else none } :: path)) := by
  by_cases hsh : shown mimeinfo = true
  · simp [set_own_row, hsh, mimeview_append_part, part_row, nearest_row]
  · simp [set_own_row, hsh, nearest_row]

/-- The display parent threaded by `mimeview_set_multipart_tree` is at
every call the row of the nearest enclosing part that got one. -/
theorem exec_eq_nearest (env : Env) (h : Heap) (fuel : Nat) :
    ∀ (call : Call) (path : List Encl) (ctree : List Row),
      exec env h fuel call (nearest_row path) ctree =
        nearest_exec env h fuel call path ctree := by
  induction fuel with
  | zero =>
    intro call path ctree
    cases call with
    | tree p => simp [exec, nearest_exec, mimeview_set_multipart_tree, nearest_tree]
    | sub s =>
      cases s with
      | none => simp [exec, nearest_exec]
      | some s =>
        simp only [exec, nearest_exec]
        cases hs : h[s]? with
        | none => simp
        | some sub => simp [mimeview_set_multipart_tree, nearest_tree]
    | children c => simp [exec, nearest_exec, set_children, nearest_children]
  | succ fuel ih =>
    have htree : ∀ (p : Option Nat) (path : List Encl) (ctree : List Row),
        mimeview_set_multipart_tree env h (fuel + 1) p (nearest_row path) ctree =
          nearest_tree env h (fuel + 1) p path ctree := by
      intro p path ctree
      cases p with
      | none => simp [mimeview_set_multipart_tree, nearest_tree]
      | some p =>
        rw [tree_succ, nearest_tree_succ]
        cases hp : h[p]? with
        | none => simp
        | some mimeinfo =>
          simp only
          rw [set_own_row_nearest]
          simp only
          rw [ih (.sub mimeinfo.sub)]
          cases nearest_exec env h fuel (.sub mimeinfo.sub)
              ({ part := p, row := if shown mimeinfo then some ctree.length else none } :: path)
              (if shown mimeinfo then ctree ++ [part_row env p mimeinfo (nearest_row path)]
                else ctree) with
          | none => rfl
          | some mid => exact ih (.children mimeinfo.children) _ mid
    intro call path ctree
    cases call with
    | tree p => exact htree p path ctree
    | sub s =>
      cases s with
      | none => simp [exec, nearest_exec]
      | some s =>
        simp only [exec, nearest_exec]
        cases hs : h[s]? with
        | none => simp
        | some sub =>
          by_cases hc : sub.children.isSome = true
          · simp only [hc, if_true]
            exact htree (some s) path ctree
          · simp [hc]
    | children c =>
      cases c with
      | none => simp [exec, nearest_exec, set_children, nearest_children]
      | some c =>
        simp only [exec, nearest_exec]
        rw [children_succ, nearest_children]
        have iht := ih (.tree (some c)) path ctree
        simp only [exec, nearest_exec] at iht
        rw [iht]
        cases nearest_tree env h fuel (some c) path ctree with
        | none => rfl
        | some mid =>
          cases hc : h[c]? with
          | none => rfl
          | some child => exact ih (.children child.next) path mid

theorem set_own_row_cases (env : Env) (ctree : List Row) (p : Nat)
    (mimeinfo : MimeInfo) (parent : Option Nat) :
    set_own_row env ctree p mimeinfo parent = (ctree, parent) ∨
    set_own_row env ctree p mimeinfo parent =
      (ctree ++ [part_row env p mimeinfo parent], some ctree.length) := by
  by_cases hsh : shown mimeinfo = true
  · right
    simp [set_own_row, hsh, mimeview_append_part, part_row]
  · left
    simp [set_own_row, hsh]

/-- Every row a call appends stands for a part the call visits. -/
theorem run_covers {env : Env} {h : Heap} {call : Call} {parent : Option Nat}
    {ctree out : List Row} (hrun : Run env h call parent ctree out) :
    ∀ i r, ctree.length ≤ i → out[i]? = some r → Covers h call r.data := by
  induction hrun with
  | tree_null parent ctree =>
    intro i r hi hr
    rw [List.getElem?_eq_none hi] at hr
    cases hr
  | tree_node p mimeinfo parent ctree mid out hp hsub hch ihsub ihch =>
    intro i r hi hr
    have hlen1 := run_length_le hsub
    by_cases him : i < mid.length
    · rw [run_getElem? hch i him] at hr
      by_cases hown : i < (set_own_row env ctree p mimeinfo parent).1.length
      · rw [run_getElem? hsub i hown] at hr
        rcases set_own_row_cases env ctree p mimeinfo parent with hst | hst
        · rw [hst] at hown
          exact absurd hown (by simp only; omega)
        · rw [hst] at hr hown
          simp only [List.length_append, List.length_singleton] at hown
          have hio : i = ctree.length := by omega
          subst hio
          simp only [List.getElem?_concat_length, Option.some.injEq] at hr
          subst hr
          exact Visited.self p
      · have hcov := ihsub i r (by omega) hr
        cases hs : mimeinfo.sub with
        | none =>
          rw [hs] at hcov
          exact hcov.elim
        | some s =>
          rw [hs] at hcov
          obtain ⟨sub, hsget, hc, hvis⟩ := hcov
          exact Visited.sub p mimeinfo s sub r.data hp hs hsget hc hvis
    · obtain ⟨c, hsib, hvis⟩ := ihch i r (by omega) hr
      exact Visited.child p mimeinfo c r.data hp hsib hvis
  | sub_none parent ctree =>
    intro i r hi hr
    rw [List.getElem?_eq_none hi] at hr
    cases hr
  | sub_leaf s sub parent ctree _ _ =>
    intro i r hi hr
    rw [List.getElem?_eq_none hi] at hr
    cases hr
  | sub_visit s sub parent ctree out hs hc _ ih =>
    intro i r hi hr
    exact ⟨sub, hs, hc, ih i r hi hr⟩
  | children_null parent ctree =>
    intro i r hi hr
    rw [List.getElem?_eq_none hi] at hr
    cases hr
  | children_cons c child parent ctree mid out htree hc hnext iht ihn =>
    intro i r hi hr
    by_cases him : i < mid.length
    · rw [run_getElem? hnext i him] at hr
      exact ⟨c, Sibling.head c, iht i r hi hr⟩
    · obtain ⟨c2, hsib, hvis⟩ := ihn i r (by omega) hr
      exact ⟨c2, Sibling.next c child c2 hc hsib, hvis⟩

/-- A row appended by a call hangs under the `parent` the call was given,
or under an earlier row of the same call whose part contains the part of
the row on the traversal. -/
theorem run_parent_container {env : Env} {h : Heap} {call : Call} {parent : Option Nat}
    {ctree out : List Row} (hrun : Run env h call parent ctree out) :
    ∀ i r, ctree.length ≤ i → out[i]? = some r → ∀ d, r.parent = some d →
      parent = some d ∨
      (ctree.length ≤ d ∧ d < i ∧ ∃ r2, out[d]? = some r2 ∧ Visited h r2.data r.data) := by
  induction hrun with
  | tree_null parent ctree =>
    intro i r hi hr
    rw [List.getElem?_eq_none hi] at hr
    cases hr
  | tree_node p mimeinfo parent ctree mid out hp hsub hch ihsub ihch =>
    intro i r hi hr d hd
    have hlen1 := run_length_le hsub
    have hlen2 := run_length_le hch
    -- the row of `p` itself, when it has one, is row `ctree.length` of the result
    have hownrow : set_own_row env ctree p mimeinfo parent =
        (ctree ++ [part_row env p mimeinfo parent], some ctree.length) →
        ∃ r2, out[ctree.length]? = some r2 ∧ r2.data = p := by
      intro hst
      rw [hst] at hsub
      refine ⟨part_row env p mimeinfo parent, ?_, rfl⟩
      have hl : ctree.length < (ctree ++ [part_row env p mimeinfo parent]).length := by simp
      rw [run_getElem? hch ctree.length (lt_of_lt_of_le hl (run_length_le hsub)),
        run_getElem? hsub ctree.length hl]
      simp
    by_cases him : i < mid.length
    · have hr2 := hr
      rw [run_getElem? hch i him] at hr2
      rcases set_own_row_cases env ctree p mimeinfo parent with hst | hst
      · rw [hst] at hsub ihsub
        rcases ihsub i r hi hr2 d hd with hl | ⟨h1, h2, r2, hr2d, hvis⟩
        · exact Or.inl hl
        · refine Or.inr ⟨h1, h2, r2, ?_, hvis⟩
          rw [run_getElem? hch d (by omega)]
          exact hr2d
      · have hcov := run_covers hsub
        obtain ⟨rown, hrown, hdata⟩ := hownrow hst
        rw [hst] at hsub ihsub hlen1 hcov
        simp only [List.length_append, List.length_singleton] at ihsub hlen1 hcov
        by_cases hio : i = ctree.length
        · subst hio
          rw [run_getElem? hsub ctree.length (by simp)] at hr2
          simp only [List.getElem?_concat_length, Option.some.injEq] at hr2
          subst hr2
          left
          simpa [part_row] using hd
        · rcases ihsub i r (by omega) hr2 d hd with hl | ⟨h1, h2, r2, hr2d, hvis⟩
          · right
            simp only [Option.some.injEq] at hl
            subst hl
            refine ⟨le_refl _, by omega, rown, hrown, ?_⟩
            rw [hdata]
            have hc := hcov i r (by omega) hr2
            cases hs : mimeinfo.sub with
            | none =>
              rw [hs] at hc
              exact hc.elim
            | some s =>
              rw [hs] at hc
              obtain ⟨sub, hsget, hcc, hvis⟩ := hc
              exact Visited.sub p mimeinfo s sub r.data hp hs hsget hcc hvis
          · refine Or.inr ⟨by omega, h2, r2, ?_, hvis⟩
            rw [run_getElem? hch d (by omega)]
            exact hr2d
    · have hcov := run_covers hch
      rcases set_own_row_cases env ctree p mimeinfo parent with hst | hst
      · rw [hst] at hsub hch ihch hlen1
        simp only at hlen1
        rcases ihch i r (by omega) hr d hd with hl | ⟨h1, h2, r2, hr2d, hvis⟩
        · exact Or.inl hl
        · exact Or.inr ⟨by omega, h2, r2, hr2d, hvis⟩
      · obtain ⟨rown, hrown, hdata⟩ := hownrow hst
        rw [hst] at hsub hch ihch hlen1
        simp only [List.length_append, List.length_singleton] at hlen1
        rcases ihch i r (by omega) hr d hd with hl | ⟨h1, h2, r2, hr2d, hvis⟩
        · right
          simp only [Option.some.injEq] at hl
          subst hl
          refine ⟨le_refl _, by omega, rown, hrown, ?_⟩
          rw [hdata]
          obtain ⟨c, hsib, hvis⟩ := hcov i r (by omega) hr
          exact Visited.child p mimeinfo c r.data hp hsib hvis
        · exact Or.inr ⟨by omega, h2, r2, hr2d, hvis⟩
  | sub_none parent ctree =>
    intro i r hi hr
    rw [List.getElem?_eq_none hi] at hr
    cases hr
  | sub_leaf s sub parent ctree _ _ =>
    intro i r hi hr
    rw [List.getElem?_eq_none hi] at hr
    cases hr
  | sub_visit s sub parent ctree out _ _ _ ih => exact ih
  | children_null parent ctree =>
    intro i r hi hr
    rw [List.getElem?_eq_none hi] at hr
    cases hr
  | children_cons c child parent ctree mid out htree _ hnext iht ihn =>
    intro i r hi hr d hd
    have hlen1 := run_length_le htree
    by_cases him : i < mid.length
    · have hr2 := hr
      rw [run_getElem? hnext i him] at hr2
      rcases iht i r hi hr2 d hd with hl | ⟨h1, h2, r2, hr2d, hvis⟩
      · exact Or.inl hl
      · refine Or.inr ⟨h1, h2, r2, ?_, hvis⟩
        rw [run_getElem? hnext d (by omega)]
        exact hr2d
    · rcases ihn i r (by omega) hr d hd with hl | ⟨h1, h2, r2, hr2d, hvis⟩
      · exact Or.inl hl
      · exact Or.inr ⟨by omega, h2, r2, hr2d, hvis⟩

/-! ## Claims on the order of rows and on display parents -/

theorem pairs_tree_succ (h : Heap) (fuel p : Nat) (path : List Encl)
    (acc : List (Nat × Option Nat)) :
    pairs_tree h (fuel + 1) (some p) path acc =
      match h[p]? with
      | none => none
      | some mimeinfo =>
        match pairs_exec h fuel (.sub mimeinfo.sub)
            ({ part := p, row := if shown mimeinfo then some acc.length else none } :: path)
            (if shown mimeinfo then acc ++ [(p, nearest_row path)] else acc) with
        | none => none
        | some acc2 =>
          pairs_children h fuel mimeinfo.children
            ({ part := p, row := if shown mimeinfo then some acc.length else none } :: path)
            acc2 := by
  rw [pairs_tree]
  cases hp : h[p]? with
  | none => rfl
  | some mimeinfo =>
    cases hs : mimeinfo.sub with
    | none => simp [pairs_exec, hs]
    | some s => simp [pairs_exec, hs]

theorem own_row_pair (env : Env) (ctree : List Row) (p : Nat) (mimeinfo : MimeInfo)
    (parent : Option Nat) :
    (if shown mimeinfo then ctree ++ [part_row env p mimeinfo parent] else ctree).map
        Row.pair =
      if shown mimeinfo then ctree.map Row.pair ++ [(p, parent)] else ctree.map Row.pair := by
  by_cases hsh : shown mimeinfo = true
  · simp [hsh, Row.pair, part_row]
  · simp [hsh]

/-- The rows of the path-carrying traversal, read as pairs `(p, dp)`, are
the pairs of the traversal that builds pairs alone. -/
theorem nearest_exec_pairs (env : Env) (h : Heap) (fuel : Nat) :
    ∀ (call : Call) (path : List Encl) (ctree : List Row),
      (nearest_exec env h fuel call path ctree).map (List.map Row.pair) =
        pairs_exec h fuel call path (ctree.map Row.pair) := by
  induction fuel with
  | zero =>
    intro call path ctree
    cases call with
    | tree p => simp [nearest_exec, pairs_exec, nearest_tree, pairs_tree]
    | sub s =>
      cases s with
      | none => simp [nearest_exec, pairs_exec]
      | some s =>
        simp only [nearest_exec, pairs_exec]
        cases hs : h[s]? with
        | none => simp
        | some sub =>
          by_cases hc : sub.children.isSome = true
          · simp [hc, nearest_tree, pairs_tree]
          · simp [hc]
    | children c => simp [nearest_exec, pairs_exec, nearest_children, pairs_children]
  | succ fuel ih =>
    have htree : ∀ (p : Option Nat) (path : List Encl) (ctree : List Row),
        (nearest_tree env h (fuel + 1) p path ctree).map (List.map Row.pair) =
          pairs_tree h (fuel + 1) p path (ctree.map Row.pair) := by
      intro p path ctree
      cases p with
      | none => simp [nearest_tree, pairs_tree]
      | some p =>
        rw [nearest_tree_succ, pairs_tree_succ]
        cases hp : h[p]? with
        | none => simp
        | some mimeinfo =>
          simp only
          have ihsub := ih (.sub mimeinfo.sub)
            ({ part := p, row := if shown mimeinfo then some ctree.length else none } :: path)
            (if shown mimeinfo then ctree ++ [part_row env p mimeinfo (nearest_row path)]
              else ctree)
          rw [own_row_pair] at ihsub
          rw [List.length_map, ← ihsub]
          cases nearest_exec env h fuel (.sub mimeinfo.sub)
              ({ part := p, row := if shown mimeinfo then some ctree.length else none } :: path)
              (if shown mimeinfo then ctree ++ [part_row env p mimeinfo (nearest_row path)]
                else ctree) with
          | none => rfl
          | some mid => exact ih (.children mimeinfo.children) _ mid
    intro call path ctree
    cases call with
    | tree p => exact htree p path ctree
    | sub s =>
      cases s with
      | none => simp [nearest_exec, pairs_exec]
      | some s =>
        simp only [nearest_exec, pairs_exec]
        cases hs : h[s]? with
        | none => simp
        | some sub =>
          by_cases hc : sub.children.isSome = true
          · simp only [hc, if_true]
            exact htree (some s) path ctree
          · simp [hc]
    | children c =>
      cases c with
      | none => simp [nearest_exec, pairs_exec, nearest_children, pairs_children]
      | some c =>
        simp only [nearest_exec, pairs_exec]
        rw [nearest_children, pairs_children]
        have iht := ih (.tree (some c)) path ctree
        simp only [nearest_exec, pairs_exec] at iht
        rw [← iht]
        cases nearest_tree env h fuel (some c) path ctree with
        | none => rfl
        | some mid =>
          cases hc : h[c]? with
          | none => rfl
          | some child => exact ih (.children child.next) path mid

/-- C4: every display parent is the row of the nearest enclosing part that
got a row. `flatten` equals the traversal that carries the path of
enclosing parts and hangs each row under `nearest_row` of that path, which
is absent exactly when no enclosing part got a row, is the row of the
innermost part when that part got one, and is otherwise what it is for the
enclosing parts further out. In the code, a part without row passes its
display parent on unchanged, and a part with a row hangs that row under
its display parent and passes the new row on. A display parent is always
an earlier row of the result, and its part contains the part of the row on
the traversal. Read as pairs `(p, dp)` of part and parent field, the rows
of `flatten` are the pairs of `nearest_pairs`, in which `dp` is the row of
the nearest enclosing part on the path that got a row. -/
theorem flatten_parent_nearest (env : Env) (h : Heap) (fuel root : Nat) :
    flatten env h fuel root = flatten_nearest env h fuel root ∧
    (∀ path : List Encl, nearest_row path = none ↔ ∀ e ∈ path, e.row = none) ∧
    (∀ (p node : Nat) (path : List Encl),
      nearest_row ({ part := p, row := some node } :: path) = some node) ∧
    (∀ (p : Nat) (path : List Encl),
      nearest_row ({ part := p, row := none } :: path) = nearest_row path) ∧
    (∀ (ctree : List Row) (p : Nat) (mimeinfo : MimeInfo) (parent : Option Nat),
      shown mimeinfo = false →
      set_own_row env ctree p mimeinfo parent = (ctree, parent)) ∧
    (∀ (ctree : List Row) (p : Nat) (mimeinfo : MimeInfo) (parent : Option Nat),
      shown mimeinfo = true →
      set_own_row env ctree p mimeinfo parent =
        (ctree ++ [part_row env p mimeinfo parent], some ctree.length)) ∧
    (∀ out, flatten env h fuel root = some out →
      ∀ (i : Nat) (r : Row) (d : Nat), out[i]? = some r → r.parent = some d →
        d < i ∧ ∃ r2, out[d]? = some r2 ∧ Visited h r2.data r.data) ∧
    (flatten env h fuel root).map (List.map Row.pair) = nearest_pairs h fuel root := by
  refine ⟨?_, ?_, ?_, ?_, ?_, ?_, ?_, ?_⟩
  · exact exec_eq_nearest env h fuel (.tree (some root)) [] []
  · intro path
    induction path with
    | nil => simp [nearest_row]
    | cons e rest ih =>
      cases he : e.row with
      | none => simp [nearest_row, he, ih]
      | some node => simp [nearest_row, he]
  · intro p node path
    simp [nearest_row]
  · intro p path
    simp [nearest_row]
  · intro ctree p mimeinfo parent hsh
    simp [set_own_row, hsh]
  · intro ctree p mimeinfo parent hsh
    simp [set_own_row, hsh, mimeview_append_part]
  · intro out hf i r d hr hd
    rcases run_parent_container (run_of_flatten hf) i r (Nat.zero_le _) hr d hd with
      hn | ⟨_, hlt, hex⟩
    · cases hn
    · exact ⟨hlt, hex⟩
  · have hnear := exec_eq_nearest env h fuel (.tree (some root)) [] []
    have hpairs := nearest_exec_pairs env h fuel (.tree (some root)) [] []
    simp only [exec, nearest_exec, nearest_row] at hnear
    simp only [nearest_exec, pairs_exec, List.map_nil] at hpairs
    unfold flatten nearest_pairs
    rw [hnear, hpairs]

/-- C4 on the sample message: the rows of the parts 1, 2 and 5, whose only
enclosing part is the root without row, have no display parent; the row of
part 4 hangs under row 1, the row of part 2, the part 3 in between having
no row. -/
theorem flatten_parent_nearest_witness :
    nearest_pairs sampleHeap 10 0 = some [(1, none), (2, none), (4, some 1), (5, none)] ∧
    (flatten okEnv sampleHeap 10 0).map (List.map Row.pair) =
      some [(1, none), (2, none), (4, some 1), (5, none)] :=
  ⟨by decide,
    (flatten_parent_nearest okEnv sampleHeap 10 0).2.2.2.2.2.2.2.trans (by decide)⟩

/-- C5: the parts the rows of `flatten` stand for are, in this order, the
parts of the depth-first pre-order listing that satisfy the row condition:
nothing is re-sorted. In the listing a part comes before the parts of its
`sub` subtree, these come before the parts of its children's subtrees, and
the subtree of a child comes before those of its later siblings. -/
theorem flatten_preorder (env : Env) (h : Heap) (fuel root : Nat) :
    (flatten env h fuel root).map (List.map Row.data) =
      (preorder h fuel root).map (List.filter (shownAt h)) ∧
    (∀ (p : Nat) (mimeinfo : MimeInfo) (ss cs : List Nat),
      h[p]? = some mimeinfo →
      preorder_exec h fuel (.sub mimeinfo.sub) = some ss →
      preorder_children h fuel mimeinfo.children = some cs →
      preorder_tree h (fuel + 1) (some p) = some (p :: (ss ++ cs))) ∧
    (∀ (c : Nat) (child : MimeInfo) (first rest : List Nat),
      h[c]? = some child →
      preorder_tree h fuel (some c) = some first →
      preorder_children h fuel child.next = some rest →
      preorder_children h (fuel + 1) (some c) = some (first ++ rest)) := by
  refine ⟨?_, ?_, ?_⟩
  · have := exec_data_preorder env h fuel (.tree (some root)) none []
    simpa [exec, preorder_exec, flatten, preorder] using this
  · intro p mimeinfo ss cs hp hss hcs
    rw [preorder_tree_succ]
    simp [hp, hss, hcs]
  · intro c child first rest hc hfirst hrest
    rw [preorder_children]
    simp [hc, hfirst, hrest]

/-! ## Frame lemmas of the view operations -/

@[simp] theorem emit_view (s : State) (e : Event) : (s.emit e).view = s.view := rfl

@[simp] theorem emit_heap (s : State) (e : Event) : (s.emit e).heap = s.heap := rfl

@[simp] theorem emit_trace (s : State) (e : Event) : (s.emit e).trace = s.trace ++ [e] := rfl

/-- A mode switch touches only the mode, the packed widgets and the
trace. -/
theorem change_view_type_frame (s : State) (type : MimeViewType) :
    (mimeview_change_view_type s type).heap = s.heap ∧
    (mimeview_change_view_type s type).view.opened = s.view.opened ∧
    (mimeview_change_view_type s type).view.file = s.view.file ∧
    (mimeview_change_view_type s type).view.ctree = s.view.ctree ∧
    (mimeview_change_view_type s type).view.mimeinfo = s.view.mimeinfo := by
  unfold mimeview_change_view_type
  by_cases heq : s.view.type = type
  · simp [heq]
  · cases type <;> simp [heq, gtk_container_add, gtk_container_remove]

/-- After a mode switch the mode is the target when the target is Text or
Image. -/
theorem change_view_type_type (s : State) (type : MimeViewType)
    (ht : type = .MIMEVIEW_TEXT ∨ type = .MIMEVIEW_IMAGE) :
    (mimeview_change_view_type s type).view.type = type := by
  unfold mimeview_change_view_type
  by_cases heq : s.view.type = type
  · simp [heq]
  · rcases ht with rfl | rfl <;> simp [heq]

theorem ungrab_frame (env : Env) (s : State) :
    (ungrab env s).heap = s.heap ∧ (ungrab env s).view = s.view := by
  unfold ungrab
  by_cases h1 : env.widget_has_grab = true
  · by_cases h2 : env.pointer_is_grabbed = true <;> simp [h1, h2]
  · simp [h1]

theorem show_message_part_frame (env : Env) (fuel : Nat) (s s1 : State)
    (partinfo : Option Nat)
    (hrun : mimeview_show_message_part env fuel s partinfo = some s1) :
    s1.heap = s.heap ∧ s1.view.opened = s.view.opened ∧ s1.view.file = s.view.file ∧
      s1.view.ctree = s.view.ctree := by
  unfold mimeview_show_message_part at hrun
  cases partinfo with
  | none =>
    simp only [Option.some.injEq] at hrun
    subst hrun
    simp
  | some p =>
    simp only at hrun
    cases hd : display_file env s fuel p with
    | none => simp [hd] at hrun
    | some fname =>
      cases fname with
      | none =>
        simp only [hd, Option.some.injEq] at hrun
        subst hrun
        simp
      | some fname =>
        simp only [hd] at hrun
        cases hopen : env.fopen fname with
        | false =>
          simp only [hopen, Option.some.injEq] at hrun
          subst hrun
          simp
        | true =>
          simp only [hopen] at hrun
          cases hp : s.heap[p]? with
          | none => simp [hp] at hrun
          | some mimeinfo =>
            simp only [hp] at hrun
            cases hseek : env.fseek fname mimeinfo.fpos with
            | false =>
              simp only [hseek, Option.some.injEq] at hrun
              subst hrun
              simp
            | true =>
              simp only [hseek, Option.some.injEq] at hrun
              subst hrun
              have := change_view_type_frame (s.emit (.fopen fname)) .MIMEVIEW_TEXT
              simp only [emit_view, emit_heap] at this ⊢
              exact ⟨this.1, this.2.1, this.2.2.1, this.2.2.2.1⟩

theorem show_image_part_frame (env : Env) (s : State) (partinfo : Option Nat) :
    (mimeview_show_image_part env s partinfo).heap = s.heap ∧
    (mimeview_show_image_part env s partinfo).view.opened = s.view.opened ∧
    (mimeview_show_image_part env s partinfo).view.file = s.view.file ∧
    (mimeview_show_image_part env s partinfo).view.ctree = s.view.ctree := by
  unfold mimeview_show_image_part
  cases partinfo with
  | none => simp
  | some p =>
    simp only
    split
    · simp
    · have := change_view_type_frame
        (s.emit (.procmime_get_part (env.procmime_get_tmp_file_name p) s.view.file p))
        .MIMEVIEW_IMAGE
      simp only [emit_view, emit_heap] at this ⊢
      exact ⟨this.1, this.2.1, this.2.2.1, this.2.2.2.1⟩

theorem show_other_part_frame (env : Env) (s : State) (p : Nat) (partinfo : MimeInfo) :
    (show_other_part env s p partinfo).heap = s.heap ∧
    (show_other_part env s p partinfo).view.opened = s.view.opened ∧
    (show_other_part env s p partinfo).view.file = s.view.file ∧
    (show_other_part env s p partinfo).view.ctree = s.view.ctree := by
  unfold show_other_part
  have := change_view_type_frame s .MIMEVIEW_TEXT
  split <;> simp only [emit_view, emit_heap] <;>
    exact ⟨this.1, this.2.1, this.2.2.1, this.2.2.2.1⟩

/-- The switch of `mimeview_selected`, once the selection is recorded and
the row data is a part of the arena. -/
theorem selected_dispatch (env : Env) (fuel : Nat) (node : Option Nat) (s : State)
    (p : Nat) (partinfo : MimeInfo) (hopen : s.view.opened ≠ node)
    (hdata : gtk_ctree_node_get_row_data s.view.ctree node = some p)
    (hp : s.heap[p]? = some partinfo) :
    mimeview_selected env fuel node s =
      if text_class partinfo.mime_type = true then
        mimeview_show_message_part env fuel (ungrab env (set_opened s node)) (some p)
      else if partinfo.mime_type = .MIME_IMAGE ∧ env.have_image = true then
        some (mimeview_show_image_part env (ungrab env (set_opened s node)) (some p))
      else
        some (show_other_part env (ungrab env (set_opened s node)) p partinfo) := by
  have hview : (set_opened s node).view.ctree = s.view.ctree := rfl
  have hheap : (ungrab env (set_opened s node)).heap = s.heap :=
    (ungrab_frame env (set_opened s node)).1
  unfold mimeview_selected
  simp only [hopen, if_false, hview, hdata, hheap, hp]
  cases ht : partinfo.mime_type <;> simp [text_class]

theorem set_opened_opened {env : Env} (s : State) (node : Option Nat) :
    (ungrab env (set_opened s node)).view.opened = node := by
  rw [(ungrab_frame env (set_opened s node)).2]
  rfl

/-- Whatever the handler does, it leaves the node it was called for as the
open one. -/
theorem selected_opened (env : Env) (fuel : Nat) (node : Option Nat) (s s1 : State)
    (hrun : mimeview_selected env fuel node s = some s1) : s1.view.opened = node := by
  by_cases hopen : s.view.opened = node
  · unfold mimeview_selected at hrun
    simp only [hopen, if_true, Option.some.injEq] at hrun
    subst hrun
    exact hopen
  · cases hdata : gtk_ctree_node_get_row_data s.view.ctree node with
    | none =>
      have hview : (set_opened s node).view.ctree = s.view.ctree := rfl
      unfold mimeview_selected at hrun
      simp only [hopen, if_false, hview, hdata, Option.some.injEq] at hrun
      subst hrun
      rfl
    | some p =>
      cases hp : s.heap[p]? with
      | none =>
        have hview : (set_opened s node).view.ctree = s.view.ctree := rfl
        have hheap : (ungrab env (set_opened s node)).heap = s.heap :=
          (ungrab_frame env (set_opened s node)).1
        unfold mimeview_selected at hrun
        simp [hopen, hview, hdata, hheap, hp] at hrun
      | some partinfo =>
        rw [selected_dispatch env fuel node s p partinfo hopen hdata hp] at hrun
        split at hrun
        · rw [(show_message_part_frame env fuel _ s1 _ hrun).2.1]
          exact set_opened_opened s node
        · split at hrun
          · simp only [Option.some.injEq] at hrun
            subst hrun
            rw [(show_image_part_frame env _ (some p)).2.1]
            exact set_opened_opened s node
          · simp only [Option.some.injEq] at hrun
            subst hrun
            rw [(show_other_part_frame env _ p partinfo).2.1]
            exact set_opened_opened s node

theorem change_view_type_grows (s : State) (type : MimeViewType) :
    ∃ evs, (mimeview_change_view_type s type).trace = s.trace ++ evs ∧
      ∀ e ∈ evs, e.fromSelection = true := by
  unfold mimeview_change_view_type
  by_cases heq : s.view.type = type
  · exact ⟨[], by simp [heq], by simp⟩
  · cases type with
    | MIMEVIEW_NONE => exact ⟨[], by simp [heq], by simp⟩
    | MIMEVIEW_IMAGE =>
      exact ⟨[.gtk_container_remove .textview, .gtk_container_add .imageview], by
        simp [heq, gtk_container_add, gtk_container_remove], by
        simp [Event.fromSelection]⟩
    | MIMEVIEW_TEXT =>
      exact ⟨[.gtk_container_remove .imageview, .gtk_container_add .textview], by
        simp [heq, gtk_container_add, gtk_container_remove], by
        simp [Event.fromSelection]⟩

theorem ungrab_grows (env : Env) (s : State) :
    ∃ evs, (ungrab env s).trace = s.trace ++ evs ∧ ∀ e ∈ evs, e.fromSelection = true := by
  unfold ungrab
  by_cases h1 : env.widget_has_grab = true
  · by_cases h2 : env.pointer_is_grabbed = true
    · exact ⟨[.gtk_grab_remove, .gdk_pointer_ungrab], by simp [h1, h2], by
        simp [Event.fromSelection]⟩
    · exact ⟨[.gtk_grab_remove], by simp [h1, h2], by simp [Event.fromSelection]⟩
  · exact ⟨[], by simp [h1], by simp⟩

theorem show_message_part_grows (env : Env) (fuel : Nat) (s s1 : State)
    (partinfo : Option Nat)
    (hrun : mimeview_show_message_part env fuel s partinfo = some s1) :
    ∃ evs, s1.trace = s.trace ++ evs ∧ ∀ e ∈ evs, e.fromSelection = true := by
  unfold mimeview_show_message_part at hrun
  cases partinfo with
  | none =>
    simp only [Option.some.injEq] at hrun
    subst hrun
    exact ⟨[], by simp, by simp⟩
  | some p =>
    simp only at hrun
    cases hd : display_file env s fuel p with
    | none => simp [hd] at hrun
    | some fname =>
      cases fname with
      | none =>
        simp only [hd, Option.some.injEq] at hrun
        subst hrun
        exact ⟨[], by simp, by simp⟩
      | some fname =>
        simp only [hd] at hrun
        cases hopen : env.fopen fname with
        | false =>
          simp only [hopen, Option.some.injEq] at hrun
          subst hrun
          exact ⟨[.fopen fname, .file_op_error (some fname) "fopen"], by simp, by
            simp [Event.fromSelection]⟩
        | true =>
          simp only [hopen] at hrun
          cases hp : s.heap[p]? with
          | none => simp [hp] at hrun
          | some mimeinfo =>
            simp only [hp] at hrun
            cases hseek : env.fseek fname mimeinfo.fpos with
            | false =>
              simp only [hseek, Option.some.injEq] at hrun
              subst hrun
              exact ⟨[.fopen fname, .file_op_error s.view.file "fseek", .fclose fname], by
                simp, by simp [Event.fromSelection]⟩
            | true =>
              simp only [hseek, Option.some.injEq] at hrun
              subst hrun
              obtain ⟨evs, hevs, hcls⟩ :=
                change_view_type_grows (s.emit (.fopen fname)) .MIMEVIEW_TEXT
              refine ⟨.fopen fname :: evs ++
                [.textview_show_part p fname mimeinfo.fpos, .fclose fname], by
                simp [hevs], ?_⟩
              intro e he
              simp only [List.cons_append, List.mem_cons, List.mem_append,
                List.mem_singleton] at he
              rcases he with rfl | he | rfl | rfl | he
              · rfl
              · exact hcls e he
              · rfl
              · rfl
              · cases he

theorem show_image_part_grows (env : Env) (s : State) (partinfo : Option Nat) :
    ∃ evs, (mimeview_show_image_part env s partinfo).trace = s.trace ++ evs ∧
      ∀ e ∈ evs, e.fromSelection = true := by
  unfold mimeview_show_image_part
  cases partinfo with
  | none => exact ⟨[], by simp, by simp⟩
  | some p =>
    simp only
    split
    · exact ⟨[.procmime_get_part (env.procmime_get_tmp_file_name p) s.view.file p,
        .alertpanel_error "Can't get the part of multipart message."], by simp, by
        simp [Event.fromSelection]⟩
    · obtain ⟨evs, hevs, hcls⟩ := change_view_type_grows
        (s.emit (.procmime_get_part (env.procmime_get_tmp_file_name p) s.view.file p))
        .MIMEVIEW_IMAGE
      refine ⟨.procmime_get_part (env.procmime_get_tmp_file_name p) s.view.file p :: evs ++
        [.imageview_show_image p (env.procmime_get_tmp_file_name p),
         .unlink (env.procmime_get_tmp_file_name p)], by simp [hevs], ?_⟩
      intro e he
      simp only [List.cons_append, List.mem_cons, List.mem_append,
        List.mem_singleton] at he
      rcases he with rfl | he | rfl | rfl | he
      · rfl
      · exact hcls e he
      · rfl
      · rfl
      · cases he

theorem show_other_part_grows (env : Env) (s : State) (p : Nat) (partinfo : MimeInfo) :
    ∃ evs, (show_other_part env s p partinfo).trace = s.trace ++ evs ∧
      ∀ e ∈ evs, e.fromSelection = true := by
  unfold show_other_part
  obtain ⟨evs, hevs, hcls⟩ := change_view_type_grows s .MIMEVIEW_TEXT
  split
  · refine ⟨evs ++ [.textview_show_signature_part p], by simp [hevs], ?_⟩
    intro e he
    simp only [List.mem_append, List.mem_singleton] at he
    rcases he with he | rfl
    · exact hcls e he
    · rfl
  · refine ⟨evs ++ [.textview_show_mime_part p], by simp [hevs], ?_⟩
    intro e he
    simp only [List.mem_append, List.mem_singleton] at he
    rcases he with he | rfl
    · exact hcls e he
    · rfl

/-- A call of the handler for a node that is not the open one records the
scroll to the node and then only adds calls of the selection to the
trace. -/
theorem selected_grows (env : Env) (fuel : Nat) (node : Option Nat) (s s1 : State)
    (hopen : s.view.opened ≠ node)
    (hrun : mimeview_selected env fuel node s = some s1) :
    ∃ evs, s1.trace = s.trace ++ .gtk_ctree_node_moveto node :: evs ∧
      ∀ e ∈ evs, e.fromSelection = true := by
  have hbase : ∃ evs, (ungrab env (set_opened s node)).trace =
      s.trace ++ .gtk_ctree_node_moveto node :: evs ∧
      ∀ e ∈ evs, e.fromSelection = true := by
    obtain ⟨evs, hevs, hcls⟩ := ungrab_grows env (set_opened s node)
    exact ⟨evs, by rw [hevs]; simp [set_opened], hcls⟩
  obtain ⟨evs0, hevs0, hcls0⟩ := hbase
  have hview : (set_opened s node).view.ctree = s.view.ctree := rfl
  have hjoin : ∀ evs, (∀ e ∈ evs, e.fromSelection = true) →
      ∀ e ∈ evs0 ++ evs, e.fromSelection = true := by
    intro evs hcls e he
    rcases List.mem_append.1 he with he | he
    · exact hcls0 e he
    · exact hcls e he
  cases hdata : gtk_ctree_node_get_row_data s.view.ctree node with
  | none =>
    unfold mimeview_selected at hrun
    simp only [hopen, if_false, hview, hdata, Option.some.injEq] at hrun
    subst hrun
    exact ⟨[], by simp [set_opened], by simp⟩
  | some p =>
    cases hp : s.heap[p]? with
    | none =>
      have hheap : (ungrab env (set_opened s node)).heap = s.heap :=
        (ungrab_frame env (set_opened s node)).1
      unfold mimeview_selected at hrun
      simp [hopen, hview, hdata, hheap, hp] at hrun
    | some partinfo =>
      rw [selected_dispatch env fuel node s p partinfo hopen hdata hp] at hrun
      split at hrun
      · obtain ⟨evs, hevs, hcls⟩ := show_message_part_grows env fuel _ s1 _ hrun
        exact ⟨evs0 ++ evs, by rw [hevs, hevs0]; simp, hjoin evs hcls⟩
      · split at hrun
        · simp only [Option.some.injEq] at hrun
          subst hrun
          obtain ⟨evs, hevs, hcls⟩ := show_image_part_grows env
            (ungrab env (set_opened s node)) (some p)
          exact ⟨evs0 ++ evs, by rw [hevs, hevs0]; simp, hjoin evs hcls⟩
        · simp only [Option.some.injEq] at hrun
          subst hrun
          obtain ⟨evs, hevs, hcls⟩ := show_other_part_grows env
            (ungrab env (set_opened s node)) p partinfo
          exact ⟨evs0 ++ evs, by rw [hevs, hevs0]; simp, hjoin evs hcls⟩

/-- The handler leaves the arena of parts, the bound file and the rows as
they were. -/
theorem selected_frame (env : Env) (fuel : Nat) (node : Option Nat) (s s1 : State)
    (hrun : mimeview_selected env fuel node s = some s1) :
    s1.heap = s.heap ∧ s1.view.file = s.view.file ∧ s1.view.ctree = s.view.ctree := by
  by_cases hopen : s.view.opened = node
  · unfold mimeview_selected at hrun
    simp only [hopen, if_true, Option.some.injEq] at hrun
    subst hrun
    exact ⟨rfl, rfl, rfl⟩
  · have hu := ungrab_frame env (set_opened s node)
    have hbase : (ungrab env (set_opened s node)).heap = s.heap ∧
        (ungrab env (set_opened s node)).view.file = s.view.file ∧
        (ungrab env (set_opened s node)).view.ctree = s.view.ctree := by
      rw [hu.1, hu.2]
      exact ⟨rfl, rfl, rfl⟩
    have hview : (set_opened s node).view.ctree = s.view.ctree := rfl
    cases hdata : gtk_ctree_node_get_row_data s.view.ctree node with
    | none =>
      unfold mimeview_selected at hrun
      simp only [hopen, if_false, hview, hdata, Option.some.injEq] at hrun
      subst hrun
      exact ⟨rfl, rfl, rfl⟩
    | some p =>
      cases hp : s.heap[p]? with
      | none =>
        have hheap := hbase.1
        unfold mimeview_selected at hrun
        simp [hopen, hview, hdata, hheap, hp] at hrun
      | some partinfo =>
        rw [selected_dispatch env fuel node s p partinfo hopen hdata hp] at hrun
        split at hrun
        · have hf := show_message_part_frame env fuel _ s1 _ hrun
          exact ⟨hf.1.trans hbase.1, hf.2.2.1.trans hbase.2.1, hf.2.2.2.trans hbase.2.2⟩
        · split at hrun
          · simp only [Option.some.injEq] at hrun
            subst hrun
            have hf := show_image_part_frame env (ungrab env (set_opened s node)) (some p)
            exact ⟨hf.1.trans hbase.1, hf.2.2.1.trans hbase.2.1, hf.2.2.2.trans hbase.2.2⟩
          · simp only [Option.some.injEq] at hrun
            subst hrun
            have hf := show_other_part_frame env (ungrab env (set_opened s node)) p partinfo
            exact ⟨hf.1.trans hbase.1, hf.2.2.1.trans hbase.2.1, hf.2.2.2.trans hbase.2.2⟩

/-! ## Claims on the selection controller and the view mode machine -/

/-- C6: `select(p)` called twice in a row dispatches once. After the first
call row `p` is the open one; when it was not before, the first call is the
one that acts (its calls, starting with the scroll to the node, are added
to the trace). The second call, made on the state the first one left,
returns that state unchanged whatever the environment: no field of the
view changes and no call (renderer, extractor, mode switch) is added to the
trace. -/
theorem select_twice (env env2 : Env) (fuel fuel2 : Nat) (n : Nat) (s s1 : State)
    (hrun : select env fuel n s = some s1) :
    s1.view.opened = some n ∧
    (s.view.opened ≠ some n →
      ∃ evs, s1.trace = s.trace ++ .gtk_ctree_node_moveto (some n) :: evs) ∧
    select env2 fuel2 n s1 = some s1 := by
  have hopen := selected_opened env fuel (some n) s s1 hrun
  refine ⟨hopen, fun hne => ?_, ?_⟩
  · obtain ⟨evs, hevs, _⟩ := selected_grows env fuel (some n) s s1 hne hrun
    exact ⟨evs, hevs⟩
  unfold select mimeview_selected
  simp [hopen]

/-- C6 on the sample view: selecting row 0 shows the text part; selecting it
again, even with an unreadable source file and no fuel, changes nothing. -/
theorem select_twice_witness :
    select okEnv 10 0 sampleState = some textOpenState ∧
    textOpenState.view.opened = some 0 ∧
    (sampleState.view.opened ≠ some 0 →
      ∃ evs, textOpenState.trace =
        sampleState.trace ++ .gtk_ctree_node_moveto (some 0) :: evs) ∧
    select unreadableEnv 0 0 textOpenState = some textOpenState :=
  ⟨by decide, select_twice okEnv unreadableEnv 10 0 0 sampleState textOpenState (by decide)⟩

/-! ### Text-class parts -/

theorem plaintext_owner_total (h : Heap) (rank : Nat → Nat) (hacyc : ParentAcyclic h rank)
    (fuel : Nat) :
    ∀ p, p < h.length → rank p < fuel →
      ∃ r, plaintext_owner h fuel (some p) = some r ∧
        ∀ q, r = some q → ∃ mimeinfo, h[q]? = some mimeinfo := by
  induction fuel with
  | zero => intro p _ hr; exact absurd hr (Nat.not_lt_zero _)
  | succ fuel ih =>
    intro p hp hr
    obtain ⟨mimeinfo, hget⟩ : ∃ mimeinfo, h[p]? = some mimeinfo :=
      ⟨h[p], List.getElem?_eq_getElem hp⟩
    rw [plaintext_owner]
    simp only [hget]
    by_cases hpl : mimeinfo.plaintextfile.isSome = true
    · refine ⟨some p, by simp [hpl], ?_⟩
      intro q hq
      cases hq
      exact ⟨mimeinfo, hget⟩
    · simp only [hpl]
      cases hpar : mimeinfo.parent with
      | none => exact ⟨none, by simp [plaintext_owner], by simp⟩
      | some q =>
        have hok := hacyc p hp
        simp only [parentOk, hget, hpar] at hok
        obtain ⟨hq, hrq⟩ := linkOk_some hok
        simpa using ih q hq (by omega)

theorem display_file_congr (env : Env) (s s2 : State) (fuel p : Nat)
    (hheap : s2.heap = s.heap) (hfile : s2.view.file = s.view.file) :
    display_file env s2 fuel p = display_file env s fuel p := by
  unfold display_file
  rw [hheap, hfile]

/-- On closed acyclic parent links the file to display is resolved once
the fuel exceeds the rank of the part. -/
theorem display_file_total (env : Env) (s : State) (rank : Nat → Nat)
    (hacyc : ParentAcyclic s.heap rank) (fuel p : Nat) (hp : p < s.heap.length)
    (hfuel : rank p < fuel) : ∃ fname, display_file env s fuel p = some fname := by
  unfold display_file
  by_cases hg : env.use_gpgme = true
  · simp only [hg, if_true]
    obtain ⟨r, hr, hvalid⟩ := plaintext_owner_total s.heap rank hacyc fuel p hp hfuel
    rw [hr]
    cases r with
    | none => exact ⟨_, rfl⟩
    | some q =>
      obtain ⟨mimeinfo, hq⟩ := hvalid q rfl
      simp only [hq]
      exact ⟨_, rfl⟩
  · simp [hg]

/-- The mode after `mimeview_show_message_part`: Text when none of its
early returns is taken, else the mode before. -/
theorem show_message_part_type (env : Env) (fuel : Nat) (s : State) (p : Nat)
    (partinfo : MimeInfo) (fname : Option String)
    (hfile : display_file env s fuel p = some fname) (hp : s.heap[p]? = some partinfo) :
    ∃ s1, mimeview_show_message_part env fuel s (some p) = some s1 ∧
      s1.view.type =
        if displayable env fname partinfo.fpos = true then .MIMEVIEW_TEXT
        else s.view.type := by
  unfold mimeview_show_message_part
  simp only [hfile]
  cases fname with
  | none => exact ⟨s, rfl, by simp [displayable]⟩
  | some f =>
    simp only
    cases hopen : env.fopen f with
    | false => exact ⟨_, rfl, by simp [displayable, hopen]⟩
    | true =>
      simp only [hp]
      cases hseek : env.fseek f partinfo.fpos with
      | false => exact ⟨_, rfl, by simp [displayable, hopen, hseek]⟩
      | true =>
        refine ⟨_, rfl, ?_⟩
        simp only [emit_view, displayable, hopen, hseek, Bool.and_self, if_true]
        exact change_view_type_type _ _ (Or.inl rfl)

theorem row_data_of_row {ctree : List Row} {n : Nat} {row : Row}
    (hrow : ctree[n]? = some row) :
    gtk_ctree_node_get_row_data ctree (some n) = some row.data := by
  simp [gtk_ctree_node_get_row_data, hrow]

/-- C7, as stated, fails: with the image of row 2 open (mode Image) and a
source file that cannot be opened, selecting row 0, a text part that is
not the open one, leaves the mode at Image. -/
theorem select_text_unreadable_counterexample :
    imageOpenState.view.opened ≠ some 0 ∧
    (imageOpenState.view.ctree[0]?).map Row.data = some 1 ∧
    (imageOpenState.heap[1]?).map MimeInfo.mime_type = some .MIME_TEXT ∧
    (select unreadableEnv 10 0 imageOpenState).map (fun s => s.view.type) =
      some .MIMEVIEW_IMAGE := by
  decide

/-- C7, amended: for a part that is PlainText, Html, EmbeddedMessage or
MultipartContainer and is not the open one, `select` returns (on closed
acyclic parent links, with fuel above the rank of the part) and the mode
after it is Text when the file resolved for display is present, opens and
the seek to the part's offset succeeds; otherwise the mode is what it was
before. -/
theorem select_text_mode (env : Env) (fuel n : Nat) (s : State) (row : Row)
    (partinfo : MimeInfo) (rank : Nat → Nat)
    (hopen : s.view.opened ≠ some n) (hrow : s.view.ctree[n]? = some row)
    (hp : s.heap[row.data]? = some partinfo)
    (hclass : text_class partinfo.mime_type = true)
    (hacyc : ParentAcyclic s.heap rank) (hfuel : rank row.data < fuel) :
    ∃ s1 fname, select env fuel n s = some s1 ∧
      display_file env s fuel row.data = some fname ∧
      s1.view.type =
        if displayable env fname partinfo.fpos = true then .MIMEVIEW_TEXT
        else s.view.type := by
  have hlt : row.data < s.heap.length := (List.getElem?_eq_some.1 hp).1
  obtain ⟨fname, hfile⟩ := display_file_total env s rank hacyc fuel row.data hlt hfuel
  have hu := ungrab_frame env (set_opened s (some n))
  have hfile2 : display_file env (ungrab env (set_opened s (some n))) fuel row.data =
      some fname := by
    rw [display_file_congr env s _ fuel row.data hu.1 (by rw [hu.2]; rfl)]
    exact hfile
  have hp2 : (ungrab env (set_opened s (some n))).heap[row.data]? = some partinfo := by
    rw [hu.1]
    exact hp
  obtain ⟨s1, hs1, htype⟩ := show_message_part_type env fuel _ row.data partinfo fname hfile2 hp2
  refine ⟨s1, fname, ?_, hfile, ?_⟩
  · unfold select
    rw [selected_dispatch env fuel (some n) s row.data partinfo hopen (row_data_of_row hrow) hp]
    simp only [hclass, if_true]
    exact hs1
  · rw [htype, hu.2]
    rfl

/-- C7, amended, on the sample view: row 0 is a text part and the source file
is readable, so the mode becomes Text. -/
theorem select_text_mode_witness :
    sampleState.view.opened ≠ some 0 ∧
    ParentAcyclic sampleState.heap (fun p => p) ∧
    (select okEnv 10 0 sampleState).map (fun s => s.view.type) = some .MIMEVIEW_TEXT ∧
    ∃ s1 fname, select okEnv 10 0 sampleState = some s1 ∧
      display_file okEnv sampleState 10 1 = some fname ∧
      s1.view.type =
        if displayable okEnv fname 0 = true then .MIMEVIEW_TEXT
        else .MIMEVIEW_NONE :=
  ⟨by decide, by decide, by decide,
    select_text_mode okEnv 10 0 sampleState
      { parent := none, str := { mimetype := "text/plain", size := "1B", name := "" },
        data := 1 }
      { blankPart .MIME_TEXT with
          content_type := some "text/plain", parent := some 0, next := some 2 }
      (fun p => p) (by decide) (by decide) (by decide) (by decide) (by decide) (by decide)⟩

/-! ### Image parts, the extractor and mode switches -/

theorem ungrab_trace (env : Env) (s : State) :
    (ungrab env s).trace = s.trace ++ ungrab_events env := by
  unfold ungrab ungrab_events
  by_cases h1 : env.widget_has_grab = true
  · by_cases h2 : env.pointer_is_grabbed = true <;> simp [h1, h2]
  · simp [h1]

theorem change_view_type_trace (s : State) (type : MimeViewType) :
    (mimeview_change_view_type s type).trace = s.trace ++ switch_events s.view.type type := by
  unfold mimeview_change_view_type switch_events
  by_cases heq : s.view.type = type
  · simp [heq]
  · cases type <;> simp [heq, gtk_container_add, gtk_container_remove]

theorem set_opened_trace (s : State) (node : Option Nat) :
    (set_opened s node).trace = s.trace ++ [.gtk_ctree_node_moveto node] := rfl

/-- C8: with an image renderer available, selecting a row whose part is an
Image (and is not the open one) calls the extractor before any renderer or
mode switch. When extraction fails, an error is reported, the image
renderer is not called, and the mode and the packed widgets are what they
were; when it succeeds, the mode becomes Image and the image renderer is
shown the extracted file. The trace is given in full in both cases. -/
theorem select_image (env : Env) (fuel n : Nat) (s : State) (row : Row)
    (partinfo : MimeInfo) (himg : env.have_image = true)
    (hopen : s.view.opened ≠ some n) (hrow : s.view.ctree[n]? = some row)
    (hp : s.heap[row.data]? = some partinfo)
    (hclass : partinfo.mime_type = .MIME_IMAGE) :
    ∃ s1, select env fuel n s = some s1 ∧
      (env.procmime_get_part (env.procmime_get_tmp_file_name row.data) s.view.file
          row.data < 0 →
        s1.view.type = s.view.type ∧ s1.view.vbox = s.view.vbox ∧
        s1.trace = s.trace ++ [.gtk_ctree_node_moveto (some n)] ++ ungrab_events env ++
          [.procmime_get_part (env.procmime_get_tmp_file_name row.data) s.view.file row.data,
           .alertpanel_error "Can't get the part of multipart message."]) ∧
      (¬ env.procmime_get_part (env.procmime_get_tmp_file_name row.data) s.view.file
          row.data < 0 →
        s1.view.type = .MIMEVIEW_IMAGE ∧
        s1.trace = s.trace ++ [.gtk_ctree_node_moveto (some n)] ++ ungrab_events env ++
          [.procmime_get_part (env.procmime_get_tmp_file_name row.data) s.view.file row.data] ++
          switch_events s.view.type .MIMEVIEW_IMAGE ++
          [.imageview_show_image row.data (env.procmime_get_tmp_file_name row.data),
           .unlink (env.procmime_get_tmp_file_name row.data)]) := by
  have hu := ungrab_frame env (set_opened s (some n))
  have hfile : (ungrab env (set_opened s (some n))).view.file = s.view.file := by
    rw [hu.2]; rfl
  have htype : (ungrab env (set_opened s (some n))).view.type = s.view.type := by
    rw [hu.2]; rfl
  have hvbox : (ungrab env (set_opened s (some n))).view.vbox = s.view.vbox := by
    rw [hu.2]; rfl
  have htrace : (ungrab env (set_opened s (some n))).trace =
      s.trace ++ [.gtk_ctree_node_moveto (some n)] ++ ungrab_events env := by
    rw [ungrab_trace, set_opened_trace]
  refine ⟨mimeview_show_image_part env (ungrab env (set_opened s (some n))) (some row.data),
    ?_, ?_, ?_⟩
  · unfold select
    rw [selected_dispatch env fuel (some n) s row.data partinfo hopen (row_data_of_row hrow) hp]
    simp [hclass, himg, text_class]
  · intro hfail
    unfold mimeview_show_image_part
    simp only [hfile, hfail, if_true, emit_view, emit_trace, htype, hvbox, htrace]
    simp
  · intro hok
    unfold mimeview_show_image_part
    simp only [hfile, hok, if_false, emit_view, emit_trace]
    refine ⟨change_view_type_type _ _ (Or.inr rfl), ?_⟩
    rw [change_view_type_trace]
    simp only [emit_view, emit_trace, htype, htrace]
    simp

/-- C8 on the sample view with a failing extractor: row 2 is the image
part 4. -/
theorem select_image_witness :
    noExtractEnv.have_image = true ∧ sampleState.view.opened ≠ some 2 ∧
    ∃ s1, select noExtractEnv 10 2 sampleState = some s1 ∧
      (noExtractEnv.procmime_get_part (noExtractEnv.procmime_get_tmp_file_name 4)
          sampleState.view.file 4 < 0 →
        s1.view.type = sampleState.view.type ∧ s1.view.vbox = sampleState.view.vbox ∧
        s1.trace = sampleState.trace ++ [.gtk_ctree_node_moveto (some 2)] ++
          ungrab_events noExtractEnv ++
          [.procmime_get_part (noExtractEnv.procmime_get_tmp_file_name 4)
            sampleState.view.file 4,
           .alertpanel_error "Can't get the part of multipart message."]) ∧
      (¬ noExtractEnv.procmime_get_part (noExtractEnv.procmime_get_tmp_file_name 4)
          sampleState.view.file 4 < 0 →
        s1.view.type = .MIMEVIEW_IMAGE ∧
        s1.trace = sampleState.trace ++ [.gtk_ctree_node_moveto (some 2)] ++
          ungrab_events noExtractEnv ++
          [.procmime_get_part (noExtractEnv.procmime_get_tmp_file_name 4)
            sampleState.view.file 4] ++
          switch_events sampleState.view.type .MIMEVIEW_IMAGE ++
          [.imageview_show_image 4 (noExtractEnv.procmime_get_tmp_file_name 4),
           .unlink (noExtractEnv.procmime_get_tmp_file_name 4)]) :=
  ⟨rfl, by decide,
    select_image noExtractEnv 10 2 sampleState
      { parent := some 1, str := { mimetype := "image/png", size := "1B", name := "" },
        data := 4 }
      { blankPart .MIME_IMAGE with content_type := some "image/png", parent := some 3 }
      rfl (by decide) (by decide) (by decide) rfl⟩

theorem change_view_type_extract (s : State) (type : MimeViewType) :
    (mimeview_change_view_type s type).trace.filter Event.isExtract =
      s.trace.filter Event.isExtract := by
  rw [change_view_type_trace]
  unfold switch_events
  by_cases heq : s.view.type = type
  · simp [heq]
  · cases type <;> simp [heq, Event.isExtract]

theorem ungrab_extract (env : Env) (s : State) :
    (ungrab env s).trace.filter Event.isExtract = s.trace.filter Event.isExtract := by
  rw [ungrab_trace]
  unfold ungrab_events
  by_cases h1 : env.widget_has_grab = true
  · by_cases h2 : env.pointer_is_grabbed = true <;> simp [h1, h2, Event.isExtract]
  · simp [h1]

theorem show_message_part_extract (env : Env) (fuel : Nat) (s s1 : State)
    (partinfo : Option Nat)
    (hrun : mimeview_show_message_part env fuel s partinfo = some s1) :
    s1.trace.filter Event.isExtract = s.trace.filter Event.isExtract := by
  unfold mimeview_show_message_part at hrun
  cases partinfo with
  | none =>
    simp only [Option.some.injEq] at hrun
    subst hrun
    rfl
  | some p =>
    simp only at hrun
    cases hd : display_file env s fuel p with
    | none => simp [hd] at hrun
    | some fname =>
      cases fname with
      | none =>
        simp only [hd, Option.some.injEq] at hrun
        subst hrun
        rfl
      | some fname =>
        simp only [hd] at hrun
        cases hopen : env.fopen fname with
        | false =>
          simp only [hopen, Option.some.injEq] at hrun
          subst hrun
          simp [Event.isExtract]
        | true =>
          simp only [hopen] at hrun
          cases hp : s.heap[p]? with
          | none => simp [hp] at hrun
          | some mimeinfo =>
            simp only [hp] at hrun
            cases hseek : env.fseek fname mimeinfo.fpos with
            | false =>
              simp only [hseek, Option.some.injEq] at hrun
              subst hrun
              simp [Event.isExtract]
            | true =>
              simp only [hseek, Option.some.injEq] at hrun
              subst hrun
              simp only [emit_trace, List.filter_append]
              rw [change_view_type_extract]
              simp [Event.isExtract]

theorem show_other_part_extract (env : Env) (s : State) (p : Nat) (partinfo : MimeInfo) :
    (show_other_part env s p partinfo).trace.filter Event.isExtract =
      s.trace.filter Event.isExtract := by
  unfold show_other_part
  split <;>
  · simp only [emit_trace, List.filter_append]
    rw [change_view_type_extract]
    simp [Event.isExtract]

/-- C9: selecting a row whose part is not an Image never calls the
extractor: the calls of `procmime_get_part` in the trace after `select`
are those that were there before. -/
theorem select_no_extract (env : Env) (fuel n : Nat) (s s1 : State) (row : Row)
    (partinfo : MimeInfo) (hrow : s.view.ctree[n]? = some row)
    (hp : s.heap[row.data]? = some partinfo)
    (hclass : partinfo.mime_type ≠ .MIME_IMAGE)
    (hrun : select env fuel n s = some s1) :
    s1.trace.filter Event.isExtract = s.trace.filter Event.isExtract := by
  unfold select at hrun
  by_cases hopen : s.view.opened = some n
  · unfold mimeview_selected at hrun
    simp only [hopen, if_true, Option.some.injEq] at hrun
    subst hrun
    rfl
  · have hbase : (ungrab env (set_opened s (some n))).trace.filter Event.isExtract =
        s.trace.filter Event.isExtract := by
      rw [ungrab_extract, set_opened_trace]
      simp [Event.isExtract]
    rw [selected_dispatch env fuel (some n) s row.data partinfo hopen (row_data_of_row hrow) hp]
      at hrun
    split at hrun
    · rw [show_message_part_extract env fuel _ s1 _ hrun, hbase]
    · split at hrun
      · rename_i himg
        exact absurd himg.1 hclass
      · simp only [Option.some.injEq] at hrun
        subst hrun
        rw [show_other_part_extract, hbase]

/-- C9 on the sample view: selecting row 3, the attachment, adds no call of
the extractor. -/
theorem select_no_extract_witness :
    (sampleState.view.ctree[3]?).map Row.data = some 5 ∧
    (sampleState.heap[5]?).map MimeInfo.mime_type = some .MIME_APPLICATION_OCTET_STREAM ∧
    select okEnv 10 3 sampleState = some attachmentOpenState ∧
    attachmentOpenState.trace.filter Event.isExtract =
      sampleState.trace.filter Event.isExtract :=
  ⟨by decide, by decide, by decide,
    select_no_extract okEnv 10 3 sampleState attachmentOpenState
      { parent := none,
        str := { mimetype := "application/octet-stream", size := "1B", name := "a.bin" },
        data := 5 }
      { blankPart .MIME_APPLICATION_OCTET_STREAM with
          content_type := some "application/octet-stream", parent := some 0,
          name := some "a.bin" }
      (by decide) (by decide) (by decide) (by decide)⟩

/-- C10: `set_mode(target)` is a no-op when the target is the current mode
and when the target is neither Text nor Image: the state is returned as it
was, so the mode is unchanged and no widget is detached or attached (the
packed widgets and the trace are the same). -/
theorem change_view_type_noop (s : State) (type : MimeViewType)
    (hcase : s.view.type = type ∨
      (type ≠ .MIMEVIEW_TEXT ∧ type ≠ .MIMEVIEW_IMAGE)) :
    mimeview_change_view_type s type = s := by
  unfold mimeview_change_view_type
  rcases hcase with heq | ⟨ht, hi⟩
  · simp [heq]
  · cases type with
    | MIMEVIEW_NONE => simp
    | MIMEVIEW_IMAGE => exact absurd rfl hi
    | MIMEVIEW_TEXT => exact absurd rfl ht

/-- C10 on the view that shows the image: a switch to Image changes
nothing. -/
theorem change_view_type_noop_witness :
    (imageOpenState.view.type = .MIMEVIEW_IMAGE ∨
      (MimeViewType.MIMEVIEW_IMAGE ≠ .MIMEVIEW_TEXT ∧
        MimeViewType.MIMEVIEW_IMAGE ≠ .MIMEVIEW_IMAGE)) ∧
    mimeview_change_view_type imageOpenState .MIMEVIEW_IMAGE = imageOpenState :=
  ⟨Or.inl rfl, change_view_type_noop imageOpenState .MIMEVIEW_IMAGE (Or.inl rfl)⟩

/-- C11: from every mode whose bound widget, and nothing else, is packed (no
widget for None), a switch to a target in Text or Image other than the
current mode leaves the target as the mode and its widget as the only one
packed: the widget bound to the old mode is detached, no other widget is
(for None none is), and the widget bound to the target is attached. The
two container calls are given in full. -/
theorem set_mode_switch (s : State) (target : MimeViewType)
    (htarget : target = .MIMEVIEW_TEXT ∨ target = .MIMEVIEW_IMAGE)
    (hne : s.view.type ≠ target)
    (hpacked : s.view.vbox = bound_widgets s.view.type) :
    (mimeview_change_view_type s target).view.type = target ∧
    (mimeview_change_view_type s target).view.vbox = bound_widgets target ∧
    (∀ w, w ∈ bound_widgets s.view.type →
      w ∉ (mimeview_change_view_type s target).view.vbox) ∧
    (∀ w, w ∈ s.view.vbox → w ∉ (mimeview_change_view_type s target).view.vbox →
      w ∈ bound_widgets s.view.type) ∧
    (∀ w, w ∈ (mimeview_change_view_type s target).view.vbox → w ∉ s.view.vbox →
      w ∈ bound_widgets target) ∧
    (mimeview_change_view_type s target).trace =
      s.trace ++ switch_events s.view.type target := by
  refine ⟨change_view_type_type s target htarget, ?_, ?_, ?_, ?_,
    change_view_type_trace s target⟩
  · unfold mimeview_change_view_type
    rcases htarget with rfl | rfl <;>
      cases ht : s.view.type <;>
      simp_all [bound_widgets, gtk_container_add, gtk_container_remove]
  · unfold mimeview_change_view_type
    rcases htarget with rfl | rfl <;>
      cases ht : s.view.type <;>
      simp_all [bound_widgets, gtk_container_add, gtk_container_remove]
  · intro w hw _
    rw [hpacked] at hw
    exact hw
  · unfold mimeview_change_view_type
    rcases htarget with rfl | rfl <;>
      cases ht : s.view.type <;>
      simp_all [bound_widgets, gtk_container_add, gtk_container_remove]

/-- C11 on the view that shows the image: the switch to Text detaches the
image widget and attaches the text widget. -/
theorem set_mode_switch_witness :
    imageOpenState.view.vbox = bound_widgets imageOpenState.view.type ∧
    (mimeview_change_view_type imageOpenState .MIMEVIEW_TEXT).view.type = .MIMEVIEW_TEXT ∧
    (mimeview_change_view_type imageOpenState .MIMEVIEW_TEXT).view.vbox =
      bound_widgets .MIMEVIEW_TEXT ∧
    (∀ w, w ∈ bound_widgets imageOpenState.view.type →
      w ∉ (mimeview_change_view_type imageOpenState .MIMEVIEW_TEXT).view.vbox) ∧
    (∀ w, w ∈ imageOpenState.view.vbox →
      w ∉ (mimeview_change_view_type imageOpenState .MIMEVIEW_TEXT).view.vbox →
      w ∈ bound_widgets imageOpenState.view.type) ∧
    (∀ w, w ∈ (mimeview_change_view_type imageOpenState .MIMEVIEW_TEXT).view.vbox →
      w ∉ imageOpenState.view.vbox → w ∈ bound_widgets .MIMEVIEW_TEXT) ∧
    (mimeview_change_view_type imageOpenState .MIMEVIEW_TEXT).trace =
      imageOpenState.trace ++ switch_events imageOpenState.view.type .MIMEVIEW_TEXT :=
  ⟨rfl, set_mode_switch imageOpenState .MIMEVIEW_TEXT (Or.inl rfl) (by decide) rfl⟩

/-! ## SignatureInspector -/

theorem parentOk_some {h : Heap} {rank : Nat → Nat} (hacyc : ParentAcyclic h rank)
    {p parent : Nat} {mimeinfo : MimeInfo} (hp : h[p]? = some mimeinfo)
    (hpar : mimeinfo.parent = some parent) : parent < h.length ∧ rank parent < rank p := by
  have hlt : p < h.length := (List.getElem?_eq_some.1 hp).1
  have hok := hacyc p hlt
  simp only [parentOk, hp, hpar] at hok
  exact linkOk_some hok

/-- On closed acyclic parent links the walk of `mimeview_is_signed` ends,
with `TRUE` exactly when a part on the parent chain has a signature. -/
theorem signed_walk_spec (env : Env) (h : Heap) (rank : Nat → Nat)
    (hacyc : ParentAcyclic h rank) (fuel : Nat) :
    ∀ p, p < h.length → rank p < fuel →
      ∃ b, signed_walk env h fuel p = some b ∧
        (b = true ↔ ∃ q, OnParentChain h p q ∧ env.rfc2015_has_signature h q = true) := by
  induction fuel with
  | zero => intro p _ hr; exact absurd hr (Nat.not_lt_zero _)
  | succ fuel ih =>
    intro p hp hr
    obtain ⟨mimeinfo, hget⟩ : ∃ mimeinfo, h[p]? = some mimeinfo :=
      ⟨h[p], List.getElem?_eq_getElem hp⟩
    rw [signed_walk]
    by_cases hsig : env.rfc2015_has_signature h p = true
    · exact ⟨true, by simp [hsig], by simpa using ⟨p, OnParentChain.self p, hsig⟩⟩
    · simp only [hsig, hget]
      cases hpar : mimeinfo.parent with
      | none =>
        refine ⟨false, by simp, ?_⟩
        constructor
        · intro hb; cases hb
        · rintro ⟨q, hchain, hq⟩
          cases hchain with
          | self => exact absurd hq hsig
          | step _ mimeinfo2 parent _ hget2 hpar2 _ =>
            have : mimeinfo2 = mimeinfo := Option.some.inj (hget2.symm.trans hget)
            subst this
            rw [hpar] at hpar2
            cases hpar2
      | some parent =>
        obtain ⟨hplt, hpr⟩ := parentOk_some hacyc hget hpar
        obtain ⟨b, hb, hiff⟩ := ih parent hplt (by omega)
        refine ⟨b, by simpa using hb, ?_⟩
        rw [hiff]
        constructor
        · rintro ⟨q, hchain, hq⟩
          exact ⟨q, OnParentChain.step p mimeinfo parent q hget hpar hchain, hq⟩
        · rintro ⟨q, hchain, hq⟩
          cases hchain with
          | self => exact absurd hq hsig
          | step _ mimeinfo2 parent2 _ hget2 hpar2 hrest =>
            have : mimeinfo2 = mimeinfo := Option.some.inj (hget2.symm.trans hget)
            subst this
            rw [hpar] at hpar2
            cases hpar2
            exact ⟨q, hrest, hq⟩

/-- On closed acyclic parent links the walk to the top-most ancestor ends
at a part of the parent chain that has no parent. -/
theorem top_ancestor_total (h : Heap) (rank : Nat → Nat) (hacyc : ParentAcyclic h rank)
    (fuel : Nat) :
    ∀ p, p < h.length → rank p < fuel →
      ∃ r mimeinfo, top_ancestor h fuel p = some r ∧ h[r]? = some mimeinfo ∧
        mimeinfo.parent = none ∧ OnParentChain h p r := by
  induction fuel with
  | zero => intro p _ hr; exact absurd hr (Nat.not_lt_zero _)
  | succ fuel ih =>
    intro p hp hr
    obtain ⟨mimeinfo, hget⟩ : ∃ mimeinfo, h[p]? = some mimeinfo :=
      ⟨h[p], List.getElem?_eq_getElem hp⟩
    rw [top_ancestor]
    simp only [hget]
    cases hpar : mimeinfo.parent with
    | none => exact ⟨p, mimeinfo, rfl, hget, hpar, OnParentChain.self p⟩
    | some parent =>
      obtain ⟨hplt, hpr⟩ := parentOk_some hacyc hget hpar
      obtain ⟨r, rootinfo, hr2, hroot, hnone, hchain⟩ := ih parent hplt (by omega)
      exact ⟨r, rootinfo, hr2, hroot, hnone,
        OnParentChain.step p mimeinfo parent r hget hpar hchain⟩

/-! ## Claims on the signature inspector -/

/-- C12: on closed acyclic parent links (with fuel above the rank of the
open part) `is_signed` returns, and returns true exactly when the view has
an open part and a bound source file and `has_signature` holds for a part
on the parent chain from the open part up (the open part included). It
returns false when no row is open, when no source file is bound, and when
`has_signature` holds for no part. -/
theorem is_signed_iff (env : Env) (fuel : Nat) (s : State) (rank : Nat → Nat)
    (hacyc : ParentAcyclic s.heap rank)
    (hfuel : ∀ p, gtk_ctree_node_get_row_data s.view.ctree s.view.opened = some p →
      p < s.heap.length ∧ rank p < fuel) :
    ∃ b, mimeview_is_signed env fuel s = some b ∧
      (b = true ↔
        ∃ p, gtk_ctree_node_get_row_data s.view.ctree s.view.opened = some p ∧
          s.view.file.isSome = true ∧
          ∃ q, OnParentChain s.heap p q ∧ env.rfc2015_has_signature s.heap q = true) ∧
      (s.view.opened = none → b = false) ∧
      (s.view.file = none → b = false) ∧
      ((∀ q, env.rfc2015_has_signature s.heap q = false) → b = false) := by
  unfold mimeview_is_signed
  cases hopen : s.view.opened with
  | none =>
    refine ⟨false, rfl, ?_, fun _ => rfl, fun _ => rfl, fun _ => rfl⟩
    simp [gtk_ctree_node_get_row_data]
  | some n =>
    cases hfile : s.view.file with
    | none =>
      refine ⟨false, rfl, ?_, fun _ => rfl, fun _ => rfl, fun _ => rfl⟩
      simp
    | some file =>
      rw [hopen] at hfuel
      cases hdata : gtk_ctree_node_get_row_data s.view.ctree (some n) with
      | none =>
        refine ⟨false, rfl, ?_, fun _ => rfl, fun _ => rfl, fun _ => rfl⟩
        simp
      | some p =>
        obtain ⟨hplt, hpr⟩ := hfuel p hdata
        obtain ⟨b, hb, hiff⟩ := signed_walk_spec env s.heap rank hacyc fuel p hplt hpr
        refine ⟨b, hb, ?_, ?_, ?_, ?_⟩
        · rw [hiff]
          simp
        · intro h
          cases h
        · intro h
          cases h
        · intro hnone
          cases hbv : b with
          | false => rfl
          | true =>
            obtain ⟨q, _, hq⟩ := hiff.1 hbv
            rw [hnone q] at hq
            cases hq

/-- C12 on the sample view with the text part open and a signed root: the
open part 1 has no signature, its parent 0 has one. -/
theorem is_signed_iff_witness :
    ParentAcyclic textOpenState.heap (fun p => p) ∧
    mimeview_is_signed signedEnv 10 textOpenState = some true ∧
    ∃ b, mimeview_is_signed signedEnv 10 textOpenState = some b ∧
      (b = true ↔
        ∃ p, gtk_ctree_node_get_row_data textOpenState.view.ctree
            textOpenState.view.opened = some p ∧
          textOpenState.view.file.isSome = true ∧
          ∃ q, OnParentChain textOpenState.heap p q ∧
            signedEnv.rfc2015_has_signature textOpenState.heap q = true) ∧
      (textOpenState.view.opened = none → b = false) ∧
      (textOpenState.view.file = none → b = false) ∧
      ((∀ q, signedEnv.rfc2015_has_signature textOpenState.heap q = false) → b = false) :=
  ⟨by decide, by decide,
    is_signed_iff signedEnv 10 textOpenState (fun p => p) (by decide) (by
      intro p hp
      have : p = 1 := by
        have h1 : gtk_ctree_node_get_row_data textOpenState.view.ctree
            textOpenState.view.opened = some 1 := by decide
        rw [h1] at hp
        exact (Option.some.inj hp).symm
      subst this
      decide)⟩

/-- C13: `check_signature` on a view for which `is_signed` is false returns
the state as it was: the source file is not opened, the structure is not
scanned again, the verification is not called, and the arena of parts (the
signature status of every part with it), the view and the trace are
unchanged. -/
theorem check_signature_rejected (env : Env) (fuel : Nat) (s : State)
    (hsigned : mimeview_is_signed env fuel s = some false) :
    mimeview_check_signature env fuel s = some s := by
  unfold mimeview_check_signature
  rw [hsigned]

/-- C13 on the sample view with the text part open and no signature in the
message. -/
theorem check_signature_rejected_witness :
    mimeview_is_signed okEnv 10 textOpenState = some false ∧
    mimeview_check_signature okEnv 10 textOpenState = some textOpenState :=
  ⟨by decide, check_signature_rejected okEnv 10 textOpenState (by decide)⟩

/-- When `mimeview_is_signed` returns `TRUE` a row with a part is open. -/
theorem is_signed_open (env : Env) (fuel : Nat) (s : State)
    (hsigned : mimeview_is_signed env fuel s = some true) :
    ∃ p file, gtk_ctree_node_get_row_data s.view.ctree s.view.opened = some p ∧
      s.view.file = some file := by
  unfold mimeview_is_signed at hsigned
  cases hopen : s.view.opened with
  | none => simp [hopen] at hsigned
  | some n =>
    cases hfile : s.view.file with
    | none => simp [hopen, hfile] at hsigned
    | some file =>
      cases hdata : gtk_ctree_node_get_row_data s.view.ctree (some n) with
      | none => simp [hopen, hfile, hdata] at hsigned
      | some p => exact ⟨p, file, rfl, rfl⟩

/-- C14: when `is_signed` holds and the source file cannot be opened,
`check_signature` returns (on closed acyclic parent links, with fuel above
the rank of the open part) after the failed `fopen` and its error report:
the structure is not scanned again, the verification is not called, no row
name is set, and the arena of parts (the signature status of every part
with it) and the view are unchanged. -/
theorem check_signature_unreadable (env : Env) (fuel : Nat) (s : State) (file : String)
    (rank : Nat → Nat)
    (hsigned : mimeview_is_signed env fuel s = some true)
    (hfile : s.view.file = some file) (hopen : env.fopen file = false)
    (hacyc : ParentAcyclic s.heap rank)
    (hfuel : ∀ p, gtk_ctree_node_get_row_data s.view.ctree s.view.opened = some p →
      p < s.heap.length ∧ rank p < fuel) :
    ∃ s1, mimeview_check_signature env fuel s = some s1 ∧
      s1.heap = s.heap ∧ s1.view = s.view ∧
      s1.trace = s.trace ++ [.fopen file, .file_op_error (some file) "fopen"] := by
  obtain ⟨p, file2, hdata, hfile2⟩ := is_signed_open env fuel s hsigned
  rw [hfile] at hfile2
  cases hfile2
  obtain ⟨hplt, hpr⟩ := hfuel p hdata
  obtain ⟨r, _, hr, _, _, _⟩ := top_ancestor_total s.heap rank hacyc fuel p hplt hpr
  refine ⟨(s.emit (.fopen file)).emit (.file_op_error (some file) "fopen"), ?_, rfl, rfl, ?_⟩
  · unfold mimeview_check_signature
    simp only [hsigned, hdata, hfile, hr, hopen]
  · simp

/-- C14 on the sample view with the text part open, a signed root and an
unreadable source file. -/
theorem check_signature_unreadable_witness :
    mimeview_is_signed signedUnreadableEnv 10 textOpenState = some true ∧
    signedUnreadableEnv.fopen "/msg" = false ∧
    ∃ s1, mimeview_check_signature signedUnreadableEnv 10 textOpenState = some s1 ∧
      s1.heap = textOpenState.heap ∧ s1.view = textOpenState.view ∧
      s1.trace = textOpenState.trace ++
        [.fopen "/msg", .file_op_error (some "/msg") "fopen"] :=
  ⟨by decide, rfl,
    check_signature_unreadable signedUnreadableEnv 10 textOpenState "/msg" (fun p => p)
      (by decide) rfl rfl (by decide) (by
        intro p hp
        have : p = 1 := by
          have h1 : gtk_ctree_node_get_row_data textOpenState.view.ctree
              textOpenState.view.opened = some 1 := by decide
          rw [h1] at hp
          exact (Option.some.inj hp).symm
        subst this
        decide)⟩

/-! ## Message display -/

theorem fgets_take_length (n : Nat) (unread : List Char) :
    (fgets_take n unread).length ≤ unread.length ∧
    (0 < n → unread ≠ [] → 0 < (fgets_take n unread).length) := by
  induction n generalizing unread with
  | zero => exact ⟨by simp [fgets_take], fun h => absurd h (Nat.lt_irrefl 0)⟩
  | succ n ih =>
    cases unread with
    | nil => exact ⟨by simp [fgets_take], fun _ h => absurd rfl h⟩
    | cons c rest =>
      rw [fgets_take]
      by_cases hc : c = '\n'
      · simp [hc]
      · simp only [hc, if_false, List.length_cons]
        exact ⟨Nat.succ_le_succ (ih rest).1, fun _ _ => Nat.succ_pos _⟩

/-- With a buffer of at least two bytes the header loop ends, having read
no more characters than were unread. -/
theorem skip_header_lines_total (size : Nat) (hsize : 2 ≤ size) (fuel : Nat) :
    ∀ unread : List Char, unread.length < fuel →
      ∃ n, skip_header_lines size fuel unread = some n ∧ n ≤ unread.length := by
  induction fuel with
  | zero => intro unread h; exact absurd h (Nat.not_lt_zero _)
  | succ fuel ih =>
    intro unread hlen
    rw [skip_header_lines]
    cases unread with
    | nil => exact ⟨0, by simp [fgets], Nat.le_refl _⟩
    | cons c rest =>
      simp only [fgets]
      have hlen2 := fgets_take_length (size - 1) (c :: rest)
      have hpos : 0 < (fgets_take (size - 1) (c :: rest)).length :=
        hlen2.2 (by omega) (by simp)
      by_cases hbreak : (fgets_take (size - 1) (c :: rest)).head? = some '\r' ∨
          (fgets_take (size - 1) (c :: rest)).head? = some '\n'
      · exact ⟨_, by simp only [hbreak, if_true], hlen2.1⟩
      · simp only [hbreak, if_false]
        have hdrop : ((c :: rest).drop (fgets_take (size - 1) (c :: rest)).length).length <
            fuel := by
          rw [List.length_drop]
          simp only [List.length_cons] at hlen hlen2 ⊢
          omega
        obtain ⟨n, hn, hle⟩ := ih _ hdrop
        rw [hn]
        refine ⟨_, rfl, ?_⟩
        rw [List.length_drop] at hle
        have := hlen2.1
        omega

theorem skip_headers_total (env : Env) (file : String) (mimeinfo : MimeInfo)
    (seek_error : Event) (hsize : 2 ≤ env.buffsize) :
    ∃ calls offset, skip_headers env file mimeinfo seek_error = some (calls, offset) ∧
      (calls = [] ∨ calls = [seek_error]) := by
  unfold skip_headers
  by_cases hm : mimeinfo.mime_type = .MIME_MULTIPART
  · simp only [hm, if_true]
    obtain ⟨n, hn, _⟩ := skip_header_lines_total env.buffsize hsize
      (((env.file_content file).drop
        (if env.fseek file mimeinfo.fpos = true then (([] : List Event), mimeinfo.fpos.toNat)
          else ([seek_error], 0)).2).length + 1)
      ((env.file_content file).drop
        (if env.fseek file mimeinfo.fpos = true then (([] : List Event), mimeinfo.fpos.toNat)
          else ([seek_error], 0)).2) (Nat.lt_succ_self _)
    rw [hn]
    refine ⟨_, _, rfl, ?_⟩
    by_cases hseek : env.fseek file mimeinfo.fpos = true
    · simp [hseek]
    · simp [hseek]
  · simp only [hm, if_false]
    exact ⟨[], 0, rfl, Or.inl rfl⟩

/-- On closed acyclic parent links, with fuel above the rank of the part of
the row, the handler returns. -/
theorem selected_total (env : Env) (fuel : Nat) (n : Nat) (s : State) (row : Row)
    (partinfo : MimeInfo) (rank : Nat → Nat)
    (hrow : s.view.ctree[n]? = some row) (hp : s.heap[row.data]? = some partinfo)
    (hacyc : ParentAcyclic s.heap rank) (hfuel : rank row.data < fuel) :
    ∃ s1, mimeview_selected env fuel (some n) s = some s1 := by
  by_cases hopen : s.view.opened = some n
  · exact ⟨s, by simp [mimeview_selected, hopen]⟩
  · rw [selected_dispatch env fuel (some n) s row.data partinfo hopen (row_data_of_row hrow) hp]
    split
    · have hlt : row.data < s.heap.length := (List.getElem?_eq_some.1 hp).1
      obtain ⟨fname, hfile⟩ := display_file_total env s rank hacyc fuel row.data hlt hfuel
      have hu := ungrab_frame env (set_opened s (some n))
      have hfile2 : display_file env (ungrab env (set_opened s (some n))) fuel row.data =
          some fname := by
        rw [display_file_congr env s _ fuel row.data hu.1 (by rw [hu.2]; rfl)]
        exact hfile
      have hp2 : (ungrab env (set_opened s (some n))).heap[row.data]? = some partinfo := by
        rw [hu.1]
        exact hp
      obtain ⟨s1, hs1, _⟩ :=
        show_message_part_type env fuel _ row.data partinfo fname hfile2 hp2
      exact ⟨s1, hs1⟩
    · split
      · exact ⟨_, rfl⟩
      · exact ⟨_, rfl⟩

theorem linkOk_set (h : Heap) (rank : Nat → Nat) (sig : Nat) (part : MimeInfo) (p : Nat)
    (l : Option Nat) : linkOk (h.set sig part) rank p l = linkOk h rank p l := by
  cases l <;> simp [linkOk]

/-- Storing a signature status in a part changes no link: the part graph
stays closed and acyclic. -/
theorem acyclic_set_status (h : Heap) (rank : Nat → Nat) (sig : Nat) (part : MimeInfo)
    (status full : Option String) (hsig : h[sig]? = some part) (hwf : Acyclic h rank) :
    Acyclic (h.set sig { part with sigstatus := status, sigstatus_full := full }) rank := by
  intro p hp
  rw [List.length_set] at hp
  have hok := hwf p hp
  unfold nodeOk at hok ⊢
  by_cases hps : sig = p
  · subst hps
    rw [hsig] at hok
    simpa [List.getElem?_set, hp, linkOk_set] using hok
  · simpa [List.getElem?_set, hps, linkOk_set] using hok

theorem parent_acyclic_set_status (h : Heap) (rank : Nat → Nat) (sig : Nat)
    (part : MimeInfo) (status full : Option String) (hsig : h[sig]? = some part)
    (hwf : ParentAcyclic h rank) :
    ParentAcyclic (h.set sig { part with sigstatus := status, sigstatus_full := full })
      rank := by
  intro p hp
  rw [List.length_set] at hp
  have hok := hwf p hp
  unfold parentOk at hok ⊢
  by_cases hps : sig = p
  · subst hps
    rw [hsig] at hok
    simpa [List.getElem?_set, hp, linkOk_set] using hok
  · simpa [List.getElem?_set, hps, linkOk_set] using hok

/-- What `set_unchecked_signature` leaves: the links of the part graph are
untouched, and the part `rfc2015_find_signature` names carries the fixed
status text and no detailed status. -/
theorem set_unchecked_spec (env : Env) (h : Heap) (root : Nat) (rank rank2 : Nat → Nat)
    (hvalid : ∀ sig, env.rfc2015_find_signature h root = some sig → sig < h.length) :
    ∃ h2, set_unchecked_signature env h root = some h2 ∧ h2.length = h.length ∧
      (Acyclic h rank → Acyclic h2 rank) ∧
      (ParentAcyclic h rank2 → ParentAcyclic h2 rank2) ∧
      ∀ sig, env.rfc2015_find_signature h root = some sig →
        ∃ part, h2[sig]? = some part ∧ part.sigstatus = some unchecked_status ∧
          part.sigstatus_full = none := by
  unfold set_unchecked_signature
  cases hfind : env.rfc2015_find_signature h root with
  | none => exact ⟨h, rfl, rfl, id, id, fun sig hs => by cases hs⟩
  | some sig =>
    have hlt := hvalid sig hfind
    have hget : h[sig]? = some h[sig] := List.getElem?_eq_getElem hlt
    simp only [hget]
    refine ⟨_, rfl, List.length_set _ _ _,
      acyclic_set_status h rank sig h[sig] _ _ hget,
      parent_acyclic_set_status h rank2 sig h[sig] _ _ hget, ?_⟩
    intro sig2 hs
    cases hs
    refine ⟨{ h[sig] with sigstatus := some unchecked_status, sigstatus_full := none },
      ?_, rfl, rfl⟩
    simp [List.getElem?_set, hlt]

/-- The end of `mimeview_show_message` returns on a cleared view over a
closed acyclic part graph, for every fuel from some bound on; it leaves the
arena and the bound file as they were and adds only calls of the selection
and the focus grab to the trace. -/
theorem show_message_tree_total (env : Env) (s : State) (root : Nat)
    (rank rank2 : Nat → Nat) (hctree : s.view.ctree = []) (hopened : s.view.opened = none)
    (hwf : Acyclic s.heap rank) (hpar : ParentAcyclic s.heap rank2)
    (hroot : root < s.heap.length) :
    ∃ fuel0, ∀ fuel, fuel0 ≤ fuel → ∃ s1,
      show_message_tree env fuel s root = some s1 ∧ s1.heap = s.heap ∧
      s1.view.file = s.view.file ∧
      ∃ evs, s1.trace = s.trace ++ evs ∧
        ∀ e ∈ evs, e.fromSelection = true ∨ e = .gtk_widget_grab_focus := by
  obtain ⟨out, hrun⟩ := run_total env s.heap rank hwf root hroot none []
  obtain ⟨f1, hf1⟩ := fuel_of_run env s.heap _ _ _ _ hrun
  cases hout : out with
  | nil =>
    refine ⟨f1, fun fuel hle => ?_⟩
    have hexec := hf1 fuel hle
    simp only [exec, hout] at hexec
    refine ⟨{ s with view := { s.view with ctree := [] } }, ?_, rfl, rfl, [], by simp, by simp⟩
    unfold show_message_tree
    rw [hctree, hexec]
  | cons r0 rest =>
    have hshown : RowShown s.heap r0 := by
      rcases run_rows_shown hrun r0 (by rw [hout]; exact List.mem_cons_self _ _) with hnil | hs
      · cases hnil
      · exact hs
    obtain ⟨partinfo, hget, _⟩ := hshown
    refine ⟨max f1 (rank2 r0.data + 1), fun fuel hle => ?_⟩
    have hexec := hf1 fuel (le_trans (le_max_left _ _) hle)
    simp only [exec, hout] at hexec
    have hfuel : rank2 r0.data < fuel := by
      have := le_trans (le_max_right f1 (rank2 r0.data + 1)) hle
      omega
    obtain ⟨s2, hs2⟩ := selected_total env fuel 0
      { s with view := { s.view with ctree := r0 :: rest } } r0 partinfo rank2
      (by simp) hget hpar hfuel
    have hframe := selected_frame env fuel (some 0) _ s2 hs2
    obtain ⟨evs, hevs, hcls⟩ := selected_grows env fuel (some 0)
      { s with view := { s.view with ctree := r0 :: rest } } s2
      (by simp [hopened]) hs2
    refine ⟨s2.emit .gtk_widget_grab_focus, ?_, hframe.1, hframe.2.1,
      (.gtk_ctree_node_moveto (some 0) :: evs) ++ [.gtk_widget_grab_focus], ?_, ?_⟩
    · unfold show_message_tree
      rw [hctree, hexec]
      simp only [hs2]
    · simp [hevs]
    · intro e he
      simp only [List.cons_append, List.mem_cons, List.mem_append, List.mem_singleton] at he
      rcases he with rfl | he | rfl | he
      · exact Or.inl rfl
      · exact Or.inl (hcls e he)
      · exact Or.inr rfl
      · cases he

theorem fromSelection_not_check (e : Event) (h : e.fromSelection = true) :
    e.isCheck = false := by
  cases e <;> simp_all [Event.fromSelection, Event.isCheck]

/-! ## Claims on message display -/

/-- C15: with signature support, automatic checking disabled and a source
file that opens, `show_message` returns (when the scanned part graph is
closed and acyclic, the buffer holds at least two bytes, and the fuel is
above some bound) with the source file bound, without a call of the
verification, and with the part that `find_signature(root)` names in the
scanned graph, if any, carrying the fixed status text "not yet checked"
(never an absent status) and no detailed status. -/
theorem show_message_unchecked (env : Env) (s : State) (root : Nat) (file : String)
    (rootinfo : MimeInfo) (rank rank2 : Nat → Nat)
    (hgpg : env.use_gpgme = true) (hauto : env.auto_check_signatures = false)
    (hopen : env.fopen file = true) (hbuf : 2 ≤ env.buffsize)
    (hroot : s.heap[root]? = some rootinfo)
    (hscan : ∀ offset,
      Acyclic (env.procmime_scan_multipart_message s.heap root file offset) rank ∧
      ParentAcyclic (env.procmime_scan_multipart_message s.heap root file offset) rank2 ∧
      root < (env.procmime_scan_multipart_message s.heap root file offset).length ∧
      ∀ sig, env.rfc2015_find_signature
          (env.procmime_scan_multipart_message s.heap root file offset) root = some sig →
        sig < (env.procmime_scan_multipart_message s.heap root file offset).length) :
    ∃ offset fuel0, ∀ fuel, fuel0 ≤ fuel → ∃ s1,
      mimeview_show_message env fuel s (some root) (some file) = some s1 ∧
      s1.view.file = some file ∧
      (∀ sig, env.rfc2015_find_signature
          (env.procmime_scan_multipart_message s.heap root file offset) root = some sig →
        ∃ part, s1.heap[sig]? = some part ∧ part.sigstatus = some unchecked_status ∧
          part.sigstatus_full = none) ∧
      (∀ e ∈ s1.trace, e.isCheck = true → e ∈ s.trace) := by
  obtain ⟨calls, offset, hskip, hcalls⟩ :=
    skip_headers_total env file rootinfo (.perror "fseek") hbuf
  obtain ⟨hA, hP, hR, hV⟩ := hscan offset
  obtain ⟨h2, hset, hlen, hA2, hP2, hsig⟩ :=
    set_unchecked_spec env (env.procmime_scan_multipart_message s.heap root file offset)
      root rank rank2 hV
  obtain ⟨fuel0, htree⟩ := show_message_tree_total env
    { heap := h2,
      view := { mimeinfo := some root, file := some file, opened := none,
                type := s.view.type, ctree := [], vbox := s.view.vbox },
      trace := s.trace ++ [.procmime_mimeinfo_free_all s.view.mimeinfo] ++
        [.textview_clear] ++ [.fopen file] ++ calls ++
        [.procmime_scan_multipart_message root file offset] ++ [.fclose file] }
    root rank rank2 rfl rfl (hA2 hA) (hP2 hP) (by rw [hlen]; exact hR)
  refine ⟨offset, fuel0, fun fuel hle => ?_⟩
  obtain ⟨s1, hs1, hheap, hfile, evs, hevs, hcls⟩ := htree fuel hle
  refine ⟨s1, ?_, hfile, ?_, ?_⟩
  · unfold mimeview_show_message
    simp only [mimeview_clear, State.emit, hopen, hroot, hskip, show_message_signature,
      hgpg, hauto, hset, if_true, Bool.false_eq_true, if_false]
    exact hs1
  · intro sig hfind
    rw [hheap]
    exact hsig sig hfind
  · intro e he hcheck
    rw [hevs] at he
    simp only [List.mem_append, List.mem_singleton] at he
    rcases he with ((((((he | rfl) | rfl) | rfl) | he) | rfl) | rfl) | he
    · exact he
    · cases hcheck
    · cases hcheck
    · cases hcheck
    · rcases hcalls with hc | hc
      · rw [hc] at he
        cases he
      · rw [hc] at he
        simp only [List.mem_singleton] at he
        subst he
        cases hcheck
    · cases hcheck
    · cases hcheck
    · rcases hcls e he with hsel | rfl
      · rw [fromSelection_not_check e hsel] at hcheck
        cases hcheck
      · cases hcheck

/-- C15 on the sample message, shown over the view that displayed the
image: the signature part 5 ends with the fixed status text. -/
theorem show_message_unchecked_witness :
    signedEnv.use_gpgme = true ∧ signedEnv.auto_check_signatures = false ∧
    signedEnv.fopen "/new" = true ∧
    (mimeview_show_message signedEnv 10 imageOpenState (some 0) (some "/new")).map
        (fun s => (s.heap[5]?).map (fun m => (m.sigstatus, m.sigstatus_full))) =
      some (some (some unchecked_status, none)) ∧
    ∃ offset fuel0, ∀ fuel, fuel0 ≤ fuel → ∃ s1,
      mimeview_show_message signedEnv fuel imageOpenState (some 0) (some "/new") = some s1 ∧
      s1.view.file = some "/new" ∧
      (∀ sig, signedEnv.rfc2015_find_signature
          (signedEnv.procmime_scan_multipart_message imageOpenState.heap 0 "/new" offset)
          0 = some sig →
        ∃ part, s1.heap[sig]? = some part ∧ part.sigstatus = some unchecked_status ∧
          part.sigstatus_full = none) ∧
      (∀ e ∈ s1.trace, e.isCheck = true → e ∈ imageOpenState.trace) :=
  ⟨rfl, rfl, rfl, by decide,
    show_message_unchecked signedEnv imageOpenState 0 "/new"
      { blankPart .MIME_MULTIPART with
          content_type := some "multipart/mixed", children := some 1 }
      (fun p => 6 - p) (fun p => p) rfl rfl rfl (by decide) (by decide)
      (fun _ => by
        show Acyclic sampleHeap (fun p => 6 - p) ∧ ParentAcyclic sampleHeap (fun p => p) ∧
          0 < sampleHeap.length ∧ ∀ sig, some 5 = some sig → sig < sampleHeap.length
        refine ⟨by decide, by decide, by decide, ?_⟩
        intro sig hs
        cases hs
        decide)⟩

/-! ## Drag export and save -/

/-- The result of `after_last` is the final path segment. -/
theorem after_last_final (sep : Char) (name : List Char) :
    FinalSegment sep name (after_last sep name) := by
  induction name with
  | nil => exact ⟨by simp [after_last], Or.inr ⟨by simp, rfl⟩⟩
  | cons c rest ih =>
    rw [after_last]
    by_cases hmem : sep ∈ rest
    · simp only [hmem, if_true]
      refine ⟨ih.1, Or.inl ?_⟩
      rcases ih.2 with ⟨front, hfront⟩ | ⟨hnot, _⟩
      · exact ⟨c :: front, by rw [List.cons_append, ← hfront]⟩
      · exact absurd hmem hnot
    · simp only [hmem, if_false]
      by_cases hc : c = sep
      · simp only [hc, if_true]
        exact ⟨hmem, Or.inl ⟨[], rfl⟩⟩
      · simp only [hc, if_false]
        have hnot : sep ∉ c :: rest := by
          intro h
          rcases List.mem_cons.1 h with h | h
          · exact hc h.symm
          · exact hmem h
        exact ⟨hnot, Or.inr ⟨hnot, rfl⟩⟩

theorem g_basename_final (name : String) :
    FinalSegment G_DIR_SEPARATOR name.toList (g_basename name).toList :=
  after_last_final G_DIR_SEPARATOR name.toList

/-! ## Claims on drag export and save -/

/-- In drag export every call of the extractor gets as artifact path the
temporary directory, the separator, and the final path segment of the file
name of the open part when it has one and of its name otherwise; the
segment is not empty and contains no separator. -/
theorem drag_data_get_path (env : Env) (s s1 : State)
    (hrun : mimeview_drag_data_get env s = some s1) :
    ∃ evs, s1.trace = s.trace ++ evs ∧
      ∀ out infile p, Event.procmime_get_part out infile p ∈ evs →
        ∃ partinfo name,
          gtk_ctree_node_get_row_data s.view.ctree s.view.opened = some p ∧
          s.heap[p]? = some partinfo ∧
          (∀ f, partinfo.filename = some f → name = f) ∧
          (partinfo.filename = none → partinfo.name = some name) ∧
          out = env.get_mime_tmp_dir ++ G_DIR_SEPARATOR_S ++ g_basename name ∧
          g_basename name ≠ "" ∧
          G_DIR_SEPARATOR ∉ (g_basename name).toList ∧
          FinalSegment G_DIR_SEPARATOR name.toList (g_basename name).toList := by
  unfold mimeview_drag_data_get at hrun
  cases hopen : s.view.opened with
  | none =>
    simp only [hopen, Option.some.injEq] at hrun
    subst hrun
    exact ⟨[], by simp, fun _ _ _ h => by cases h⟩
  | some n =>
    cases hfile : s.view.file with
    | none =>
      simp only [hopen, hfile, Option.some.injEq] at hrun
      subst hrun
      exact ⟨[], by simp, fun _ _ _ h => by cases h⟩
    | some file =>
      cases hdata : gtk_ctree_node_get_row_data s.view.ctree (some n) with
      | none =>
        simp only [hopen, hfile, hdata, Option.some.injEq] at hrun
        subst hrun
        exact ⟨[], by simp, fun _ _ _ h => by cases h⟩
      | some p =>
        cases hp : s.heap[p]? with
        | none => simp [hopen, hfile, hdata, hp] at hrun
        | some partinfo =>
          cases hname : filename_or_name partinfo with
          | none =>
            simp only [hopen, hfile, hdata, hp, hname, Option.some.injEq] at hrun
            subst hrun
            exact ⟨[], by simp, fun _ _ _ h => by cases h⟩
          | some name =>
            by_cases hbase : g_basename name = ""
            · simp only [hopen, hfile, hdata, hp, hname, hbase, if_true,
                Option.some.injEq] at hrun
              subst hrun
              exact ⟨[], by simp, fun _ _ _ h => by cases h⟩
            · simp only [hopen, hfile, hdata, hp, hname, hbase, if_false,
                Option.some.injEq] at hrun
              have hsrc : (∀ f, partinfo.filename = some f → name = f) ∧
                  (partinfo.filename = none → partinfo.name = some name) := by
                unfold filename_or_name at hname
                cases hf : partinfo.filename with
                | none =>
                  rw [hf] at hname
                  exact ⟨fun f h => (nomatch h), fun _ => hname⟩
                | some f0 =>
                  rw [hf] at hname
                  cases hname
                  exact ⟨fun f h => (Option.some.inj h), fun h => (nomatch h)⟩
              have hfound : ∀ out infile q,
                  Event.procmime_get_part out infile q =
                    Event.procmime_get_part
                      (env.get_mime_tmp_dir ++ G_DIR_SEPARATOR_S ++ g_basename name)
                      (some file) p →
                  ∃ partinfo name,
                    some p = some q ∧ s.heap[q]? = some partinfo ∧
                    (∀ f, partinfo.filename = some f → name = f) ∧
                    (partinfo.filename = none → partinfo.name = some name) ∧
                    out = env.get_mime_tmp_dir ++ G_DIR_SEPARATOR_S ++ g_basename name ∧
                    g_basename name ≠ "" ∧
                    G_DIR_SEPARATOR ∉ (g_basename name).toList ∧
                    FinalSegment G_DIR_SEPARATOR name.toList (g_basename name).toList := by
                intro out infile q heq
                injection heq with h1 h2 h3
                subst h1 h3
                exact ⟨partinfo, name, rfl, hp, hsrc.1, hsrc.2, rfl, hbase,
                  (g_basename_final name).1, g_basename_final name⟩
              by_cases hfail : env.procmime_get_part
                  (env.get_mime_tmp_dir ++ G_DIR_SEPARATOR_S ++ g_basename name)
                  (some file) p < 0
              · simp only [hfail, if_true] at hrun
                subst hrun
                refine ⟨[.procmime_get_part
                    (env.get_mime_tmp_dir ++ G_DIR_SEPARATOR_S ++ g_basename name)
                    (some file) p,
                  .alertpanel_error "Can't save the part of multipart message.",
                  .gtk_selection_data_set
                    ("file:/" ++ (env.get_mime_tmp_dir ++ G_DIR_SEPARATOR_S ++
                      g_basename name))], by simp, ?_⟩
                intro out infile q hmem
                simp only [List.mem_cons, List.mem_singleton, List.not_mem_nil,
                  or_false] at hmem
                rcases hmem with h | h | h
                · exact hfound out infile q h
                · cases h
                · cases h
              · simp only [hfail, if_false] at hrun
                subst hrun
                refine ⟨[.procmime_get_part
                    (env.get_mime_tmp_dir ++ G_DIR_SEPARATOR_S ++ g_basename name)
                    (some file) p,
                  .gtk_selection_data_set
                    ("file:/" ++ (env.get_mime_tmp_dir ++ G_DIR_SEPARATOR_S ++
                      g_basename name))], by simp, ?_⟩
                intro out infile q hmem
                simp only [List.mem_cons, List.mem_singleton, List.not_mem_nil,
                  or_false] at hmem
                rcases hmem with h | h
                · exact hfound out infile q h
                · cases h

/-- C17: `save_as` calls the extractor only on the target the file
selection returned, and, when that target exists, only after the overwrite
prompt was shown and answered with OK. When the file selection is
cancelled, or the target exists and the prompt is answered otherwise, no
call of the extractor is made. The arena and the view are unchanged. -/
theorem save_as_confirmed (env : Env) (s s1 : State)
    (hrun : mimeview_save_as env s = some s1) :
    ∃ evs, s1.trace = s.trace ++ evs ∧ s1.heap = s.heap ∧ s1.view = s.view ∧
      (∀ out infile p, Event.procmime_get_part out infile p ∈ evs →
        (∃ partinfo, s.heap[p]? = some partinfo ∧
          env.filesel_select_file "Save as" (filename_or_name partinfo) = some out) ∧
        (env.is_file_exist out = true →
          env.alertpanel "Overwrite" "Overwrite existing file?" = .G_ALERTDEFAULT ∧
          ∃ front back, evs = front ++ Event.procmime_get_part out infile p :: back ∧
            Event.alertpanel "Overwrite" "Overwrite existing file?" ∈ front)) ∧
      (∀ p partinfo,
        gtk_ctree_node_get_row_data s.view.ctree s.view.opened = some p →
        s.heap[p]? = some partinfo →
        (env.filesel_select_file "Save as" (filename_or_name partinfo) = none ∨
          ∃ f, env.filesel_select_file "Save as" (filename_or_name partinfo) = some f ∧
            env.is_file_exist f = true ∧
            env.alertpanel "Overwrite" "Overwrite existing file?" ≠ .G_ALERTDEFAULT) →
        ∀ e ∈ evs, e.isExtract = false) := by
  unfold mimeview_save_as at hrun
  cases hopen : s.view.opened with
  | none =>
    simp only [hopen, Option.some.injEq] at hrun
    subst hrun
    refine ⟨[], by simp, rfl, rfl, ?_, ?_⟩
    · intro _ _ _ h
      cases h
    · intro _ _ _ _ _ _ h
      cases h
  | some n =>
    cases hfile : s.view.file with
    | none =>
      simp only [hopen, hfile, Option.some.injEq] at hrun
      subst hrun
      refine ⟨[], by simp, rfl, rfl, ?_, ?_⟩
      · intro _ _ _ h
        cases h
      · intro _ _ _ _ _ _ h
        cases h
    | some file =>
      cases hdata : gtk_ctree_node_get_row_data s.view.ctree (some n) with
      | none =>
        simp only [hopen, hfile, hdata, Option.some.injEq] at hrun
        subst hrun
        refine ⟨[], by simp, rfl, rfl, ?_, ?_⟩
        · intro _ _ _ h
          cases h
        · intro _ _ _ _ _ _ h
          cases h
      | some p =>
        cases hp : s.heap[p]? with
        | none => simp [hopen, hfile, hdata, hp] at hrun
        | some partinfo =>
          simp only [hopen, hfile, hdata, hp] at hrun
          cases hsel : env.filesel_select_file "Save as" (filename_or_name partinfo) with
          | none =>
            simp only [hsel, Option.some.injEq] at hrun
            subst hrun
            refine ⟨[.filesel_select_file "Save as" (filename_or_name partinfo)],
              by simp, rfl, rfl, ?_, ?_⟩
            · intro out infile q hmem
              simp only [List.mem_singleton] at hmem
              cases hmem
            · intro _ _ _ _ _ e he
              simp only [List.mem_singleton] at he
              subst he
              rfl
          | some filename =>
            simp only [hsel] at hrun
            by_cases hexist : env.is_file_exist filename = true
            · by_cases hans : env.alertpanel "Overwrite" "Overwrite existing file?" =
                  .G_ALERTDEFAULT
              · simp only [hexist, hans, if_true, ne_eq, not_true_eq_false, and_false,
                  if_false] at hrun
                have hmain : ∀ back : List Event, (∀ e ∈ back, e.isExtract = false) →
                    (∀ out infile q, Event.procmime_get_part out infile q ∈
                        [Event.filesel_select_file "Save as" (filename_or_name partinfo),
                          Event.alertpanel "Overwrite" "Overwrite existing file?",
                          Event.procmime_get_part filename (some file) p] ++ back →
                      (∃ partinfo, s.heap[q]? = some partinfo ∧
                        env.filesel_select_file "Save as" (filename_or_name partinfo) =
                          some out) ∧
                      (env.is_file_exist out = true →
                        env.alertpanel "Overwrite" "Overwrite existing file?" =
                          .G_ALERTDEFAULT ∧
                        ∃ front back2,
                          [Event.filesel_select_file "Save as" (filename_or_name partinfo),
                            Event.alertpanel "Overwrite" "Overwrite existing file?",
                            Event.procmime_get_part filename (some file) p] ++ back =
                            front ++ Event.procmime_get_part out infile q :: back2 ∧
                          Event.alertpanel "Overwrite" "Overwrite existing file?" ∈
                            front)) := by
                  intro back hback out infile q hmem
                  simp only [List.cons_append, List.nil_append, List.mem_cons] at hmem
                  rcases hmem with h | h | h | h
                  · cases h
                  · cases h
                  · injection h with h1 h2 h3
                    subst h1 h2 h3
                    exact ⟨⟨partinfo, hp, hsel⟩, fun _ => ⟨hans,
                      [Event.filesel_select_file "Save as" (filename_or_name partinfo),
                        Event.alertpanel "Overwrite" "Overwrite existing file?"],
                      back, by simp, by simp⟩⟩
                  · have := hback _ h
                    simp [Event.isExtract] at this
                have hno : ∀ (q : Nat) (pi : MimeInfo),
                    some p = some q → s.heap[q]? = some pi →
                    (env.filesel_select_file "Save as" (filename_or_name pi) = none ∨
                      ∃ f, env.filesel_select_file "Save as" (filename_or_name pi) = some f ∧
                        env.is_file_exist f = true ∧
                        env.alertpanel "Overwrite" "Overwrite existing file?" ≠
                          .G_ALERTDEFAULT) → False := by
                  intro q pi hq hpi hcase
                  cases hq
                  rw [hp] at hpi
                  cases hpi
                  rcases hcase with hnone | ⟨f, _, _, hne⟩
                  · rw [hsel] at hnone
                    cases hnone
                  · exact hne hans
                by_cases hfail : env.procmime_get_part filename (some file) p < 0
                · simp only [hfail, if_true, Option.some.injEq] at hrun
                  subst hrun
                  refine ⟨[.filesel_select_file "Save as" (filename_or_name partinfo),
                      .alertpanel "Overwrite" "Overwrite existing file?",
                      .procmime_get_part filename (some file) p] ++
                      [.alertpanel_error "Can't save the part of multipart message."],
                    by simp, rfl, rfl, hmain _ (by simp [Event.isExtract]), ?_⟩
                  intro q pi hq hpi hcase
                  exact (hno q pi hq hpi hcase).elim
                · simp only [hfail, if_false, Option.some.injEq] at hrun
                  subst hrun
                  refine ⟨[.filesel_select_file "Save as" (filename_or_name partinfo),
                      .alertpanel "Overwrite" "Overwrite existing file?",
                      .procmime_get_part filename (some file) p] ++ [],
                    by simp, rfl, rfl, hmain _ (by simp), ?_⟩
                  intro q pi hq hpi hcase
                  exact (hno q pi hq hpi hcase).elim
              · simp only [hexist, hans, if_true, ne_eq, not_false_eq_true, and_self,
                  Option.some.injEq] at hrun
                subst hrun
                refine ⟨[.filesel_select_file "Save as" (filename_or_name partinfo),
                    .alertpanel "Overwrite" "Overwrite existing file?"],
                  by simp, rfl, rfl, ?_, ?_⟩
                · intro out infile q hmem
                  simp only [List.mem_cons, List.mem_singleton, List.not_mem_nil,
                    or_false] at hmem
                  rcases hmem with h | h
                  · cases h
                  · cases h
                · intro _ _ _ _ _ e he
                  simp only [List.mem_cons, List.mem_singleton, List.not_mem_nil,
                    or_false] at he
                  rcases he with rfl | rfl
                  · rfl
                  · rfl
            · simp only [hexist, false_and, if_false, Bool.false_eq_true] at hrun
              have hmain : ∀ back : List Event, (∀ e ∈ back, e.isExtract = false) →
                  (∀ out infile q, Event.procmime_get_part out infile q ∈
                      [Event.filesel_select_file "Save as" (filename_or_name partinfo),
                        Event.procmime_get_part filename (some file) p] ++ back →
                    (∃ partinfo, s.heap[q]? = some partinfo ∧
                      env.filesel_select_file "Save as" (filename_or_name partinfo) =
                        some out) ∧
                    (env.is_file_exist out = true →
                      env.alertpanel "Overwrite" "Overwrite existing file?" =
                        .G_ALERTDEFAULT ∧
                      ∃ front back2,
                        [Event.filesel_select_file "Save as" (filename_or_name partinfo),
                          Event.procmime_get_part filename (some file) p] ++ back =
                          front ++ Event.procmime_get_part out infile q :: back2 ∧
                        Event.alertpanel "Overwrite" "Overwrite existing file?" ∈
                          front)) := by
                intro back hback out infile q hmem
                simp only [List.cons_append, List.nil_append, List.mem_cons] at hmem
                rcases hmem with h | h | h
                · cases h
                · injection h with h1 h2 h3
                  subst h1 h2 h3
                  exact ⟨⟨partinfo, hp, hsel⟩, fun hex => absurd hex hexist⟩
                · have := hback _ h
                  simp [Event.isExtract] at this
              have hno : ∀ (q : Nat) (pi : MimeInfo),
                  some p = some q → s.heap[q]? = some pi →
                  (env.filesel_select_file "Save as" (filename_or_name pi) = none ∨
                    ∃ f, env.filesel_select_file "Save as" (filename_or_name pi) = some f ∧
                      env.is_file_exist f = true ∧
                      env.alertpanel "Overwrite" "Overwrite existing file?" ≠
                        .G_ALERTDEFAULT) → False := by
                intro q pi hq hpi hcase
                cases hq
                rw [hp] at hpi
                cases hpi
                rcases hcase with hnone | ⟨f, hf, hfe, _⟩
                · rw [hsel] at hnone
                  cases hnone
                · rw [hsel] at hf
                  cases hf
                  exact hexist hfe
              by_cases hfail : env.procmime_get_part filename (some file) p < 0
              · simp only [hfail, if_true, Option.some.injEq] at hrun
                subst hrun
                refine ⟨[.filesel_select_file "Save as" (filename_or_name partinfo),
                    .procmime_get_part filename (some file) p] ++
                    [.alertpanel_error "Can't save the part of multipart message."],
                  by simp, rfl, rfl, hmain _ (by simp [Event.isExtract]), ?_⟩
                intro q pi hq hpi hcase
                exact (hno q pi hq hpi hcase).elim
              · simp only [hfail, if_false, Option.some.injEq] at hrun
                subst hrun
                refine ⟨[.filesel_select_file "Save as" (filename_or_name partinfo),
                    .procmime_get_part filename (some file) p] ++ [],
                  by simp, rfl, rfl, hmain _ (by simp), ?_⟩
                intro q pi hq hpi hcase
                exact (hno q pi hq hpi hcase).elim

/-- C17 on the sample view with the attachment open and an existing
target "/home/a.bin": with the prompt answered OK the extractor is called
once, after the prompt; the statement of C17 holds of that run. -/
theorem save_as_confirmed_witness :
    mimeview_save_as saveOkEnv attachmentOpenState = some saveDoneState ∧
    saveDoneState.trace.filter Event.isExtract =
      attachmentOpenState.trace.filter Event.isExtract ++
        [.procmime_get_part "/home/a.bin" (some "/msg") 5] ∧
    mimeview_save_as saveCancelEnv attachmentOpenState = some saveCancelledState ∧
    saveCancelledState.trace.filter Event.isExtract =
      attachmentOpenState.trace.filter Event.isExtract ∧
    ∃ evs, saveDoneState.trace = attachmentOpenState.trace ++ evs ∧
      saveDoneState.heap = attachmentOpenState.heap ∧
      saveDoneState.view = attachmentOpenState.view ∧
      (∀ out infile p, Event.procmime_get_part out infile p ∈ evs →
        (∃ partinfo, attachmentOpenState.heap[p]? = some partinfo ∧
          saveOkEnv.filesel_select_file "Save as" (filename_or_name partinfo) = some out) ∧
        (saveOkEnv.is_file_exist out = true →
          saveOkEnv.alertpanel "Overwrite" "Overwrite existing file?" = .G_ALERTDEFAULT ∧
          ∃ front back, evs = front ++ Event.procmime_get_part out infile p :: back ∧
            Event.alertpanel "Overwrite" "Overwrite existing file?" ∈ front)) ∧
      (∀ p partinfo,
        gtk_ctree_node_get_row_data attachmentOpenState.view.ctree
          attachmentOpenState.view.opened = some p →
        attachmentOpenState.heap[p]? = some partinfo →
        (saveOkEnv.filesel_select_file "Save as" (filename_or_name partinfo) = none ∨
          ∃ f, saveOkEnv.filesel_select_file "Save as" (filename_or_name partinfo) = some f ∧
            saveOkEnv.is_file_exist f = true ∧
            saveOkEnv.alertpanel "Overwrite" "Overwrite existing file?" ≠ .G_ALERTDEFAULT) →
        ∀ e ∈ evs, e.isExtract = false) :=
  ⟨by decide, by decide, by decide, by decide,
    save_as_confirmed saveOkEnv attachmentOpenState saveDoneState (by decide)⟩


/-! ## Where the artifact path leads -/

theorem path_components_ne_nil (sep : Char) (l : List Char) : path_components sep l ≠ [] := by
  cases l with
  | nil => simp [path_components]
  | cons c rest =>
    rw [path_components]
    split
    · simp
    · split <;> simp

theorem path_components_append (sep : Char) (a b : List Char) :
    path_components sep (a ++ sep :: b) = path_components sep a ++ path_components sep b := by
  induction a with
  | nil => simp [path_components]
  | cons c rest ih =>
    rw [List.cons_append, path_components, path_components, ih]
    by_cases hc : c = sep
    · simp [hc]
    · simp only [hc, if_false]
      cases hrest : path_components sep rest with
      | nil => exact absurd hrest (path_components_ne_nil sep rest)
      | cons seg segs => simp

theorem path_components_single (sep : Char) (seg : List Char) (hseg : sep ∉ seg) :
    path_components sep seg = [seg] := by
  induction seg with
  | nil => rfl
  | cons c rest ih =>
    simp only [List.mem_cons, not_or] at hseg
    rw [path_components, ih hseg.2]
    simp [show ¬ (c = sep) from fun h => hseg.1 h.symm]

/-- A path made of a directory, the separator and one name that is not
empty, has no separator and is neither "." nor ".." names an entry directly
inside that directory. -/
theorem direct_entry_of_segment (dir seg : String)
    (hsep : G_DIR_SEPARATOR ∉ seg.toList) (hne : seg ≠ "") (hdot : seg ≠ ".")
    (hdots : seg ≠ "..") :
    DirectEntry dir (dir ++ G_DIR_SEPARATOR_S ++ seg) := by
  have hlist : (dir ++ G_DIR_SEPARATOR_S ++ seg).toList =
      dir.toList ++ G_DIR_SEPARATOR :: seg.toList := by
    simp [G_DIR_SEPARATOR_S, G_DIR_SEPARATOR, String.toList]
  have hstep : resolve_step (resolve dir) seg.toList = resolve dir ++ [seg.toList] := by
    have h1 : seg.toList ≠ [] := fun h => hne (String.ext h)
    have h2 : seg.toList ≠ ['.'] := fun h => hdot (String.ext h)
    have h3 : seg.toList ≠ ['.', '.'] := fun h => hdots (String.ext h)
    unfold resolve_step
    rw [if_neg (by rintro (h | h); exact h1 h; exact h2 h), if_neg h3]
  have hres : resolve (dir ++ G_DIR_SEPARATOR_S ++ seg) = resolve dir ++ [seg.toList] := by
    unfold resolve
    rw [hlist, path_components_append, path_components_single _ _ hsep, List.foldl_append]
    exact hstep
  unfold DirectEntry
  rw [hres]
  simp

/-- C16, the claim as stated fails: on the sample view with an open
attachment whose file name is "x/..", the final segment is "..", not empty
and without separator, and the extractor is handed "/tmp/mime/..", which
does not name an entry inside the temporary directory "/tmp/mime" but its
parent directory. -/
theorem drag_dot_segment_counterexample :
    gtk_ctree_node_get_row_data dotsState.view.ctree dotsState.view.opened = some 5 ∧
    (dotsState.heap[5]?).map MimeInfo.filename = some (some "x/..") ∧
    g_basename "x/.." = ".." ∧
    okEnv.get_mime_tmp_dir = "/tmp/mime" ∧
    (mimeview_drag_data_get okEnv dotsState).map
        (fun s => s.trace.drop dotsState.trace.length) =
      some [.procmime_get_part "/tmp/mime/.." (some "/msg") 5,
        .gtk_selection_data_set "file://tmp/mime/.."] ∧
    resolve "/tmp/mime/.." = resolve "/tmp" ∧
    ¬ DirectEntry "/tmp/mime" "/tmp/mime/.." := by
  decide

/-- C16 as amended: in drag export every call of the extractor gets as
artifact path the temporary directory, the separator, and the final path
segment of the file name of the open part when it has one and of its name
otherwise; the segment is not empty and contains no separator, and when it
is neither "." nor ".." the path names an entry directly inside the
temporary directory. -/
theorem drag_data_get_entry (env : Env) (s s1 : State)
    (hrun : mimeview_drag_data_get env s = some s1) :
    ∃ evs, s1.trace = s.trace ++ evs ∧
      ∀ out infile p, Event.procmime_get_part out infile p ∈ evs →
        ∃ partinfo name,
          gtk_ctree_node_get_row_data s.view.ctree s.view.opened = some p ∧
          s.heap[p]? = some partinfo ∧
          (∀ f, partinfo.filename = some f → name = f) ∧
          (partinfo.filename = none → partinfo.name = some name) ∧
          out = env.get_mime_tmp_dir ++ G_DIR_SEPARATOR_S ++ g_basename name ∧
          g_basename name ≠ "" ∧
          G_DIR_SEPARATOR ∉ (g_basename name).toList ∧
          FinalSegment G_DIR_SEPARATOR name.toList (g_basename name).toList ∧
          (g_basename name ≠ "." → g_basename name ≠ ".." →
            DirectEntry env.get_mime_tmp_dir out) := by
  obtain ⟨evs, htrace, hall⟩ := drag_data_get_path env s s1 hrun
  refine ⟨evs, htrace, ?_⟩
  intro out infile p hmem
  obtain ⟨partinfo, name, hdata, hp, hf, hn, hout, hne, hsep, hfinal⟩ := hall out infile p hmem
  refine ⟨partinfo, name, hdata, hp, hf, hn, hout, hne, hsep, hfinal, ?_⟩
  intro hdot hdots
  rw [hout]
  exact direct_entry_of_segment env.get_mime_tmp_dir (g_basename name) hsep hne hdot hdots

/-- C16 as amended on the sample view with the attachment open, whose file
name is "../../etc/a.bin": the extractor gets "/tmp/mime/a.bin", an entry
of the temporary directory. -/
theorem drag_data_get_entry_witness :
    mimeview_drag_data_get okEnv dragState = some dragDoneState ∧
    DirectEntry "/tmp/mime" "/tmp/mime/a.bin" ∧
    ∃ evs, dragDoneState.trace = dragState.trace ++ evs ∧
      ∀ out infile p, Event.procmime_get_part out infile p ∈ evs →
        ∃ partinfo name,
          gtk_ctree_node_get_row_data dragState.view.ctree dragState.view.opened = some p ∧
          dragState.heap[p]? = some partinfo ∧
          (∀ f, partinfo.filename = some f → name = f) ∧
          (partinfo.filename = none → partinfo.name = some name) ∧
          out = okEnv.get_mime_tmp_dir ++ G_DIR_SEPARATOR_S ++ g_basename name ∧
          g_basename name ≠ "" ∧
          G_DIR_SEPARATOR ∉ (g_basename name).toList ∧
          FinalSegment G_DIR_SEPARATOR name.toList (g_basename name).toList ∧
          (g_basename name ≠ "." → g_basename name ≠ ".." →
            DirectEntry okEnv.get_mime_tmp_dir out) :=
  ⟨by decide, by decide, drag_data_get_entry okEnv dragState dragDoneState (by decide)⟩


/-! ### The default branch of the selection handler -/

theorem show_other_part_trace (env : Env) (s : State) (p : Nat) (partinfo : MimeInfo) :
    (show_other_part env s p partinfo).trace =
      s.trace ++ switch_events s.view.type .MIMEVIEW_TEXT ++
        [other_renderer env p partinfo] := by
  unfold show_other_part other_renderer
  split <;> simp only [emit_trace, change_view_type_trace]

theorem show_other_part_type (env : Env) (s : State) (p : Nat) (partinfo : MimeInfo) :
    (show_other_part env s p partinfo).view.type = .MIMEVIEW_TEXT := by
  unfold show_other_part
  split <;> simp only [emit_view] <;> exact change_view_type_type _ _ (Or.inl rfl)

/-- The run of the selection handler on a row whose part is not text-class
and not an Image with the image renderer available: the default branch. -/
theorem select_default (env : Env) (fuel n : Nat) (s : State) (row : Row)
    (partinfo : MimeInfo) (hopen : s.view.opened ≠ some n)
    (hrow : s.view.ctree[n]? = some row) (hp : s.heap[row.data]? = some partinfo)
    (hclass : text_class partinfo.mime_type = false)
    (himg : ¬ (partinfo.mime_type = .MIME_IMAGE ∧ env.have_image = true)) :
    ∃ s1, select env fuel n s = some s1 ∧ s1.view.type = .MIMEVIEW_TEXT ∧
      s1.trace = s.trace ++ [.gtk_ctree_node_moveto (some n)] ++ ungrab_events env ++
        switch_events s.view.type .MIMEVIEW_TEXT ++
        [other_renderer env row.data partinfo] := by
  have hu := ungrab_frame env (set_opened s (some n))
  have htype : (ungrab env (set_opened s (some n))).view.type = s.view.type := by
    rw [hu.2]; rfl
  refine ⟨show_other_part env (ungrab env (set_opened s (some n))) row.data partinfo,
    ?_, show_other_part_type _ _ _ _, ?_⟩
  · unfold select
    rw [selected_dispatch env fuel (some n) s row.data partinfo hopen (row_data_of_row hrow) hp]
    simp [hclass, himg]
  · rw [show_other_part_trace, ungrab_trace, set_opened_trace, htype]

/-- C18, the claim as stated fails: in a build without image support,
selecting the Image part of the sample view (row 2, part 4) from mode None
ends in mode Text, and the only calls made are the move to the row, the
two container calls and the generic renderer: no error is reported. -/
theorem select_image_unavailable_counterexample :
    noImageEnv.have_image = false ∧
    sampleState.view.opened ≠ some 2 ∧
    (sampleState.view.ctree[2]?).map Row.data = some 4 ∧
    (sampleState.heap[4]?).map MimeInfo.mime_type = some .MIME_IMAGE ∧
    sampleState.view.type = .MIMEVIEW_NONE ∧
    (select noImageEnv 10 2 sampleState).map (fun s => (s.view.type, s.trace)) =
      some (.MIMEVIEW_TEXT,
        [.gtk_ctree_node_moveto (some 2), .gtk_container_remove .imageview,
         .gtk_container_add .textview, .textview_show_mime_part 4]) ∧
    (select noImageEnv 10 2 sampleState).map (fun s => s.trace.any Event.isError) =
      some false := by
  decide

/-- C18 as amended: in a build without image support, selecting a row
whose part is an Image (and is not the open one) takes the default branch:
the mode becomes Text, the calls made are the move to the row, the ungrab
calls, the container calls of the mode switch and one renderer of the
default branch; no error is reported and the extractor is not called. When
the part has a content type that differs from "application/pgp-signature"
under `g_strcasecmp`, or signature support is not configured, the renderer
is the generic one. -/
theorem select_image_unavailable (env : Env) (fuel n : Nat) (s : State) (row : Row)
    (partinfo : MimeInfo) (himg : env.have_image = false)
    (hopen : s.view.opened ≠ some n) (hrow : s.view.ctree[n]? = some row)
    (hp : s.heap[row.data]? = some partinfo)
    (hclass : partinfo.mime_type = .MIME_IMAGE) :
    ∃ s1 r, select env fuel n s = some s1 ∧ s1.view.type = .MIMEVIEW_TEXT ∧
      s1.trace = s.trace ++ [.gtk_ctree_node_moveto (some n)] ++ ungrab_events env ++
        switch_events s.view.type .MIMEVIEW_TEXT ++ [r] ∧
      (r = .textview_show_mime_part row.data ∨
        r = .textview_show_signature_part row.data) ∧
      (env.use_gpgme = false ∨
        (∃ ct, partinfo.content_type = some ct ∧
          g_strcasecmp (some ct) "application/pgp-signature" ≠ 0) →
        r = .textview_show_mime_part row.data) ∧
      (∀ e ∈ [Event.gtk_ctree_node_moveto (some n)] ++ ungrab_events env ++
          switch_events s.view.type .MIMEVIEW_TEXT ++ [r],
        e.isError = false ∧ e.isExtract = false) := by
  obtain ⟨s1, hsel, htype, htrace⟩ := select_default env fuel n s row partinfo hopen hrow hp
    (by simp [hclass, text_class]) (by simp [himg])
  refine ⟨s1, other_renderer env row.data partinfo, hsel, htype, htrace, ?_, ?_, ?_⟩
  · unfold other_renderer
    split
    · exact Or.inr rfl
    · exact Or.inl rfl
  · intro hcase
    unfold other_renderer
    rcases hcase with hg | ⟨ct, hct, hne⟩
    · simp [hg]
    · simp [hct, hne]
  · intro e he
    simp only [List.mem_append, List.mem_singleton] at he
    rcases he with ((he | he) | he) | he
    · subst he
      exact ⟨rfl, rfl⟩
    · unfold ungrab_events at he
      split at he
      · split at he
        · simp only [List.mem_cons, List.mem_singleton, List.not_mem_nil, or_false] at he
          rcases he with rfl | rfl <;> exact ⟨rfl, rfl⟩
        · simp only [List.mem_cons, List.not_mem_nil, or_false] at he
          subst he
          exact ⟨rfl, rfl⟩
      · cases he
    · unfold switch_events at he
      split at he
      · cases he
      · simp only [List.mem_cons, List.mem_singleton, List.not_mem_nil, or_false] at he
        rcases he with rfl | rfl <;> exact ⟨rfl, rfl⟩
    · subst he
      unfold other_renderer
      split <;> exact ⟨rfl, rfl⟩

/-- C18 as amended on the sample view: without image support the Image
part of row 2 is shown by the generic renderer in mode Text. -/
theorem select_image_unavailable_witness :
    noImageEnv.have_image = false ∧ sampleState.view.opened ≠ some 2 ∧
    ∃ s1 r, select noImageEnv 10 2 sampleState = some s1 ∧
      s1.view.type = .MIMEVIEW_TEXT ∧
      s1.trace = sampleState.trace ++ [.gtk_ctree_node_moveto (some 2)] ++
        ungrab_events noImageEnv ++
        switch_events sampleState.view.type .MIMEVIEW_TEXT ++ [r] ∧
      (r = .textview_show_mime_part 4 ∨ r = .textview_show_signature_part 4) ∧
      (noImageEnv.use_gpgme = false ∨
        (∃ ct, (some "image/png" : Option String) = some ct ∧
          g_strcasecmp (some ct) "application/pgp-signature" ≠ 0) →
        r = .textview_show_mime_part 4) ∧
      (∀ e ∈ [Event.gtk_ctree_node_moveto (some 2)] ++ ungrab_events noImageEnv ++
          switch_events sampleState.view.type .MIMEVIEW_TEXT ++ [r],
        e.isError = false ∧ e.isExtract = false) :=
  ⟨rfl, by decide,
    select_image_unavailable noImageEnv 10 2 sampleState
      { parent := some 1, str := { mimetype := "image/png", size := "1B", name := "" },
        data := 4 }
      { blankPart .MIME_IMAGE with content_type := some "image/png", parent := some 3 }
      rfl (by decide) (by decide) (by decide) rfl⟩

theorem char_toNat_inj {a b : Char} (h : a.toNat = b.toNat) : a = b := by
  apply Char.ext
  apply UInt32.ext
  exact h

/-- On strings without a NUL character (as C strings are) the comparison
loop of `g_strcasecmp` gives 0 exactly when the two strings are equal
ignoring case. -/
theorem g_strcasecmp_chars_eq_zero :
    ∀ a b : List Char, (∀ c ∈ a, c.toNat ≠ 0) → (∀ c ∈ b, c.toNat ≠ 0) →
      (g_strcasecmp_chars a b = 0 ↔ a.map Char.toLower = b.map Char.toLower)
  | [], [], _, _ => by simp [g_strcasecmp_chars]
  | [], c2 :: r2, _, hb => by
    have := hb c2 (List.mem_cons_self _ _)
    simp only [g_strcasecmp_chars, List.map_nil, List.map_cons]
    constructor
    · intro h
      omega
    · intro h
      cases h
  | c1 :: r1, [], ha, _ => by
    have := ha c1 (List.mem_cons_self _ _)
    simp only [g_strcasecmp_chars, List.map_nil, List.map_cons]
    constructor
    · intro h
      omega
    · intro h
      cases h
  | c1 :: r1, c2 :: r2, ha, hb => by
    have ih := g_strcasecmp_chars_eq_zero r1 r2
      (fun c hc => ha c (List.mem_cons_of_mem _ hc))
      (fun c hc => hb c (List.mem_cons_of_mem _ hc))
    simp only [g_strcasecmp_chars, List.map_cons, List.cons.injEq]
    by_cases hc : c1.toLower = c2.toLower
    · simp only [hc, if_true, true_and]
      exact ih
    · simp only [hc, if_false, false_and, iff_false]
      intro h
      apply hc
      apply char_toNat_inj
      omega

/-- The default branch on a part that has a content type: the renderer is
the signature-explanation one when signature support is configured and the
content type compares equal to "application/pgp-signature" under
`g_strcasecmp`, and the generic one otherwise. -/
theorem other_renderer_typed (env : Env) (p : Nat) (partinfo : MimeInfo) (ct : String)
    (hct : partinfo.content_type = some ct) :
    other_renderer env p partinfo =
      if env.use_gpgme = true ∧
          g_strcasecmp_chars ct.toList "application/pgp-signature".toList = 0 then
        .textview_show_signature_part p
      else .textview_show_mime_part p := by
  unfold other_renderer g_strcasecmp
  simp only [hct, Bool.and_eq_true, decide_eq_true_eq]

/-- C19 at a part without content type: with signature support
configured, selecting the attachment of `untypedState` (row 0, part 1,
classification OctetStream, `content_type` unset) sets the mode to Text and
calls the signature-explanation renderer, not the generic one. -/
theorem select_untyped_part :
    okEnv.use_gpgme = true ∧
    untypedState.view.opened ≠ some 0 ∧
    (untypedState.view.ctree[0]?).map Row.data = some 1 ∧
    (untypedState.heap[1]?).map MimeInfo.mime_type = some .MIME_APPLICATION_OCTET_STREAM ∧
    (untypedState.heap[1]?).map MimeInfo.content_type = some none ∧
    (select okEnv 10 0 untypedState).map (fun s => (s.view.type, s.trace)) =
      some (.MIMEVIEW_TEXT,
        [.gtk_ctree_node_moveto (some 0), .gtk_container_remove .imageview,
         .gtk_container_add .textview, .textview_show_signature_part 1]) := by
  decide


/-! ### The file shown for a text-class part -/

/-- The loop of `mimeview_show_message_part` stops at the nearest node of
the parent chain that has a decoded plaintext artifact, and leaves the
chain only when no node has one. -/
theorem plaintext_owner_spec (h : Heap) :
    ∀ (fuel p : Nat) (r : Option Nat), plaintext_owner h fuel (some p) = some r →
      (∀ q, r = some q → ∃ mimeinfo fname, h[q]? = some mimeinfo ∧
        mimeinfo.plaintextfile = some fname ∧ NearestPlaintext h p fname) ∧
      (r = none → NoPlaintext h p) := by
  intro fuel
  induction fuel with
  | zero => intro p r hrun; simp [plaintext_owner] at hrun
  | succ fuel ih =>
    intro p r hrun
    rw [plaintext_owner] at hrun
    cases hget : h[p]? with
    | none => simp [hget] at hrun
    | some mimeinfo =>
      simp only [hget] at hrun
      cases hpl : mimeinfo.plaintextfile with
      | some fname =>
        simp only [hpl, Option.isSome_some, if_true, Option.some.injEq] at hrun
        subst hrun
        constructor
        · intro q hq
          cases hq
          refine ⟨mimeinfo, fname, hget, hpl, 0, p, mimeinfo, rfl, hget, hpl, ?_⟩
          intro j _ _ hj
          exact absurd hj (Nat.not_lt_zero _)
        · intro hnone
          cases hnone
      | none =>
        simp only [hpl, Option.isSome_none, Bool.false_eq_true, if_false] at hrun
        have hzero : ∀ q2 mimeinfo2, nth_parent h 0 p = some q2 →
            h[q2]? = some mimeinfo2 → mimeinfo2.plaintextfile = none := by
          intro q2 mimeinfo2 hq2 hm2
          simp only [nth_parent, Option.some.injEq] at hq2
          subst hq2
          rw [hget] at hm2
          cases hm2
          exact hpl
        cases hpar : mimeinfo.parent with
        | none =>
          rw [hpar] at hrun
          simp only [plaintext_owner, Option.some.injEq] at hrun
          subst hrun
          constructor
          · intro q hq
            cases hq
          · intro _ k q mimeinfo2 hk hm2
            cases k with
            | zero => exact hzero q mimeinfo2 hk hm2
            | succ k => simp [nth_parent, hget, hpar] at hk
        | some parent =>
          rw [hpar] at hrun
          obtain ⟨hsome, hnone⟩ := ih parent r hrun
          constructor
          · intro q hq
            obtain ⟨mi, fname, hmi, hf, k, q1, mi1, hk, hmi1, hf1, hnear⟩ := hsome q hq
            refine ⟨mi, fname, hmi, hf, k + 1, q1, mi1, ?_, hmi1, hf1, ?_⟩
            · simp only [nth_parent, hget, hpar]
              exact hk
            · intro j q2 mimeinfo2 hj hq2 hm2
              cases j with
              | zero => exact hzero q2 mimeinfo2 hq2 hm2
              | succ j =>
                simp only [nth_parent, hget, hpar] at hq2
                exact hnear j q2 mimeinfo2 (by omega) hq2 hm2
          · intro hr k q mimeinfo2 hk hm2
            cases k with
            | zero => exact hzero q mimeinfo2 hk hm2
            | succ k =>
              simp only [nth_parent, hget, hpar] at hk
              exact hnone hr k q mimeinfo2 hk hm2

/-- C20: with signature support configured, on closed acyclic parent
links and with enough fuel, `mimeview_show_message_part` on a part returns,
and the file it resolves for display is the decoded plaintext artifact of
the nearest node on the parent chain starting at the part itself that has
one, and the source file of the view exactly when no node on that chain
has one. Only that file is opened. A call of the text renderer is made
only on the stream of that file after a successful seek to the offset
`fpos` of the part, and it is made whenever the file is present, opens and
the seek succeeds; the trace of that run is given in full. -/
theorem show_message_part_file (env : Env) (s : State) (rank : Nat → Nat)
    (fuel p : Nat) (partinfo : MimeInfo) (hgpg : env.use_gpgme = true)
    (hacyc : ParentAcyclic s.heap rank) (hfuel : rank p < fuel)
    (hp : s.heap[p]? = some partinfo) :
    ∃ fname s1 evs, display_file env s fuel p = some fname ∧
      mimeview_show_message_part env fuel s (some p) = some s1 ∧
      s1.trace = s.trace ++ evs ∧
      ((∃ f, fname = some f ∧ NearestPlaintext s.heap p f) ∨
        (NoPlaintext s.heap p ∧ fname = s.view.file)) ∧
      (∀ f, Event.fopen f ∈ evs → fname = some f) ∧
      (∀ q f pos, Event.textview_show_part q f pos ∈ evs →
        q = p ∧ fname = some f ∧ pos = partinfo.fpos ∧ env.fopen f = true ∧
        env.fseek f partinfo.fpos = true) ∧
      (∀ f, fname = some f → env.fopen f = true → env.fseek f partinfo.fpos = true →
        evs = [.fopen f] ++ switch_events s.view.type .MIMEVIEW_TEXT ++
          [.textview_show_part p f partinfo.fpos, .fclose f]) := by
  have hlen : p < s.heap.length := by
    rcases Nat.lt_or_ge p s.heap.length with h | h
    · exact h
    · rw [List.getElem?_eq_none h] at hp
      cases hp
  obtain ⟨r, hr, hvalid⟩ := plaintext_owner_total s.heap rank hacyc fuel p hlen hfuel
  obtain ⟨hsome, hnone⟩ := plaintext_owner_spec s.heap fuel p r hr
  have hfile : ∃ fname, display_file env s fuel p = some fname ∧
      ((∃ f, fname = some f ∧ NearestPlaintext s.heap p f) ∨
        (NoPlaintext s.heap p ∧ fname = s.view.file)) := by
    unfold display_file
    simp only [hgpg, if_true, hr]
    cases r with
    | none => exact ⟨s.view.file, rfl, Or.inr ⟨hnone rfl, rfl⟩⟩
    | some q =>
      obtain ⟨mimeinfo, f, hq, hf, hnear⟩ := hsome q rfl
      simp only [hq]
      exact ⟨mimeinfo.plaintextfile, rfl, Or.inl ⟨f, hf, hnear⟩⟩
  obtain ⟨fname, hdisp, hwhich⟩ := hfile
  cases fname with
  | none =>
    refine ⟨none, s, [], hdisp, ?_, by simp, hwhich, ?_, ?_, ?_⟩
    · unfold mimeview_show_message_part
      simp only [hdisp]
    · intro f h
      cases h
    · intro q f pos h
      cases h
    · intro f h
      cases h
  | some f0 =>
    cases hopen : env.fopen f0 with
    | false =>
      refine ⟨some f0, (s.emit (.fopen f0)).emit (.file_op_error (some f0) "fopen"),
        [.fopen f0, .file_op_error (some f0) "fopen"], hdisp, ?_, by simp, hwhich,
        ?_, ?_, ?_⟩
      · unfold mimeview_show_message_part
        simp only [hdisp, hopen]
      · intro f h
        simp only [List.mem_cons, List.mem_singleton, List.not_mem_nil, or_false] at h
        rcases h with h | h
        · cases h
          rfl
        · cases h
      · intro q f pos h
        simp only [List.mem_cons, List.mem_singleton, List.not_mem_nil, or_false] at h
        rcases h with h | h <;> cases h
      · intro f hf hopen2
        cases hf
        rw [hopen] at hopen2
        cases hopen2
    | true =>
      cases hseek : env.fseek f0 partinfo.fpos with
      | false =>
        refine ⟨some f0,
          ((s.emit (.fopen f0)).emit (.file_op_error s.view.file "fseek")).emit (.fclose f0),
          [.fopen f0, .file_op_error s.view.file "fseek", .fclose f0], hdisp, ?_, by simp,
          hwhich, ?_, ?_, ?_⟩
        · unfold mimeview_show_message_part
          simp only [hdisp, hopen, hp, hseek]
        · intro f h
          simp only [List.mem_cons, List.mem_singleton, List.not_mem_nil, or_false] at h
          rcases h with h | h | h
          · cases h
            rfl
          · cases h
          · cases h
        · intro q f pos h
          simp only [List.mem_cons, List.mem_singleton, List.not_mem_nil, or_false] at h
          rcases h with h | h | h <;> cases h
        · intro f hf _ hseek2
          cases hf
          rw [hseek] at hseek2
          cases hseek2
      | true =>
        refine ⟨some f0,
          ((mimeview_change_view_type (s.emit (.fopen f0)) .MIMEVIEW_TEXT).emit
            (.textview_show_part p f0 partinfo.fpos)).emit (.fclose f0),
          [.fopen f0] ++ switch_events s.view.type .MIMEVIEW_TEXT ++
            [.textview_show_part p f0 partinfo.fpos, .fclose f0], hdisp, ?_, ?_,
          hwhich, ?_, ?_, ?_⟩
        · unfold mimeview_show_message_part
          simp only [hdisp, hopen, hp, hseek]
        · simp only [emit_trace, change_view_type_trace, emit_view]
          simp
        · intro f h
          simp only [List.mem_append, List.mem_cons, List.mem_singleton, List.not_mem_nil,
            or_false] at h
          rcases h with (h | h) | h | h
          · cases h
            rfl
          · unfold switch_events at h
            split at h
            · cases h
            · simp only [List.mem_cons, List.mem_singleton, List.not_mem_nil, or_false] at h
              rcases h with h | h <;> cases h
          · cases h
          · cases h
        · intro q f pos h
          simp only [List.mem_append, List.mem_cons, List.mem_singleton, List.not_mem_nil,
            or_false] at h
          rcases h with (h | h) | h | h
          · cases h
          · unfold switch_events at h
            split at h
            · cases h
            · simp only [List.mem_cons, List.mem_singleton, List.not_mem_nil, or_false] at h
              rcases h with h | h <;> cases h
          · cases h
            exact ⟨rfl, rfl, rfl, hopen, hseek⟩
          · cases h
        · intro f hf _ _
          cases hf
          rfl

/-- C20 on the decrypted sample: the text part at offset 120 is shown from
the plaintext artifact "/tmp/plain" of its parent, not from the source file
"/msg". -/
theorem show_message_part_file_witness :
    okEnv.use_gpgme = true ∧ ParentAcyclic decryptedState.heap (fun p => p) ∧
    display_file okEnv decryptedState 5 1 = some (some "/tmp/plain") ∧
    (mimeview_show_message_part okEnv 5 decryptedState (some 1)).map (fun s => s.trace) =
      some [.fopen "/tmp/plain", .gtk_container_remove .imageview,
        .gtk_container_add .textview, .textview_show_part 1 "/tmp/plain" 120,
        .fclose "/tmp/plain"] ∧
    ∃ fname s1 evs, display_file okEnv decryptedState 5 1 = some fname ∧
      mimeview_show_message_part okEnv 5 decryptedState (some 1) = some s1 ∧
      s1.trace = decryptedState.trace ++ evs ∧
      ((∃ f, fname = some f ∧ NearestPlaintext decryptedState.heap 1 f) ∨
        (NoPlaintext decryptedState.heap 1 ∧ fname = decryptedState.view.file)) ∧
      (∀ f, Event.fopen f ∈ evs → fname = some f) ∧
      (∀ q f pos, Event.textview_show_part q f pos ∈ evs →
        q = 1 ∧ fname = some f ∧ pos = (120 : Int) ∧ okEnv.fopen f = true ∧
        okEnv.fseek f 120 = true) ∧
      (∀ f, fname = some f → okEnv.fopen f = true → okEnv.fseek f 120 = true →
        evs = [.fopen f] ++ switch_events decryptedState.view.type .MIMEVIEW_TEXT ++
          [.textview_show_part 1 f 120, .fclose f]) :=
  ⟨rfl, by decide, by decide, by decide,
    show_message_part_file okEnv decryptedState (fun p => p) 5 1
      { blankPart .MIME_TEXT with
        content_type := some "text/plain", parent := some 0, fpos := 120 }
      rfl (by decide) (by decide) (by decide)⟩


/-! ## Signature check on the whole message -/

/-- The walk that sets the row names again returns when every row stands
for a part of the arena; it keeps the parts of the rows and calls only
`gtk_ctree_node_set_text`. -/
theorem update_names_from_total (env : Env) (h : Heap) :
    ∀ (rows : List Row) (node : Nat), (∀ r ∈ rows, r.data < h.length) →
      ∃ rows2 calls, update_names_from env h node rows = some (rows2, calls) ∧
        rows2.map Row.data = rows.map Row.data ∧
        (∀ e ∈ calls, e.isCheck = false) := by
  intro rows
  induction rows with
  | nil => intro node _; exact ⟨[], [], rfl, rfl, fun _ he => by cases he⟩
  | cons r rest ih =>
    intro node hrows
    have hr : r.data < h.length := hrows r (List.mem_cons_self _ _)
    obtain ⟨rows2, calls, hrest, hdata, hcalls⟩ :=
      ih (node + 1) (fun r2 hr2 => hrows r2 (List.mem_cons_of_mem _ hr2))
    refine ⟨{ r with str := { r.str with name := get_part_name env h[r.data] } } :: rows2,
      .gtk_ctree_node_set_text node (get_part_name env h[r.data]) :: calls, ?_, ?_, ?_⟩
    · rw [update_names_from]
      simp only [List.getElem?_eq_getElem hr, hrest]
    · simp [hdata]
    · intro e he
      simp only [List.mem_cons] at he
      rcases he with rfl | he
      · rfl
      · exact hcalls e he

theorem row_data_congr {rows rows2 : List Row} (hdata : rows2.map Row.data = rows.map Row.data)
    (node : Option Nat) :
    gtk_ctree_node_get_row_data rows2 node = gtk_ctree_node_get_row_data rows node := by
  cases node with
  | none => rfl
  | some n =>
    simp only [gtk_ctree_node_get_row_data]
    rw [← List.getElem?_map, ← List.getElem?_map, hdata]

/-- The last step of `mimeview_check_signature` returns when the part of
the open row is in the arena, and calls no verification. -/
theorem update_signature_info_total (s : State)
    (hopen : ∀ p, gtk_ctree_node_get_row_data s.view.ctree s.view.opened = some p →
      p < s.heap.length) :
    ∃ s1 evs, mimeview_update_signature_info s = some s1 ∧ s1.trace = s.trace ++ evs ∧
      ∀ e ∈ evs, e.isCheck = false := by
  unfold mimeview_update_signature_info
  cases ho : s.view.opened with
  | none => exact ⟨s, [], rfl, by simp, fun _ he => by cases he⟩
  | some n =>
    simp only
    rw [ho] at hopen
    cases hdata : gtk_ctree_node_get_row_data s.view.ctree (some n) with
    | none => exact ⟨s, [], rfl, by simp, fun _ he => by cases he⟩
    | some p =>
      have hp := hopen p hdata
      simp only [List.getElem?_eq_getElem hp]
      by_cases hsig : g_strcasecmp s.heap[p].content_type "application/pgp-signature" = 0
      · simp only [hsig, if_true]
        refine ⟨_, switch_events s.view.type .MIMEVIEW_TEXT ++
          [.textview_show_signature_part p], rfl, ?_, ?_⟩
        · simp [change_view_type_trace]
        · intro e he
          simp only [List.mem_append, List.mem_singleton] at he
          rcases he with he | rfl
          · unfold switch_events at he
            split at he
            · cases he
            · simp only [List.mem_cons, List.mem_singleton, List.not_mem_nil, or_false] at he
              rcases he with rfl | rfl <;> rfl
          · rfl
      · simp only [hsig, if_false]
        exact ⟨s, [], rfl, by simp, fun _ he => by cases he⟩

/-- C21: on a view for which `is_signed` holds and whose source file
opens, `check_signature` returns (closed acyclic parent links, fuel above
the rank of the open part, a buffer of at least two bytes, rows standing
for parts of the arena, collaborators that keep the parts in the arena) and
calls the verification exactly once, on the part reached from the open part
by following the parent links up to the part without parent. -/
theorem check_signature_on_root (env : Env) (fuel : Nat) (s : State) (file : String)
    (rank : Nat → Nat)
    (hsigned : mimeview_is_signed env fuel s = some true)
    (hfile : s.view.file = some file) (hopen : env.fopen file = true)
    (hacyc : ParentAcyclic s.heap rank)
    (hfuel : ∀ p, gtk_ctree_node_get_row_data s.view.ctree s.view.opened = some p →
      p < s.heap.length ∧ rank p < fuel)
    (hsize : 2 ≤ env.buffsize)
    (hrows : ∀ r ∈ s.view.ctree, r.data < s.heap.length)
    (hscan : ∀ h m f o, h.length ≤ (env.procmime_scan_multipart_message h m f o).length)
    (hcheck : ∀ h m f, h.length ≤ (env.rfc2015_check_signature h m f).length) :
    ∃ s1 opened root rootinfo evs,
      mimeview_check_signature env fuel s = some s1 ∧
      gtk_ctree_node_get_row_data s.view.ctree s.view.opened = some opened ∧
      OnParentChain s.heap opened root ∧
      s.heap[root]? = some rootinfo ∧ rootinfo.parent = none ∧
      s1.trace = s.trace ++ evs ∧
      evs.filter Event.isCheck = [.rfc2015_check_signature root file] := by
  obtain ⟨p, file2, hdata, hfile2⟩ := is_signed_open env fuel s hsigned
  rw [hfile] at hfile2
  cases hfile2
  obtain ⟨hplt, hpr⟩ := hfuel p hdata
  obtain ⟨root, rootinfo, htop, hroot, hnone, hchain⟩ :=
    top_ancestor_total s.heap rank hacyc fuel p hplt hpr
  obtain ⟨calls, offset, hskip, hcalls⟩ :=
    skip_headers_total env file rootinfo (.file_op_error (some file) "fseek") hsize
  have hlen : s.heap.length ≤
      (env.rfc2015_check_signature
        (env.procmime_scan_multipart_message s.heap root file offset) root file).length :=
    Nat.le_trans (hscan _ _ _ _) (hcheck _ _ _)
  obtain ⟨rows2, names, hnames, hrowdata, hnamecalls⟩ :=
    update_names_from_total env
      (env.rfc2015_check_signature
        (env.procmime_scan_multipart_message s.heap root file offset) root file)
      s.view.ctree 0 (fun r hr => Nat.lt_of_lt_of_le (hrows r hr) hlen)
  obtain ⟨s1, sigevs, hinfo, hsigtrace, hsigcalls⟩ := update_signature_info_total
    { heap := env.rfc2015_check_signature
        (env.procmime_scan_multipart_message s.heap root file offset) root file,
      view := { s.view with ctree := rows2 },
      trace := s.trace ++ [.fopen file] ++ calls ++
        [.procmime_scan_multipart_message root file offset] ++
        [.rfc2015_check_signature root file] ++ [.fclose file] ++ names }
    (by
      intro q hq
      simp only [row_data_congr hrowdata] at hq
      rw [hdata] at hq
      cases hq
      exact Nat.lt_of_lt_of_le hplt hlen)
  refine ⟨s1, p, root, rootinfo,
    [.fopen file] ++ calls ++ [.procmime_scan_multipart_message root file offset] ++
      [.rfc2015_check_signature root file] ++ [.fclose file] ++ names ++ sigevs,
    ?_, hdata, hchain, hroot, hnone, ?_, ?_⟩
  · unfold mimeview_check_signature
    simp only [hsigned, hdata, hfile, htop, hopen, emit_heap, hroot, hskip]
    unfold mimeview_update_names
    simp only [emit_heap, emit_view, emit_trace, hnames]
    rw [← hinfo]
  · rw [hsigtrace]
    simp only [List.append_assoc]
  · have hn : names.filter Event.isCheck = [] := by
      rw [List.filter_eq_nil_iff]
      intro e he
      simp [hnamecalls e he]
    have hs : sigevs.filter Event.isCheck = [] := by
      rw [List.filter_eq_nil_iff]
      intro e he
      simp [hsigcalls e he]
    have hc : calls.filter Event.isCheck = [] := by
      rcases hcalls with rfl | rfl
      · rfl
      · rfl
    simp only [List.filter_append, hn, hs, hc]
    rfl

/-- C21 on the sample view with the nested image part open (part 4, inside
part 3, inside the root 0): the verification is called once, on part 0. -/
theorem check_signature_on_root_witness :
    mimeview_is_signed signedEnv 10 imageOpenState = some true ∧
    signedEnv.fopen "/msg" = true ∧
    ParentAcyclic imageOpenState.heap (fun p => p) ∧
    (mimeview_check_signature signedEnv 10 imageOpenState).map
      (fun s => s.trace.filter Event.isCheck) = some [.rfc2015_check_signature 0 "/msg"] ∧
    ∃ s1 opened root rootinfo evs,
      mimeview_check_signature signedEnv 10 imageOpenState = some s1 ∧
      gtk_ctree_node_get_row_data imageOpenState.view.ctree imageOpenState.view.opened =
        some opened ∧
      OnParentChain imageOpenState.heap opened root ∧
      imageOpenState.heap[root]? = some rootinfo ∧ rootinfo.parent = none ∧
      s1.trace = imageOpenState.trace ++ evs ∧
      evs.filter Event.isCheck = [.rfc2015_check_signature root "/msg"] :=
  ⟨by decide, rfl, by decide, by decide,
    check_signature_on_root signedEnv 10 imageOpenState "/msg" (fun p => p)
      (by decide) rfl rfl (by decide)
      (by
        intro p hp
        have : p = 4 := by
          have h1 : gtk_ctree_node_get_row_data imageOpenState.view.ctree
              imageOpenState.view.opened = some 4 := by decide
          rw [h1] at hp
          exact (Option.some.inj hp).symm
        subst this
        decide)
      (by decide) (by decide) (fun _ _ _ _ => Nat.le_refl _) (fun _ _ _ => Nat.le_refl _)⟩

/-- C24 at a failing seek: on the sample view with the text part open, a
signed root that is a MultipartContainer and a source file that opens but
on which the seek fails, `check_signature` reports the failed seek and goes
on: the structure is scanned again, the verification is called on the root,
and the signature status of part 5, unset before, is the one the
verification recorded. -/
theorem check_signature_seek_failure :
    mimeview_is_signed signedSeekFailEnv 10 textOpenState = some true ∧
    (textOpenState.heap[0]?).map MimeInfo.mime_type = some .MIME_MULTIPART ∧
    signedSeekFailEnv.fopen "/msg" = true ∧
    signedSeekFailEnv.fseek "/msg" 0 = false ∧
    (textOpenState.heap[5]?).map MimeInfo.sigstatus = some none ∧
    (mimeview_check_signature signedSeekFailEnv 10 textOpenState).map
        (fun s => (s.trace.drop textOpenState.trace.length,
          (s.heap[5]?).map MimeInfo.sigstatus)) =
      some ([.fopen "/msg", .file_op_error (some "/msg") "fseek",
          .procmime_scan_multipart_message 0 "/msg" 0,
          .rfc2015_check_signature 0 "/msg", .fclose "/msg",
          .gtk_ctree_node_set_text 0 "", .gtk_ctree_node_set_text 1 "",
          .gtk_ctree_node_set_text 2 "", .gtk_ctree_node_set_text 3 "Good signature"],
        some (some "Good signature")) := by
  decide


/-! ## Header skipping -/

theorem split_lines_cons (c : Char) (rest : List Char) :
    split_lines (c :: rest) =
      first_line (c :: rest) ::
        split_lines ((c :: rest).drop (first_line (c :: rest)).length) := by
  induction rest generalizing c with
  | nil =>
    by_cases hc : c = '\n'
    · simp [split_lines, first_line, hc]
    · simp [split_lines, first_line, hc]
  | cons c2 rest2 ih =>
    by_cases hc : c = '\n'
    · simp [split_lines, first_line, hc]
    · rw [split_lines, first_line]
      simp only [hc, if_false]
      rw [ih c2]
      simp

theorem first_line_head (c : Char) (rest : List Char) :
    (first_line (c :: rest)).head? = some c := by
  rw [first_line]
  split <;> rfl

/-- A call of `fgets` with room for the whole first line stores that
line. -/
theorem fgets_take_first_line (n : Nat) (unread : List Char)
    (hroom : (first_line unread).length ≤ n) : fgets_take n unread = first_line unread := by
  induction n generalizing unread with
  | zero =>
    cases unread with
    | nil => rfl
    | cons c rest =>
      rw [first_line] at hroom
      split at hroom <;> simp at hroom
  | succ n ih =>
    cases unread with
    | nil => rfl
    | cons c rest =>
      rw [fgets_take, first_line]
      rw [first_line] at hroom
      by_cases hc : c = '\n'
      · simp [hc]
      · simp only [hc, if_false, List.length_cons] at hroom ⊢
        rw [ih rest (by omega)]

/-- The lines partition the unread characters. -/
theorem split_lines_length (unread : List Char) :
    ((split_lines unread).map List.length).sum = unread.length := by
  induction unread with
  | nil => rfl
  | cons c rest ih =>
    rw [split_lines]
    by_cases hc : c = '\n'
    · simp only [hc, if_true, List.map_cons, List.sum_cons, List.length_cons,
        List.length_nil]
      omega
    · simp only [hc, if_false]
      cases hs : split_lines rest with
      | nil =>
        rw [hs] at ih
        simp only [List.map_nil, List.sum_nil] at ih
        simp [← ih]
      | cons l ls =>
        rw [hs] at ih
        simp only [List.map_cons, List.sum_cons, List.length_cons] at ih ⊢
        omega

/-- When no line satisfies the test, all characters are counted: the
position is the end of file. -/
theorem after_first_none (stop : List Char → Bool) (lines : List (List Char))
    (hnone : ∀ l ∈ lines, stop l = false) :
    after_first stop lines = (lines.map List.length).sum := by
  induction lines with
  | nil => rfl
  | cons l ls ih =>
    rw [after_first]
    simp only [hnone l (List.mem_cons_self _ _), Bool.false_eq_true, if_false,
      List.map_cons, List.sum_cons]
    rw [ih (fun x hx => hnone x (List.mem_cons_of_mem _ hx))]

/-- When a line satisfies the test, the count ends with the first such
line. -/
theorem after_first_some (stop : List Char → Bool) (front : List (List Char))
    (l : List Char) (back : List (List Char))
    (hfront : ∀ x ∈ front, stop x = false) (hl : stop l = true) :
    after_first stop (front ++ l :: back) = (front.map List.length).sum + l.length := by
  induction front with
  | nil => simp [after_first, hl]
  | cons x xs ih =>
    have hrest := ih (fun y hy => hfront y (List.mem_cons_of_mem _ hy))
    rw [List.cons_append, after_first]
    simp only [hfront x (List.mem_cons_self _ _), Bool.false_eq_true, if_false,
      List.map_cons, List.sum_cons, hrest]
    omega

theorem blank_line_starts (l : List Char) (hl : blank_line l = true) :
    starts_blank l = true := by
  simp only [blank_line, Bool.or_eq_true, beq_iff_eq] at hl
  rcases hl with rfl | rfl <;> decide

theorem fgets_take_replicate (n : Nat) (rest : List Char) :
    fgets_take n (List.replicate n 'a' ++ rest) = List.replicate n 'a' := by
  induction n with
  | zero => cases rest <;> rfl
  | succ n ih =>
    rw [List.replicate_succ, List.cons_append, fgets_take]
    simp only [show ¬ ('a' = '\n') by decide, if_false, ih]

theorem split_lines_replicate (n : Nat) (rest : List Char) :
    split_lines (List.replicate n 'a' ++ '\n' :: rest) =
      (List.replicate n 'a' ++ ['\n']) :: split_lines rest := by
  induction n with
  | zero => simp [split_lines]
  | succ n ih =>
    rw [List.replicate_succ, List.cons_append, split_lines]
    simp only [show ¬ ('a' = '\n') by decide, if_false, ih]
    rfl

/-- A line with `size - 1` characters before its newline is read in two
calls of `fgets`; the second stores the newline alone and ends the header
loop, after `size` characters. -/
theorem skip_long_line (size : Nat) (hsize : 2 ≤ size) (rest : List Char) (fuel : Nat)
    (hfuel : 2 ≤ fuel) :
    skip_header_lines size fuel (List.replicate (size - 1) 'a' ++ '\n' :: rest) =
      some size := by
  obtain ⟨m, rfl⟩ : ∃ m, size = m + 2 := ⟨size - 2, by omega⟩
  obtain ⟨k, rfl⟩ : ∃ k, fuel = k + 2 := ⟨fuel - 2, by omega⟩
  have hfirst : fgets (m + 2) (List.replicate (m + 2 - 1) 'a' ++ '\n' :: rest) =
      some (List.replicate (m + 1) 'a') := by
    show fgets (m + 2) (List.replicate (m + 1) 'a' ++ '\n' :: rest) = _
    rw [List.replicate_succ, List.cons_append, fgets]
    show some (fgets_take (m + 1) ('a' :: (List.replicate m 'a' ++ '\n' :: rest))) = _
    rw [← List.cons_append, ← List.replicate_succ, fgets_take_replicate]
  rw [skip_header_lines, hfirst]
  have hdrop : (List.replicate (m + 2 - 1) 'a' ++ '\n' :: rest).drop
      (List.replicate (m + 1) 'a').length = '\n' :: rest := by
    show (List.replicate (m + 1) 'a' ++ '\n' :: rest).drop _ = _
    rw [List.drop_left]
  simp only [hdrop]
  have hsecond : skip_header_lines (m + 2) (k + 1) ('\n' :: rest) = some 1 := by
    rw [skip_header_lines]
    simp [fgets, fgets_take]
  rw [hsecond]
  simp only [List.replicate_succ, List.head?_cons, Option.some.injEq,
    show ¬ ('a' = '\r') by decide, show ¬ ('a' = '\n') by decide, or_self, if_false,
    List.length_cons, List.length_replicate]

theorem long_line_not_blank (n : Nat) (hn : 1 ≤ n) :
    blank_line (List.replicate n 'a' ++ ['\n']) = false := by
  obtain ⟨m, rfl⟩ : ∃ m, n = m + 1 := ⟨n - 1, by omega⟩
  rw [List.replicate_succ]
  simp [blank_line]

/-- The header loop and the first blank line on a file whose first line
has `size - 1` characters before its newline and is followed by "d" and a
blank line. -/
theorem long_line_positions (env : Env) (file : String) (seek_error : Event) (size : Nat)
    (hsize : 2 ≤ size) (hbuf : env.buffsize = size) (hseek : env.fseek file 0 = true)
    (hcontent : env.file_content file =
      List.replicate (size - 1) 'a' ++ ['\n', 'd', '\n', '\n']) :
    skip_headers env file (blankPart .MIME_MULTIPART) seek_error = some ([], size) ∧
    after_blank_line (env.file_content file) 0 = size + 3 := by
  constructor
  · unfold skip_headers
    simp only [blankPart, if_true, hseek, hcontent, hbuf, Int.toNat_zero, List.drop_zero]
    rw [skip_long_line size hsize _ _ (by simp)]
    simp
  · unfold after_blank_line
    rw [hcontent, List.drop_zero, split_lines_replicate, after_first,
      long_line_not_blank _ (by omega)]
    simp only [Bool.false_eq_true, if_false, List.length_append, List.length_replicate,
      List.length_singleton]
    have hrest : after_first blank_line (split_lines ['d', '\n', '\n']) = 3 := by decide
    rw [hrest]
    omega

/-- C22, the claim as stated fails, on a root that is a MultipartContainer
at offset 0 or 1 and with `BUFFSIZE` 8192. (1) On the content "\rX\n\n" the
loop stops after the first line, which begins with CR and is not blank:
position 3, the first blank line ending at 4. (2) On a first line of 8191
characters and a newline, followed by "d\n\n", the second `fgets` call
stores the newline alone and the loop stops at 8192, the first blank line
ending at 8195. (3) When the seek to offset 1 fails on the content
"\nab\n\n", the lines are read from the start of the file and the stream
stops at 1, the first blank line at or after offset 1 ending at 5. -/
theorem skip_headers_blank_line_counterexample :
    (skip_headers crLineEnv "/msg" (blankPart .MIME_MULTIPART) (.perror "fseek") =
        some ([], 3) ∧
      after_blank_line (crLineEnv.file_content "/msg") 0 = 4) ∧
    (skip_headers longLineEnv "/msg" (blankPart .MIME_MULTIPART) (.perror "fseek") =
        some ([], 8192) ∧
      after_blank_line (longLineEnv.file_content "/msg") 0 = 8195) ∧
    (skip_headers seekFailEnv "/msg" { blankPart .MIME_MULTIPART with fpos := 1 }
        (.perror "fseek") = some ([.perror "fseek"], 1) ∧
      after_blank_line (seekFailEnv.file_content "/msg") 1 = 5) :=
  ⟨⟨by decide, by decide⟩,
    long_line_positions longLineEnv "/msg" (.perror "fseek") okEnv.buffsize (by decide)
      rfl rfl rfl,
    ⟨by decide, by decide⟩⟩

theorem chunk_safe_spec {size : Nat} {l : List Char} (hsafe : chunk_safe size l = true)
    (k : Nat) (hk : k < l.length) :
    l[k * (size - 1)]? ≠ some '\r' ∧ l[k * (size - 1)]? ≠ some '\n' := by
  unfold chunk_safe at hsafe
  rw [List.all_eq_true] at hsafe
  have := hsafe k (List.mem_range.2 hk)
  simpa using this

/-- A call of `fgets` that ends inside the first line stores as many
characters as it has room for, and leaves the rest of that line as the
first line of the stream. -/
theorem fgets_take_inside (m : Nat) :
    ∀ unread : List Char, m < (first_line unread).length →
      (fgets_take m unread).length = m ∧
      split_lines (unread.drop m) =
        (first_line unread).drop m :: split_lines (unread.drop (first_line unread).length) := by
  induction m with
  | zero =>
    intro unread hlen
    cases unread with
    | nil => simp [first_line] at hlen
    | cons c rest =>
      refine ⟨by simp [fgets_take], ?_⟩
      rw [List.drop_zero, List.drop_zero]
      exact split_lines_cons c rest
  | succ m ih =>
    intro unread hlen
    cases unread with
    | nil => simp [first_line] at hlen
    | cons c rest =>
      rw [first_line] at hlen ⊢
      by_cases hc : c = '\n'
      · simp [hc] at hlen
      · simp only [hc, if_false, List.length_cons] at hlen ⊢
        obtain ⟨h1, h2⟩ := ih rest (by omega)
        refine ⟨?_, ?_⟩
        · rw [fgets_take]
          simp only [hc, if_false, List.length_cons, h1]
        · simp only [List.drop_succ_cons]
          exact h2

theorem fgets_take_head (m : Nat) (c : Char) (rest : List Char) :
    (fgets_take (m + 1) (c :: rest)).head? = some c := by
  rw [fgets_take]
  split <;> rfl

theorem chunk_safe_drop {size : Nat} {l : List Char} (hsize : 2 ≤ size)
    (hsafe : chunk_safe size l = true) (hlen : size - 1 < l.length) :
    chunk_safe size (l.drop (size - 1)) = true ∧ blank_line (l.drop (size - 1)) = false := by
  have hm : 1 ≤ size - 1 := by omega
  constructor
  · unfold chunk_safe
    rw [List.all_eq_true]
    intro k hk
    rw [List.mem_range, List.length_drop] at hk
    have hmul : k + 1 ≤ (k + 1) * (size - 1) := Nat.le_mul_of_pos_right _ hm
    have hidx : size - 1 + k * (size - 1) = (k + 1) * (size - 1) := by
      rw [Nat.add_mul, Nat.one_mul, Nat.add_comm]
    have hin := chunk_safe_spec hsafe (k + 1) (by omega)
    rw [List.getElem?_drop, hidx]
    simpa using hin
  · have hin := chunk_safe_spec hsafe 1 (by omega)
    rw [Nat.one_mul] at hin
    cases hd : l.drop (size - 1) with
    | nil => rfl
    | cons x xs =>
      have hx : l[size - 1]? = some x := by
        have := congrArg List.head? hd
        rw [List.head?_drop] at this
        simpa using this
      rw [hx] at hin
      have h1 : x ≠ '\r' := fun h => hin.1 (by rw [h])
      have h2 : x ≠ '\n' := fun h => hin.2 (by rw [h])
      simp [blank_line, h1, h2]

/-- The header loop on a stream whose lines up to the first blank line are
read as lines: it stops immediately after the first blank line, or at end
of file when there is none. -/
theorem skip_header_lines_safe (size : Nat) (hsize : 2 ≤ size) (fuel : Nat) :
    ∀ unread : List Char, unread.length < fuel →
      header_safe size (split_lines unread) = true →
      skip_header_lines size fuel unread =
        some (after_first blank_line (split_lines unread)) := by
  induction fuel with
  | zero => intro unread h; exact absurd h (Nat.not_lt_zero _)
  | succ fuel ih =>
    intro unread hlen hsafe
    cases unread with
    | nil => simp [skip_header_lines, fgets, split_lines, after_first]
    | cons c rest =>
      obtain ⟨m, hm⟩ : ∃ m, size - 1 = m + 1 := ⟨size - 2, by omega⟩
      have hhead : (fgets_take (size - 1) (c :: rest)).head? = some c := by
        rw [hm]
        exact fgets_take_head m c rest
      rw [split_lines_cons] at hsafe ⊢
      rw [skip_header_lines]
      simp only [fgets]
      by_cases hblank : blank_line (first_line (c :: rest)) = true
      · simp only [header_safe, hblank, if_true, decide_eq_true_eq] at hsafe
        have hroom : (first_line (c :: rest)).length ≤ size - 1 := by omega
        have hstart := blank_line_starts _ hblank
        simp only [starts_blank, first_line_head, Bool.or_eq_true, beq_iff_eq,
          Option.some.injEq] at hstart
        rw [fgets_take_first_line _ _ hroom]
        simp only [first_line_head, Option.some.injEq, hstart, if_true, after_first, hblank]
      · simp only [header_safe, hblank, Bool.false_eq_true, if_false,
          Bool.and_eq_true] at hsafe
        obtain ⟨hchunk, hrest⟩ := hsafe
        have hpos : 0 < (first_line (c :: rest)).length := by
          rw [first_line]
          split <;> simp
        have hfirst := chunk_safe_spec hchunk 0 hpos
        rw [Nat.zero_mul, ← List.head?_eq_getElem?, first_line_head] at hfirst
        have hnobreak : ¬ (c = '\r' ∨ c = '\n') := by
          rintro (h | h)
          · exact hfirst.1 (by rw [h])
          · exact hfirst.2 (by rw [h])
        simp only [hhead, Option.some.injEq, hnobreak, if_false, after_first, hblank,
          Bool.false_eq_true]
        by_cases hroom : (first_line (c :: rest)).length ≤ size - 1
        · rw [fgets_take_first_line _ _ hroom]
          rw [ih _ (by
            rw [List.length_drop]
            simp only [List.length_cons] at hlen ⊢
            omega) hrest]
        · have hin := fgets_take_inside (size - 1) (c :: rest) (by omega)
          obtain ⟨hsafe2, hblank2⟩ := chunk_safe_drop hsize hchunk (by omega)
          rw [hin.1]
          rw [ih _ (by
            rw [List.length_drop]
            simp only [List.length_cons] at hlen ⊢
            omega) (by
            rw [hin.2]
            simp only [header_safe, hblank2, Bool.false_eq_true, if_false, hsafe2, hrest,
              Bool.and_self])]
          rw [hin.2, after_first]
          simp only [hblank2, Bool.false_eq_true, if_false, List.length_drop,
            Option.some.injEq]
          omega

/-- Lines that fit the buffer and do not begin with CR or LF unless they
are blank are read as lines. -/
theorem header_safe_of_short (size : Nat) :
    ∀ lines : List (List Char),
      (∀ l ∈ upto_blank lines,
        l.length < size ∧ (starts_blank l = true → blank_line l = true)) →
      header_safe size lines = true := by
  intro lines
  induction lines with
  | nil => intro _; rfl
  | cons l ls ih =>
    intro hshort
    rw [upto_blank] at hshort
    rw [header_safe]
    by_cases hblank : blank_line l = true
    · simp only [hblank, if_true, List.mem_singleton, forall_eq] at hshort
      simp only [hblank, if_true, decide_eq_true_eq]
      exact hshort.1
    · have hmem : ∀ x, x ∈ l :: upto_blank ls → x ∈ (if blank_line l = true then [l]
          else l :: upto_blank ls) := by
        intro x hx
        rw [if_neg hblank]
        exact hx
      obtain ⟨hlen, hstart⟩ := hshort l (hmem l (List.mem_cons_self _ _))
      have hrest : ∀ x ∈ upto_blank ls,
          x.length < size ∧ (starts_blank x = true → blank_line x = true) :=
        fun x hx => hshort x (hmem x (List.mem_cons_of_mem _ hx))
      simp only [hblank, Bool.false_eq_true, if_false, Bool.and_eq_true]
      refine ⟨?_, ih hrest⟩
      have hns : starts_blank l = false := by
        cases hs : starts_blank l with
        | false => rfl
        | true => exact absurd (hstart hs) hblank
      unfold chunk_safe
      rw [List.all_eq_true]
      intro k hk
      rw [List.mem_range] at hk
      cases k with
      | zero =>
        rw [Nat.zero_mul, ← List.head?_eq_getElem?]
        simp only [starts_blank, Bool.or_eq_false_iff, beq_eq_false_iff_ne] at hns
        simp [hns.1, hns.2]
      | succ k =>
        have hout : l.length ≤ (k + 1) * (size - 1) := by
          have : size - 1 ≤ (k + 1) * (size - 1) := Nat.le_mul_of_pos_left _ (Nat.succ_pos k)
          omega
        rw [List.getElem?_eq_none hout]
        rfl

/-- C22 as amended, for the `/* skip headers */` block of both
`mimeview_show_message` and `mimeview_check_signature` (they differ in the
report of a failed seek only). When the root is not a MultipartContainer
nothing is read. When it is, the seek to the offset of the root succeeds,
`BUFFSIZE` is at least 2 and the lines from the offset up to the first
blank line are read as lines (no `fgets` call inside a line before the
first blank line stores CR or LF first, and the blank line fits the
buffer), the stream ends immediately after the first blank line at or
after the offset, or at end of file when there is none. That is so in
particular when each line up to and including the first blank line is
shorter than `BUFFSIZE` and begins with CR or LF only if it is blank,
whatever the lines after the first blank line are. -/
theorem skip_headers_first_blank (env : Env) (file : String) (mimeinfo : MimeInfo)
    (seek_error : Event) :
    (mimeinfo.mime_type ≠ .MIME_MULTIPART →
      skip_headers env file mimeinfo seek_error = some ([], 0)) ∧
    (mimeinfo.mime_type = .MIME_MULTIPART →
      env.fseek file mimeinfo.fpos = true →
      (2 ≤ env.buffsize →
        header_safe env.buffsize
          (split_lines ((env.file_content file).drop mimeinfo.fpos.toNat)) = true →
        skip_headers env file mimeinfo seek_error =
          some ([], after_blank_line (env.file_content file) mimeinfo.fpos.toNat)) ∧
      ((∀ l ∈ upto_blank (split_lines ((env.file_content file).drop mimeinfo.fpos.toNat)),
          l.length < env.buffsize ∧ (starts_blank l = true → blank_line l = true)) →
        skip_headers env file mimeinfo seek_error =
          some ([], after_blank_line (env.file_content file) mimeinfo.fpos.toNat)) ∧
      (∀ front b back,
        split_lines ((env.file_content file).drop mimeinfo.fpos.toNat) = front ++ b :: back →
        (∀ l ∈ front, blank_line l = false) → blank_line b = true →
        after_blank_line (env.file_content file) mimeinfo.fpos.toNat =
          mimeinfo.fpos.toNat + (front.map List.length).sum + b.length) ∧
      ((∀ l ∈ split_lines ((env.file_content file).drop mimeinfo.fpos.toNat),
          blank_line l = false) →
        after_blank_line (env.file_content file) mimeinfo.fpos.toNat =
          mimeinfo.fpos.toNat +
            ((env.file_content file).drop mimeinfo.fpos.toNat).length)) := by
  constructor
  · intro hm
    unfold skip_headers
    simp only [hm, if_false]
  · intro hm hseek
    have hcode : 2 ≤ env.buffsize →
        header_safe env.buffsize
          (split_lines ((env.file_content file).drop mimeinfo.fpos.toNat)) = true →
        skip_headers env file mimeinfo seek_error =
          some ([], after_blank_line (env.file_content file) mimeinfo.fpos.toNat) := by
      intro hsize hsafe
      unfold skip_headers
      simp only [hm, if_true, hseek]
      rw [skip_header_lines_safe env.buffsize hsize _ _ (Nat.lt_succ_self _) hsafe]
      rfl
    refine ⟨hcode, ?_, ?_, ?_⟩
    · intro hshort
      cases hlines : split_lines ((env.file_content file).drop mimeinfo.fpos.toNat) with
      | nil =>
        have hempty : (env.file_content file).drop mimeinfo.fpos.toNat = [] := by
          have hlen := split_lines_length ((env.file_content file).drop mimeinfo.fpos.toNat)
          rw [hlines] at hlen
          exact List.eq_nil_of_length_eq_zero hlen.symm
        unfold skip_headers after_blank_line
        simp only [hm, if_true, hseek, hempty, split_lines, after_first, List.length_nil]
        rfl
      | cons l ls =>
        have hl : l ∈ upto_blank
            (split_lines ((env.file_content file).drop mimeinfo.fpos.toNat)) := by
          rw [hlines, upto_blank]
          split <;> simp
        have hne : l ≠ [] := by
          cases hu : (env.file_content file).drop mimeinfo.fpos.toNat with
          | nil => rw [hu] at hlines; cases hlines
          | cons c rest =>
            rw [hu, split_lines_cons] at hlines
            injection hlines with h1 _
            rw [← h1, first_line]
            split <;> simp
        have hlen := (hshort l hl).1
        have hpos : 0 < l.length := List.length_pos.2 hne
        exact hcode (by omega) (header_safe_of_short env.buffsize _ hshort)
    · intro front b back hlines hfront hb
      unfold after_blank_line
      rw [hlines, after_first_some blank_line front b back hfront hb]
      omega
    · intro hnone
      unfold after_blank_line
      rw [after_first_none blank_line _ hnone, split_lines_length]

/-- C22 as amended on three message files. With `BUFFSIZE` 8192: one header
line, a blank line and a body, the stream stops at 14. With `BUFFSIZE` 16:
a body line of 40 characters after the blank line, the stream stops at 6;
and a header line of 20 characters, read in two calls, the stream stops at
24, after the blank line. -/
theorem skip_headers_first_blank_witness :
    after_blank_line (headerEnv.file_content "/msg") 0 = 14 ∧
    after_blank_line (longBodyEnv.file_content "/msg") 0 = 6 ∧
    after_blank_line (longHeaderEnv.file_content "/msg") 0 = 24 ∧
    skip_headers headerEnv "/msg" (blankPart .MIME_MULTIPART) (.perror "fseek") =
      some ([], after_blank_line (headerEnv.file_content "/msg")
        (blankPart .MIME_MULTIPART).fpos.toNat) ∧
    skip_headers longBodyEnv "/msg" (blankPart .MIME_MULTIPART) (.perror "fseek") =
      some ([], after_blank_line (longBodyEnv.file_content "/msg")
        (blankPart .MIME_MULTIPART).fpos.toNat) ∧
    skip_headers longHeaderEnv "/msg" (blankPart .MIME_MULTIPART) (.perror "fseek") =
      some ([], after_blank_line (longHeaderEnv.file_content "/msg")
        (blankPart .MIME_MULTIPART).fpos.toNat) ∧
    skip_headers headerEnv "/msg" (blankPart .MIME_TEXT) (.perror "fseek") = some ([], 0) :=
  ⟨by decide, by decide, by decide,
    ((skip_headers_first_blank headerEnv "/msg" (blankPart .MIME_MULTIPART)
      (.perror "fseek")).2 rfl rfl).2.1 (by decide),
    ((skip_headers_first_blank longBodyEnv "/msg" (blankPart .MIME_MULTIPART)
      (.perror "fseek")).2 rfl rfl).2.1 (by decide),
    ((skip_headers_first_blank longHeaderEnv "/msg" (blankPart .MIME_MULTIPART)
      (.perror "fseek")).2 rfl rfl).1 (by decide) (by decide),
    (skip_headers_first_blank headerEnv "/msg" (blankPart .MIME_TEXT)
      (.perror "fseek")).1 (by decide)⟩


/-! ## Clearing the view -/

/-- C23: `mimeview_clear` leaves the view with no open row, no rows and no
bound source file, whatever the view held; and when `show_message` takes
one of its failure paths (no file given, no part graph given, or the source
file cannot be opened) it returns with the view in that condition. -/
theorem show_message_failure_clears (env : Env) (fuel : Nat) (s : State)
    (mimeinfo : Option Nat) (file : Option String)
    (hfail : file = none ∨ mimeinfo = none ∨ ∃ f, file = some f ∧ env.fopen f = false) :
    ((mimeview_clear s).view.opened = none ∧ (mimeview_clear s).view.ctree = [] ∧
      (mimeview_clear s).view.file = none) ∧
    ∃ s1, mimeview_show_message env fuel s mimeinfo file = some s1 ∧
      s1.view.opened = none ∧ s1.view.ctree = [] ∧ s1.view.file = none := by
  refine ⟨⟨rfl, rfl, rfl⟩, ?_⟩
  unfold mimeview_show_message
  cases file with
  | none => exact ⟨_, rfl, rfl, rfl, rfl⟩
  | some f =>
    cases mimeinfo with
    | none => exact ⟨_, rfl, rfl, rfl, rfl⟩
    | some m =>
      rcases hfail with h | h | ⟨f2, hf2, hopen⟩
      · cases h
      · cases h
      · cases hf2
        simp only [hopen]
        exact ⟨_, rfl, rfl, rfl, rfl⟩

/-- C23 on the sample view with the text part open, shown a message whose
file cannot be opened. -/
theorem show_message_failure_clears_witness :
    textOpenState.view.opened = some 0 ∧ textOpenState.view.ctree ≠ [] ∧
    textOpenState.view.file = some "/msg" ∧
    ((mimeview_clear textOpenState).view.opened = none ∧
      (mimeview_clear textOpenState).view.ctree = [] ∧
      (mimeview_clear textOpenState).view.file = none) ∧
    ∃ s1, mimeview_show_message unreadableEnv 10 textOpenState (some 0) (some "/msg") =
        some s1 ∧
      s1.view.opened = none ∧ s1.view.ctree = [] ∧ s1.view.file = none :=
  ⟨rfl, by decide, rfl,
    show_message_failure_clears unreadableEnv 10 textOpenState (some 0) (some "/msg")
      (Or.inr (Or.inr ⟨"/msg", rfl, rfl⟩))⟩


/-! ## Drag export -/

/-- C25, the claim as stated fails: on the sample view with an open
attachment that has neither a file name nor a name, the drag is not begun
and the data request returns the state as it was: nothing is extracted and
no payload is set. -/
theorem drag_nameless_counterexample :
    gtk_ctree_node_get_row_data namelessState.view.ctree namelessState.view.opened =
      some 5 ∧
    (namelessState.heap[5]?).map MimeInfo.filename = some none ∧
    (namelessState.heap[5]?).map MimeInfo.name = some none ∧
    namelessState.view.file = some "/msg" ∧
    mimeview_start_drag namelessState = some namelessState ∧
    mimeview_drag_data_get okEnv namelessState = some namelessState := by
  decide

/-- C25 as amended: drag export of an open part that has neither a file
name nor a name does nothing. `mimeview_start_drag` does not begin a drag,
and `mimeview_drag_data_get` returns with the state as it was: the
extractor is not called and no payload is set. -/
theorem drag_nameless_ignored (env : Env) (s : State) (p : Nat) (partinfo : MimeInfo)
    (hdata : gtk_ctree_node_get_row_data s.view.ctree s.view.opened = some p)
    (hp : s.heap[p]? = some partinfo)
    (hfilename : partinfo.filename = none) (hname : partinfo.name = none) :
    mimeview_start_drag s = some s ∧ mimeview_drag_data_get env s = some s := by
  constructor
  · unfold mimeview_start_drag
    simp only [hdata, hp, hfilename, hname, and_self, if_true]
  · unfold mimeview_drag_data_get
    cases hopen : s.view.opened with
    | none => rfl
    | some n =>
      cases hfile : s.view.file with
      | none => rfl
      | some file =>
        rw [hopen] at hdata
        simp only [hdata, hp, filename_or_name, hfilename, hname]

/-- C25 as amended on the sample view with the nameless attachment open. -/
theorem drag_nameless_ignored_witness :
    gtk_ctree_node_get_row_data namelessState.view.ctree namelessState.view.opened =
      some 5 ∧
    mimeview_start_drag namelessState = some namelessState ∧
    mimeview_drag_data_get okEnv namelessState = some namelessState :=
  ⟨by decide,
    drag_nameless_ignored okEnv namelessState 5
      { blankPart .MIME_APPLICATION_OCTET_STREAM with
          content_type := some "application/octet-stream", parent := some 0 }
      (by decide) (by decide) rfl rfl⟩

/-- C30: in `mimeview_drag_data_get`, once a row with a part is open, a
source file is bound and the reduced name is not empty, the calls made are
the extractor on the artifact path, the error report when (and only when)
the extractor fails, and the payload "file:/" followed by the artifact
path, which is set last whatever the extractor returned. -/
theorem drag_payload_always_set (env : Env) (s : State) (n p : Nat) (file name : String)
    (partinfo : MimeInfo)
    (hopen : s.view.opened = some n) (hfile : s.view.file = some file)
    (hdata : gtk_ctree_node_get_row_data s.view.ctree (some n) = some p)
    (hp : s.heap[p]? = some partinfo)
    (hname : filename_or_name partinfo = some name) (hseg : g_basename name ≠ "") :
    ∃ s1, mimeview_drag_data_get env s = some s1 ∧
      s1.heap = s.heap ∧ s1.view = s.view ∧
      s1.trace = s.trace ++
        [.procmime_get_part (env.get_mime_tmp_dir ++ G_DIR_SEPARATOR_S ++ g_basename name)
          (some file) p] ++
        (if env.procmime_get_part
            (env.get_mime_tmp_dir ++ G_DIR_SEPARATOR_S ++ g_basename name) (some file) p < 0
          then [.alertpanel_error "Can't save the part of multipart message."] else []) ++
        [.gtk_selection_data_set
          ("file:/" ++ (env.get_mime_tmp_dir ++ G_DIR_SEPARATOR_S ++ g_basename name))] := by
  unfold mimeview_drag_data_get
  simp only [hopen, hfile, hdata, hp, hname, hseg, if_false]
  by_cases hfail : env.procmime_get_part
      (env.get_mime_tmp_dir ++ G_DIR_SEPARATOR_S ++ g_basename name) (some file) p < 0
  · simp only [hfail, if_true]
    exact ⟨_, rfl, rfl, rfl, by simp⟩
  · simp only [hfail, if_false]
    exact ⟨_, rfl, rfl, rfl, by simp⟩

/-- C30 on the sample view with the attachment "../../etc/a.bin" open and a
failing extractor: the error is reported and the payload
"file://tmp/mime/a.bin" is set all the same. -/
theorem drag_payload_always_set_witness :
    noExtractEnv.procmime_get_part "/tmp/mime/a.bin" (some "/msg") 5 < 0 ∧
    (mimeview_drag_data_get noExtractEnv dragState).map
        (fun s => s.trace.drop dragState.trace.length) =
      some [.procmime_get_part "/tmp/mime/a.bin" (some "/msg") 5,
        .alertpanel_error "Can't save the part of multipart message.",
        .gtk_selection_data_set "file://tmp/mime/a.bin"] ∧
    ∃ s1, mimeview_drag_data_get noExtractEnv dragState = some s1 ∧
      s1.heap = dragState.heap ∧ s1.view = dragState.view ∧
      s1.trace = dragState.trace ++
        [.procmime_get_part
          (noExtractEnv.get_mime_tmp_dir ++ G_DIR_SEPARATOR_S ++ g_basename "../../etc/a.bin")
          (some "/msg") 5] ++
        (if noExtractEnv.procmime_get_part
            (noExtractEnv.get_mime_tmp_dir ++ G_DIR_SEPARATOR_S ++
              g_basename "../../etc/a.bin") (some "/msg") 5 < 0
          then [.alertpanel_error "Can't save the part of multipart message."] else []) ++
        [.gtk_selection_data_set
          ("file:/" ++ (noExtractEnv.get_mime_tmp_dir ++ G_DIR_SEPARATOR_S ++
            g_basename "../../etc/a.bin"))] :=
  ⟨by decide, by decide,
    drag_payload_always_set noExtractEnv dragState 3 5 "/msg" "../../etc/a.bin"
      { blankPart .MIME_APPLICATION_OCTET_STREAM with
          content_type := some "application/octet-stream", parent := some 0,
          name := some "a.bin", filename := some "../../etc/a.bin" }
      rfl rfl (by decide) (by decide) rfl (by decide)⟩


/-! ## External viewers -/

theorem strchr_none (c : Char) (l : List Char) : strchr c l = none ↔ c ∉ l := by
  induction l with
  | nil => simp [strchr]
  | cons x rest ih =>
    rw [strchr]
    by_cases hx : x = c
    · simp [hx]
    · simp only [hx, if_false, ih, List.mem_cons, not_or]
      exact ⟨fun h => ⟨fun hc => hx hc.symm, h⟩, fun h => h.2⟩

theorem strchr_some (c : Char) (l p : List Char) (hp : strchr c l = some p) :
    ∃ front rest, l = front ++ c :: rest ∧ p = c :: rest ∧ c ∉ front := by
  induction l with
  | nil => simp [strchr] at hp
  | cons x tail ih =>
    rw [strchr] at hp
    by_cases hx : x = c
    · simp only [hx, if_true, Option.some.injEq] at hp
      exact ⟨[], tail, by simp [hx], hp.symm, by simp⟩
    · simp only [hx, if_false] at hp
      obtain ⟨front, rest, hl, hpr, hfront⟩ := ih hp
      refine ⟨x :: front, rest, by simp [hl], hpr, ?_⟩
      simp only [List.mem_cons, not_or]
      exact ⟨fun hc => hx hc.symm, hfront⟩

theorem strchr_append (c : Char) (front rest : List Char) (hfront : c ∉ front) :
    strchr c (front ++ c :: rest) = some (c :: rest) := by
  induction front with
  | nil => simp [strchr]
  | cons x tail ih =>
    simp only [List.mem_cons, not_or] at hfront
    rw [List.cons_append, strchr]
    simp only [show ¬ (x = c) from fun h => hfront.1 h.symm, if_false]
    exact ih hfront.2

/-- The test of `mimeview_view_file` on a command line holds exactly when
the line has a '%', an 's' right after its first '%' and no '%' after
that. -/
theorem valid_cmdline_iff (t : List Char) : valid_cmdline t = true ↔ ValidTemplate t := by
  constructor
  · intro hv
    unfold valid_cmdline at hv
    cases hp : strchr '%' t with
    | none => simp [hp] at hv
    | some p =>
      obtain ⟨front, rest, ht, hpr, hfront⟩ := strchr_some '%' t p hp
      subst hpr
      simp only [hp, List.drop_succ_cons, List.drop_zero, Bool.and_eq_true, beq_iff_eq,
        Option.isNone_iff_eq_none] at hv
      cases rest with
      | nil => simp at hv
      | cons y back =>
        simp only [List.head?_cons, Option.some.injEq, List.drop_succ_cons,
          List.drop_zero] at hv
        obtain ⟨hy, hback⟩ := hv
        subst hy
        exact ⟨front, back, ht, hfront, (strchr_none '%' back).1 hback⟩
  · rintro ⟨front, back, rfl, hfront, hback⟩
    unfold valid_cmdline
    rw [strchr_append '%' front _ hfront]
    simp [(strchr_none '%' back).2 hback]

/-- The choice of `cmd` and `def_cmd` in `mimeview_view_file` is the
template and the built-in default, and the function returns at once exactly
for an OctetStream part without explicit command. -/
theorem view_file_commands_spec (env : Env) (partinfo : MimeInfo) (cmdline : Option String) :
    view_file_commands env partinfo cmdline =
      if cmdline = none ∧ partinfo.mime_type = .MIME_APPLICATION_OCTET_STREAM then none
      else some (view_template env partinfo cmdline, view_default partinfo cmdline) := by
  unfold view_file_commands view_template view_default
  cases cmdline with
  | some cmd => simp
  | none =>
    cases hm : partinfo.mime_type <;>
      simp [default_image_cmdline, default_audio_cmdline, default_html_cmdline]

/-- C28: `mimeview_view_file` changes neither the arena nor the view. Its
template is the explicit command if one is given, else by type the
configured image viewer, audio player or URI command, or the metamail
template with the content type put in (none for OctetStream). When the
template is present and has a '%', an 's' right after its first '%' and no
'%' after that, exactly one command is executed: the template with the
file name put in. When the template is absent or fails that test, the
built-in default (Image, Audio, Html without explicit command) is executed
with the file name put in, and where there is no such default no command is
executed; for an OctetStream part without explicit command no call at all
is made. -/
theorem view_file_decision (env : Env) (s : State) (filename : String)
    (partinfo : MimeInfo) (cmdline : Option String) :
    (mimeview_view_file env s filename partinfo cmdline).heap = s.heap ∧
    (mimeview_view_file env s filename partinfo cmdline).view = s.view ∧
    ∃ evs, (mimeview_view_file env s filename partinfo cmdline).trace = s.trace ++ evs ∧
      (∀ t, view_template env partinfo cmdline = some t → ValidTemplate t.toList →
        evs.filter Event.isExec = [.execute_command_line (g_snprintf 1024 t filename)]) ∧
      ((∀ t, view_template env partinfo cmdline = some t → ¬ ValidTemplate t.toList) →
        (∀ d, view_default partinfo cmdline = some d →
          evs.filter Event.isExec = [.execute_command_line (g_snprintf 1024 d filename)]) ∧
        (view_default partinfo cmdline = none → evs.filter Event.isExec = [])) ∧
      (cmdline = none → partinfo.mime_type = .MIME_APPLICATION_OCTET_STREAM → evs = []) := by
  unfold mimeview_view_file
  rw [view_file_commands_spec]
  by_cases hret : cmdline = none ∧ partinfo.mime_type = .MIME_APPLICATION_OCTET_STREAM
  · obtain ⟨hcmd, htype⟩ := hret
    subst hcmd
    have htemplate : view_template env partinfo none = none := by
      simp [view_template, htype]
    have hdefault : view_default partinfo none = none := by
      simp [view_default, htype]
    rw [if_pos ⟨rfl, htype⟩]
    refine ⟨rfl, rfl, [], by simp, ?_, ?_, fun _ _ => rfl⟩
    · intro t ht
      rw [htemplate] at ht
      cases ht
    · intro _
      refine ⟨?_, fun _ => rfl⟩
      intro d hd
      rw [hdefault] at hd
      cases hd
  · simp only [hret, if_false]
    have hnotoctet : cmdline = none →
        partinfo.mime_type = .MIME_APPLICATION_OCTET_STREAM → False :=
      fun h1 h2 => hret ⟨h1, h2⟩
    cases htemplate : view_template env partinfo cmdline with
    | none =>
      cases hdefault : view_default partinfo cmdline with
      | none =>
        refine ⟨rfl, rfl, [], by simp, ?_, ?_, fun _ _ => rfl⟩
        · intro t ht
          cases ht
        · intro _
          exact ⟨fun d hd => (by cases hd), fun _ => rfl⟩
      | some d =>
        refine ⟨rfl, rfl, [.execute_command_line (g_snprintf 1024 d filename)], rfl,
          ?_, ?_, fun h1 h2 => (hnotoctet h1 h2).elim⟩
        · intro t ht
          cases ht
        · intro _
          refine ⟨?_, ?_⟩
          · intro d2 hd2
            cases hd2
            rfl
          · intro hd2
            cases hd2
    | some c =>
      by_cases hvalid : valid_cmdline c.toList = true
      · simp only [hvalid, if_true]
        refine ⟨rfl, rfl, [.execute_command_line (g_snprintf 1024 c filename)], rfl,
          ?_, ?_, fun h1 h2 => (hnotoctet h1 h2).elim⟩
        · intro t ht _
          cases ht
          rfl
        · intro hinvalid
          exact absurd ((valid_cmdline_iff c.toList).1 hvalid) (hinvalid c rfl)
      · simp only [hvalid, if_false]
        have hnot : ¬ ValidTemplate c.toList :=
          fun hv => hvalid ((valid_cmdline_iff c.toList).2 hv)
        cases hdefault : view_default partinfo cmdline with
        | none =>
          refine ⟨rfl, rfl,
            [.g_warning ("MIME viewer command line is invalid: `" ++ c ++ "'")], rfl,
            ?_, ?_, fun h1 h2 => (hnotoctet h1 h2).elim⟩
          · intro t ht hv
            cases ht
            exact absurd hv hnot
          · intro _
            exact ⟨fun d hd => (by cases hd), fun _ => rfl⟩
        | some d =>
          refine ⟨rfl, rfl,
            [.g_warning ("MIME viewer command line is invalid: `" ++ c ++ "'"),
              .execute_command_line (g_snprintf 1024 d filename)], by simp,
            ?_, ?_, fun h1 h2 => (hnotoctet h1 h2).elim⟩
          · intro t ht hv
            cases ht
            exact absurd hv hnot
          · intro _
            refine ⟨?_, ?_⟩
            · intro d2 hd2
              cases hd2
              rfl
            · intro hd2
              cases hd2

/-- C28 on the sample view: launching the open Image part runs the
configured viewer "display '%s'" on the extracted file, launching the open
OctetStream attachment runs nothing, and a viewer setting with two
conversions gives way to the built-in default. -/
theorem view_file_decision_witness :
    (mimeview_launch okEnv imageOpenState).map (fun s => s.trace) =
      some [.procmime_get_part "/tmp/part" (some "/msg") 4,
        .execute_command_line "display '/tmp/part'"] ∧
    (mimeview_launch okEnv attachmentOpenState).map
        (fun s => s.trace.drop attachmentOpenState.trace.length) =
      some [.procmime_get_part "/tmp/part" (some "/msg") 5] ∧
    (mimeview_view_file { okEnv with mime_image_viewer := some "xv %d %s" } sampleState
        "/tmp/part" (blankPart .MIME_IMAGE) none).trace =
      [.g_warning "MIME viewer command line is invalid: `xv %d %s'",
        .execute_command_line "display '/tmp/part'"] ∧
    ((mimeview_view_file okEnv sampleState "/tmp/part" (blankPart .MIME_IMAGE) none).heap =
        sampleState.heap ∧
      (mimeview_view_file okEnv sampleState "/tmp/part" (blankPart .MIME_IMAGE) none).view =
        sampleState.view ∧
      ∃ evs, (mimeview_view_file okEnv sampleState "/tmp/part" (blankPart .MIME_IMAGE)
          none).trace = sampleState.trace ++ evs ∧
        (∀ t, view_template okEnv (blankPart .MIME_IMAGE) none = some t →
          ValidTemplate t.toList →
          evs.filter Event.isExec =
            [.execute_command_line (g_snprintf 1024 t "/tmp/part")]) ∧
        ((∀ t, view_template okEnv (blankPart .MIME_IMAGE) none = some t →
            ¬ ValidTemplate t.toList) →
          (∀ d, view_default (blankPart .MIME_IMAGE) none = some d →
            evs.filter Event.isExec =
              [.execute_command_line (g_snprintf 1024 d "/tmp/part")]) ∧
          (view_default (blankPart .MIME_IMAGE) none = none →
            evs.filter Event.isExec = [])) ∧
        ((none : Option String) = none →
          (blankPart .MIME_IMAGE).mime_type = .MIME_APPLICATION_OCTET_STREAM → evs = [])) :=
  ⟨by decide, by decide, by decide,
    view_file_decision okEnv sampleState "/tmp/part" (blankPart .MIME_IMAGE) none⟩


/-! ## The view-mode invariant -/

/-- One mode switch keeps the container holding exactly the widget bound
to the mode. -/
theorem change_view_type_bound (s : State) (type : MimeViewType)
    (hbound : s.view.vbox = bound_widgets s.view.type) :
    (mimeview_change_view_type s type).view.vbox =
      bound_widgets (mimeview_change_view_type s type).view.type := by
  unfold mimeview_change_view_type
  by_cases heq : s.view.type = type
  · simp only [heq, if_true]
    rw [hbound, heq]
  · simp only [heq, if_false]
    cases type with
    | MIMEVIEW_NONE => exact hbound
    | MIMEVIEW_IMAGE =>
      simp only [gtk_container_add, gtk_container_remove, hbound]
      cases hcur : s.view.type with
      | MIMEVIEW_NONE => decide
      | MIMEVIEW_IMAGE => exact absurd hcur heq
      | MIMEVIEW_TEXT => decide
    | MIMEVIEW_TEXT =>
      simp only [gtk_container_add, gtk_container_remove, hbound]
      cases hcur : s.view.type with
      | MIMEVIEW_NONE => decide
      | MIMEVIEW_IMAGE => decide
      | MIMEVIEW_TEXT => exact absurd hcur heq

theorem change_view_type_fold_bound (targets : List MimeViewType) :
    ∀ s : State, s.view.vbox = bound_widgets s.view.type →
      (targets.foldl mimeview_change_view_type s).view.vbox =
        bound_widgets (targets.foldl mimeview_change_view_type s).view.type := by
  induction targets with
  | nil => intro s h; exact h
  | cons t ts ih =>
    intro s h
    exact ih _ (change_view_type_bound s t h)

/-- C27: from mode None with neither widget attached, after every finite
sequence of `mimeview_change_view_type` calls the container holds exactly
the widget bound to the current mode (none for None); the text and the
image widget are never attached together and no widget is attached
twice. -/
theorem set_mode_invariant (s : State) (targets : List MimeViewType)
    (htype : s.view.type = .MIMEVIEW_NONE) (hvbox : s.view.vbox = []) :
    (targets.foldl mimeview_change_view_type s).view.vbox =
      bound_widgets (targets.foldl mimeview_change_view_type s).view.type ∧
    ¬ (Widget.textview ∈ (targets.foldl mimeview_change_view_type s).view.vbox ∧
      Widget.imageview ∈ (targets.foldl mimeview_change_view_type s).view.vbox) ∧
    (targets.foldl mimeview_change_view_type s).view.vbox.Nodup := by
  have hinv := change_view_type_fold_bound targets s (by rw [hvbox, htype]; rfl)
  refine ⟨hinv, ?_, ?_⟩
  · rw [hinv]
    cases (targets.foldl mimeview_change_view_type s).view.type <;> decide
  · rw [hinv]
    cases (targets.foldl mimeview_change_view_type s).view.type <;> decide

/-- C27 on the sample view (mode None, nothing attached) switched to Text,
Image, Image and Text in turn. -/
theorem set_mode_invariant_witness :
    sampleState.view.type = .MIMEVIEW_NONE ∧ sampleState.view.vbox = [] ∧
    ([MimeViewType.MIMEVIEW_TEXT, .MIMEVIEW_IMAGE, .MIMEVIEW_IMAGE, .MIMEVIEW_TEXT].foldl
      mimeview_change_view_type sampleState).view.vbox = [.textview] ∧
    (([MimeViewType.MIMEVIEW_TEXT, .MIMEVIEW_IMAGE, .MIMEVIEW_IMAGE, .MIMEVIEW_TEXT].foldl
        mimeview_change_view_type sampleState).view.vbox =
      bound_widgets
        ([MimeViewType.MIMEVIEW_TEXT, .MIMEVIEW_IMAGE, .MIMEVIEW_IMAGE, .MIMEVIEW_TEXT].foldl
          mimeview_change_view_type sampleState).view.type ∧
    ¬ (Widget.textview ∈
        ([MimeViewType.MIMEVIEW_TEXT, .MIMEVIEW_IMAGE, .MIMEVIEW_IMAGE, .MIMEVIEW_TEXT].foldl
          mimeview_change_view_type sampleState).view.vbox ∧
      Widget.imageview ∈
        ([MimeViewType.MIMEVIEW_TEXT, .MIMEVIEW_IMAGE, .MIMEVIEW_IMAGE, .MIMEVIEW_TEXT].foldl
          mimeview_change_view_type sampleState).view.vbox) ∧
    ([MimeViewType.MIMEVIEW_TEXT, .MIMEVIEW_IMAGE, .MIMEVIEW_IMAGE, .MIMEVIEW_TEXT].foldl
      mimeview_change_view_type sampleState).view.vbox.Nodup) :=
  ⟨rfl, rfl, by decide,
    set_mode_invariant sampleState
      [.MIMEVIEW_TEXT, .MIMEVIEW_IMAGE, .MIMEVIEW_IMAGE, .MIMEVIEW_TEXT] rfl rfl⟩


/-! ## Row texts -/

/-- Every row the traversal adds carries the name `get_part_name` gives
for its part and, as type, the content type of the part or the empty
string. -/
theorem run_rows_columns {env : Env} {h : Heap} {call : Call} {parent : Option Nat}
    {ctree out : List Row} (hrun : Run env h call parent ctree out) :
    ∀ r ∈ out, r ∈ ctree ∨ ∃ partinfo, h[r.data]? = some partinfo ∧
      r.str.name = get_part_name env partinfo ∧
      r.str.mimetype = partinfo.content_type.getD "" := by
  induction hrun with
  | tree_null parent ctree => exact fun r hr => Or.inl hr
  | tree_node p mimeinfo parent ctree mid out hp _ _ ihsub ihch =>
    intro r hr
    rcases ihch r hr with hmid | hs
    · rcases ihsub r hmid with hown | hs
      · unfold set_own_row mimeview_append_part at hown
        by_cases hsh : shown mimeinfo = true
        · simp only [hsh, if_true, List.mem_append, List.mem_singleton] at hown
          rcases hown with hc | rfl
          · exact Or.inl hc
          · exact Or.inr ⟨mimeinfo, hp, rfl, rfl⟩
        · simp only [hsh] at hown
          exact Or.inl hown
      · exact Or.inr hs
    · exact Or.inr hs
  | sub_none parent ctree => exact fun r hr => Or.inl hr
  | sub_leaf s sub parent ctree _ _ => exact fun r hr => Or.inl hr
  | sub_visit s sub parent ctree out _ _ _ ih => exact ih
  | children_null parent ctree => exact fun r hr => Or.inl hr
  | children_cons c child parent ctree mid out _ _ _ iht ihn =>
    intro r hr
    rcases ihn r hr with hmid | hs
    · exact iht r hmid
    · exact Or.inr hs

/-- C29: `get_part_name` gives, in this order of precedence, the signature
status of the part when it has one and signature support is configured,
else its name, else its file name, else the empty string (a string in
every case). On a closed acyclic part graph the tree for a message is
built, and every row of it shows that name for its part, and as type the
content type of the part, or the empty string when the part has none. -/
theorem row_name_precedence (env : Env) (h : Heap) (rank : Nat → Nat)
    (hwf : Acyclic h rank) (root : Nat) (hroot : root < h.length) :
    (∀ partinfo : MimeInfo,
      (env.use_gpgme = true → ∀ st, partinfo.sigstatus = some st →
        get_part_name env partinfo = st) ∧
      ((env.use_gpgme = false ∨ partinfo.sigstatus = none) →
        (∀ n, partinfo.name = some n → get_part_name env partinfo = n) ∧
        (partinfo.name = none →
          (∀ f, partinfo.filename = some f → get_part_name env partinfo = f) ∧
          (partinfo.filename = none → get_part_name env partinfo = "")))) ∧
    ∃ rows fuel, (∀ fuel2, fuel ≤ fuel2 → flatten env h fuel2 root = some rows) ∧
      ∀ r ∈ rows, ∃ partinfo, h[r.data]? = some partinfo ∧
        r.str.name = get_part_name env partinfo ∧
        (∀ ct, partinfo.content_type = some ct → r.str.mimetype = ct) ∧
        (partinfo.content_type = none → r.str.mimetype = "") := by
  constructor
  · intro partinfo
    constructor
    · intro hg st hst
      simp [get_part_name, hg, hst]
    · intro hno
      have hcond : (env.use_gpgme && partinfo.sigstatus.isSome) = false := by
        rcases hno with hg | hs
        · simp [hg]
        · simp [hs]
      refine ⟨?_, ?_⟩
      · intro n hn
        simp [get_part_name, hcond, hn]
      · intro hname
        refine ⟨?_, ?_⟩
        · intro f hf
          simp [get_part_name, hcond, hname, hf]
        · intro hf
          simp [get_part_name, hcond, hname, hf]
  · obtain ⟨rows, fuel, htotal⟩ := flatten_total env h rank hwf root hroot
    refine ⟨rows, fuel, htotal, ?_⟩
    have hrun := htotal fuel (Nat.le_refl _)
    intro r hr
    rcases run_rows_columns (run_of_flatten hrun) r hr with hnil | ⟨partinfo, hp, hn, hm⟩
    · cases hnil
    · refine ⟨partinfo, hp, hn, ?_, ?_⟩
      · intro ct hct
        rw [hm, hct]
        rfl
      · intro hct
        rw [hm, hct]
        rfl

/-- C29 on the sample message: the row of the attachment shows its name
"a.bin" and its content type. -/
theorem row_name_precedence_witness :
    Acyclic sampleHeap (fun p => 6 - p) ∧
    flatten okEnv sampleHeap 10 0 = some sampleRows ∧
    (sampleRows[3]?).map (fun r => (r.data, r.str.name, r.str.mimetype)) =
      some (5, "a.bin", "application/octet-stream") ∧
    (∀ partinfo : MimeInfo,
      (okEnv.use_gpgme = true → ∀ st, partinfo.sigstatus = some st →
        get_part_name okEnv partinfo = st) ∧
      ((okEnv.use_gpgme = false ∨ partinfo.sigstatus = none) →
        (∀ n, partinfo.name = some n → get_part_name okEnv partinfo = n) ∧
        (partinfo.name = none →
          (∀ f, partinfo.filename = some f → get_part_name okEnv partinfo = f) ∧
          (partinfo.filename = none → get_part_name okEnv partinfo = "")))) ∧
    ∃ rows fuel, (∀ fuel2, fuel ≤ fuel2 → flatten okEnv sampleHeap fuel2 0 = some rows) ∧
      ∀ r ∈ rows, ∃ partinfo, sampleHeap[r.data]? = some partinfo ∧
        r.str.name = get_part_name okEnv partinfo ∧
        (∀ ct, partinfo.content_type = some ct → r.str.mimetype = ct) ∧
        (partinfo.content_type = none → r.str.mimetype = "") :=
  ⟨by decide, by decide, by decide,
    row_name_precedence okEnv sampleHeap (fun p => 6 - p) (by decide) 0 (by decide)⟩


/-! ## The rows, exactly -/

theorem tree_shaped_node {h : Heap} {l : Labels} (htree : TreeShaped h l) {p : Nat}
    {mimeinfo : MimeInfo} (hp : h[p]? = some mimeinfo) :
    l.enter p ≤ l.exit p ∧ l.exit p ≤ l.chain p ∧
    (∀ s, mimeinfo.sub = some s → l.enter p < l.enter s ∧ l.exit s ≤ l.exit p) ∧
    (∀ c, mimeinfo.children = some c → l.enter p < l.enter c ∧ l.chain c ≤ l.exit p ∧
      ∀ s, mimeinfo.sub = some s → l.exit s < l.enter c) ∧
    (∀ n, mimeinfo.next = some n → l.exit p < l.enter n ∧ l.chain n ≤ l.chain p) := by
  have hlt : p < h.length := (List.getElem?_eq_some.1 hp).1
  have hok := htree p hlt
  simp only [treeOk, hp, Bool.and_eq_true, decide_eq_true_eq] at hok
  obtain ⟨⟨⟨⟨h1, h2⟩, hsub⟩, hch⟩, hnext⟩ := hok
  refine ⟨h1, h2, ?_, ?_, ?_⟩
  · intro s hs
    simpa [hs] using hsub
  · intro c hc
    simp only [hc, Bool.and_eq_true, decide_eq_true_eq] at hch
    refine ⟨hch.1.1, hch.1.2, ?_⟩
    intro s hs
    simpa [hs] using hch.2
  · intro n hn
    simpa [hn] using hnext

theorem own_row_cases (env : Env) (p : Nat) (mimeinfo : MimeInfo) (parent : Option Nat) :
    (set_own_row env [] p mimeinfo parent).1 = [] ∨
      (set_own_row env [] p mimeinfo parent).1 = [part_row env p mimeinfo parent] := by
  unfold set_own_row mimeview_append_part
  split
  · exact Or.inr rfl
  · exact Or.inl rfl

/-- On a tree-shaped part graph the rows a call appends stand for parts
with strictly increasing entry times, all in the interval of the call. -/
theorem run_span {env : Env} {h : Heap} {l : Labels} (htree : TreeShaped h l)
    {call : Call} {parent : Option Nat} {ctree out : List Row}
    (hrun : Run env h call parent ctree out) :
    ∃ seg, out = ctree ++ seg ∧
      (seg.map (fun r => l.enter r.data)).Pairwise (· < ·) ∧
      ∀ r ∈ seg, InSpan l call (l.enter r.data) := by
  induction hrun with
  | tree_null parent ctree => exact ⟨[], by simp, by simp, fun _ hr => by cases hr⟩
  | tree_node p mimeinfo parent ctree mid out hp _ _ ihsub ihch =>
    obtain ⟨seg1, h1, pw1, in1⟩ := ihsub
    obtain ⟨seg2, h2, pw2, in2⟩ := ihch
    obtain ⟨hpe, _, hsub, hch, _⟩ := tree_shaped_node htree hp
    rw [set_own_row_fst] at h1
    have hown : ∀ r ∈ (set_own_row env [] p mimeinfo parent).1, r.data = p := by
      intro r hr
      rcases own_row_cases env p mimeinfo parent with h0 | h0
      · rw [h0] at hr
        cases hr
      · rw [h0] at hr
        simp only [List.mem_singleton] at hr
        rw [hr]
        rfl
    have hpwown : ((set_own_row env [] p mimeinfo parent).1.map
        (fun r => l.enter r.data)).Pairwise (· < ·) := by
      rcases own_row_cases env p mimeinfo parent with h0 | h0 <;> rw [h0] <;> simp
    have hseg1 : ∀ r ∈ seg1, l.enter p < l.enter r.data ∧ l.enter r.data ≤ l.exit p ∧
        ∀ c, mimeinfo.children = some c → l.enter r.data < l.enter c := by
      intro r hr
      have hin := in1 r hr
      cases hs : mimeinfo.sub with
      | none =>
        rw [hs] at hin
        exact hin.elim
      | some s =>
        rw [hs] at hin
        obtain ⟨ha, hb⟩ := hsub s hs
        have hin2 : l.enter s ≤ l.enter r.data ∧ l.enter r.data ≤ l.exit s := hin
        refine ⟨by omega, by omega, ?_⟩
        intro c hc
        have := (hch c hc).2.2 s hs
        omega
    have hseg2 : ∀ r ∈ seg2, l.enter p < l.enter r.data ∧ l.enter r.data ≤ l.exit p ∧
        ∃ c, mimeinfo.children = some c ∧ l.enter c ≤ l.enter r.data := by
      intro r hr
      have hin := in2 r hr
      cases hc : mimeinfo.children with
      | none =>
        rw [hc] at hin
        exact hin.elim
      | some c =>
        rw [hc] at hin
        obtain ⟨ha, hb, _⟩ := hch c hc
        have hin2 : l.enter c ≤ l.enter r.data ∧ l.enter r.data ≤ l.chain c := hin
        exact ⟨by omega, by omega, c, rfl, hin2.1⟩
    refine ⟨(set_own_row env [] p mimeinfo parent).1 ++ seg1 ++ seg2, ?_, ?_, ?_⟩
    · rw [h2, h1]
      simp
    · rw [List.map_append, List.map_append, List.pairwise_append, List.pairwise_append]
      refine ⟨⟨hpwown, pw1, ?_⟩, pw2, ?_⟩
      · intro a ha b hb
        simp only [List.mem_map] at ha hb
        obtain ⟨r1, hr1, rfl⟩ := ha
        obtain ⟨r2, hr2, rfl⟩ := hb
        rw [hown r1 hr1]
        exact (hseg1 r2 hr2).1
      · intro a ha b hb
        simp only [List.mem_append, List.mem_map] at ha hb
        obtain ⟨r2, hr2, rfl⟩ := hb
        obtain ⟨hgt, _, c, hc, hge⟩ := hseg2 r2 hr2
        rcases ha with ⟨r1, hr1, rfl⟩ | ⟨r1, hr1, rfl⟩
        · rw [hown r1 hr1]
          exact hgt
        · have := (hseg1 r1 hr1).2.2 c hc
          omega
    · intro r hr
      simp only [List.mem_append] at hr
      show l.enter p ≤ l.enter r.data ∧ l.enter r.data ≤ l.exit p
      rcases hr with (hr | hr) | hr
      · rw [hown r hr]
        exact ⟨Nat.le_refl _, hpe⟩
      · have := hseg1 r hr
        omega
      · have := hseg2 r hr
        omega
  | sub_none parent ctree => exact ⟨[], by simp, by simp, fun _ hr => by cases hr⟩
  | sub_leaf s sub parent ctree _ _ =>
    exact ⟨[], by simp, by simp, fun _ hr => by cases hr⟩
  | sub_visit s sub parent ctree out _ _ _ ih => exact ih
  | children_null parent ctree =>
    exact ⟨[], by simp, by simp, fun _ hr => by cases hr⟩
  | children_cons c child parent ctree mid out _ hc _ iht ihn =>
    obtain ⟨seg1, h1, pw1, in1⟩ := iht
    obtain ⟨seg2, h2, pw2, in2⟩ := ihn
    obtain ⟨_, hchain, _, _, hnext⟩ := tree_shaped_node htree hc
    have hseg1 : ∀ r ∈ seg1, l.enter c ≤ l.enter r.data ∧ l.enter r.data ≤ l.exit c :=
      fun r hr => in1 r hr
    have hseg2 : ∀ r ∈ seg2, l.exit c < l.enter r.data ∧ l.enter r.data ≤ l.chain c := by
      intro r hr
      have hin := in2 r hr
      cases hn : child.next with
      | none =>
        rw [hn] at hin
        exact hin.elim
      | some n =>
        rw [hn] at hin
        obtain ⟨ha, hb⟩ := hnext n hn
        have hin2 : l.enter n ≤ l.enter r.data ∧ l.enter r.data ≤ l.chain n := hin
        exact ⟨by omega, by omega⟩
    refine ⟨seg1 ++ seg2, ?_, ?_, ?_⟩
    · rw [h2, h1]
      simp
    · rw [List.map_append, List.pairwise_append]
      refine ⟨pw1, pw2, ?_⟩
      intro a ha b hb
      simp only [List.mem_map] at ha hb
      obtain ⟨r1, hr1, rfl⟩ := ha
      obtain ⟨r2, hr2, rfl⟩ := hb
      have := hseg1 r1 hr1
      have := hseg2 r2 hr2
      omega
    · intro r hr
      simp only [List.mem_append] at hr
      show l.enter c ≤ l.enter r.data ∧ l.enter r.data ≤ l.chain c
      rcases hr with hr | hr
      · have := hseg1 r hr
        omega
      · have := hseg2 r hr
        have := hseg1
        omega

/-- On a tree-shaped part graph no part stands in two rows. -/
theorem run_nodup {env : Env} {h : Heap} {l : Labels} (htree : TreeShaped h l)
    {root : Nat} {rows : List Row} (hrun : Run env h (.tree (some root)) none [] rows) :
    (rows.map Row.data).Nodup := by
  obtain ⟨seg, hseg, hpw, _⟩ := run_span htree hrun
  rw [List.nil_append] at hseg
  subst hseg
  rw [List.pairwise_map] at hpw
  rw [List.Nodup, List.pairwise_map]
  refine hpw.imp ?_
  intro a b hab heq
  rw [heq] at hab
  exact Nat.lt_irrefl _ hab

/-- The rows of a message stand for exactly the parts the traversal
reaches that satisfy the row condition. -/
theorem run_row_iff {env : Env} {h : Heap} {root : Nat} {rows : List Row}
    (hrun : Run env h (.tree (some root)) none [] rows) (n : Nat) :
    n ∈ rows.map Row.data ↔ RowNode h root n := by
  constructor
  · intro hn
    simp only [List.mem_map] at hn
    obtain ⟨r, hr, rfl⟩ := hn
    obtain ⟨i, hi, hget⟩ := List.getElem_of_mem hr
    have hcov : Visited h root r.data :=
      run_covers hrun i r (Nat.zero_le _) (by rw [List.getElem?_eq_getElem hi, hget])
    rcases run_rows_shown hrun r hr with hnil | ⟨mimeinfo, hp, hsh⟩
    · cases hnil
    · refine ⟨hcov, mimeinfo, hp, ?_, ?_⟩
      · simp only [shown, Bool.and_eq_true, Option.isNone_iff_eq_none] at hsh
        exact hsh.1
      · simp only [shown, Bool.and_eq_true] at hsh
        exact hsh.2
  · rintro ⟨hvis, mimeinfo, hp, hmain, hparent⟩
    obtain ⟨r, hr, hd⟩ := run_visited hvis hrun hp (by simp [shown, hmain, hparent])
    exact List.mem_map.2 ⟨r, hr, hd⟩

/-- C26: on a closed, acyclic, tree-shaped part graph `flatten` returns,
and a part has a row exactly when the traversal reaches it (through
children links, and through a `sub` link only when the `sub` part has
children), its `main` is unset and its `parent` is set. Every such part
has exactly one row, no part stands in two rows, and the number of rows is
the number of such parts. -/
theorem flatten_rows_exact (env : Env) (h : Heap) (rank : Nat → Nat) (l : Labels)
    (hwf : Acyclic h rank) (htree : TreeShaped h l) (root : Nat) (hroot : root < h.length) :
    ∃ rows fuel, (∀ fuel2, fuel ≤ fuel2 → flatten env h fuel2 root = some rows) ∧
      (∀ n, (∃ r ∈ rows, r.data = n) ↔ RowNode h root n) ∧
      (∀ n, RowNode h root n → (rows.filter (fun r => decide (r.data = n))).length = 1) ∧
      (rows.map Row.data).Nodup ∧
      ∃ nodes : Finset Nat, (∀ n, n ∈ nodes ↔ RowNode h root n) ∧
        rows.length = nodes.card := by
  obtain ⟨rows, fuel, htotal⟩ := flatten_total env h rank hwf root hroot
  have hrun := run_of_flatten (htotal fuel (Nat.le_refl _))
  have hnodup := run_nodup htree hrun
  have hiff := run_row_iff hrun
  refine ⟨rows, fuel, htotal, ?_, ?_, hnodup, (rows.map Row.data).toFinset, ?_, ?_⟩
  · intro n
    rw [← hiff n, List.mem_map]
  · intro n hn
    have hmem : n ∈ rows.map Row.data := (hiff n).2 hn
    have hcount := List.count_eq_one_of_mem hnodup hmem
    rw [List.count_eq_countP, List.countP_map, List.countP_eq_length_filter] at hcount
    rw [← hcount]
    congr 1
  · intro n
    rw [List.mem_toFinset, hiff n]
  · rw [List.toFinset_card_of_nodup hnodup, List.length_map]

/-- C26 on the sample message: its depth-first labelling is `sampleLabels`,
and the four rows stand for the parts 1, 2, 4 and 5, each once. -/
theorem flatten_rows_exact_witness :
    Acyclic sampleHeap (fun p => 6 - p) ∧ TreeShaped sampleHeap sampleLabels ∧
    flatten okEnv sampleHeap 10 0 = some sampleRows ∧
    sampleRows.map Row.data = [1, 2, 4, 5] ∧
    ∃ rows fuel, (∀ fuel2, fuel ≤ fuel2 → flatten okEnv sampleHeap fuel2 0 = some rows) ∧
      (∀ n, (∃ r ∈ rows, r.data = n) ↔ RowNode sampleHeap 0 n) ∧
      (∀ n, RowNode sampleHeap 0 n →
        (rows.filter (fun r => decide (r.data = n))).length = 1) ∧
      (rows.map Row.data).Nodup ∧
      ∃ nodes : Finset Nat, (∀ n, n ∈ nodes ↔ RowNode sampleHeap 0 n) ∧
        rows.length = nodes.card :=
  ⟨by decide, by decide, by decide, by decide,
    flatten_rows_exact okEnv sampleHeap (fun p => 6 - p) sampleLabels (by decide) (by decide)
      0 (by decide)⟩

end ClawsMail

